import Mathlib

/-!
Verification development for a clinical-document extraction pipeline.

The definitions below are a shallow embedding, in Lean, of the TypeScript
modules `ollamaExtractor.ts` and `fhirBuilder.ts`: strings are `String`
(lists of characters), JavaScript values decoded from JSON are the
inductive `JValue`, JavaScript numbers are `Rat` with `Option Rat`
standing for possibly-NaN results, and each regular expression of the
source is hand-compiled to an explicit scanning function with the same
match semantics.  Theorems about the claims of the specification follow
the definitions.
-/

set_option maxRecDepth 10000

/-! ### Character helpers -/

/-- Left-brace character (written by code point to keep braces out of literals). -/
def lbraceChar : Char := Char.ofNat 123

/-- Right-brace character. -/
def rbraceChar : Char := Char.ofNat 125

/-- JavaScript whitespace class (the common members of `\s`). -/
def isWsJS (c : Char) : Bool :=
  c == ' ' || c == '\t' || c == '\n' || c == '\r' ||
  c == Char.ofNat 11 || c == Char.ofNat 12 || c == Char.ofNat 160

/-- ASCII decimal digit test. -/
def isDigitC (c : Char) : Bool := '0' ≤ c && c ≤ '9'

/-- ASCII word character, the `\w` class used by `\b` boundaries. -/
def isWordC (c : Char) : Bool :=
  ('a' ≤ c && c ≤ 'z') || ('A' ≤ c && c ≤ 'Z') || isDigitC c || c == '_'

/-- ASCII upper-casing of one character (`String.prototype.toUpperCase` on our inputs). -/
def upC (c : Char) : Char :=
  if 'a' ≤ c && c ≤ 'z' then Char.ofNat (c.toNat - 32) else c

/-- ASCII lower-casing of one character. -/
def loC (c : Char) : Char :=
  if 'A' ≤ c && c ≤ 'Z' then Char.ofNat (c.toNat + 32) else c

/-- Case-insensitive character equality (ASCII). -/
def eqCI (c d : Char) : Bool := upC c == upC d

/-! ### List-of-characters string operations -/

/-- Does `pat` occur literally at the head of `hay`? -/
def litHere : List Char → List Char → Bool
  | [], _ => true
  | _ :: _, [] => false
  | p :: ps, h :: hs => p == h && litHere ps hs

/-- Does `pat` occur case-insensitively at the head of `hay`?  Returns the rest. -/
def litHereCI : List Char → List Char → Option (List Char)
  | [], hay => some hay
  | _ :: _, [] => none
  | p :: ps, h :: hs => if eqCI p h then litHereCI ps hs else none

/-- Index of the first occurrence of `pat` in `hay` (JS `indexOf`), if any. -/
def idxOfAux (pat : List Char) : List Char → Nat → Option Nat
  | [], i => if litHere pat [] then some i else none
  | h :: hs, i => if litHere pat (h :: hs) then some i else idxOfAux pat hs (i + 1)

/-- JS `hay.indexOf(pat)`. -/
def idxOf (hay pat : List Char) : Option Nat := idxOfAux pat hay 0

/-- JS `hay.indexOf(pat, from)`: first occurrence at index `≥ from`. -/
def idxOfFrom (hay pat : List Char) (start : Nat) : Option Nat :=
  match idxOf (hay.drop start) pat with
  | some i => some (start + i)
  | none => none

/-- All indices at which `pat` occurs in `hay`. -/
def idxAllAux (pat : List Char) : List Char → Nat → List Nat
  | [], i => if litHere pat [] then [i] else []
  | h :: hs, i =>
    (if litHere pat (h :: hs) then [i] else []) ++ idxAllAux pat hs (i + 1)

/-- JS `hay.lastIndexOf(pat)`. -/
def lastIdxOf (hay pat : List Char) : Option Nat :=
  (idxAllAux pat hay 0).getLast?

/-- Substring containment (JS `includes`). -/
def hasSub (hay pat : List Char) : Bool := (idxOf hay pat).isSome

/-- JS `substring(start, stop)` with the clamping/swapping behaviour of JS. -/
def subStr (l : List Char) (start stop : Nat) : List Char :=
  let a := min start l.length
  let b := min stop l.length
  ((l.drop (min a b)).take (max a b - min a b))

/-- Trim JS whitespace from both ends. -/
def trimL (l : List Char) : List Char :=
  ((l.dropWhile isWsJS).reverse.dropWhile isWsJS).reverse

/-- ASCII upper-casing of a character list. -/
def upL (l : List Char) : List Char := l.map upC

/-- ASCII lower-casing of a character list. -/
def loL (l : List Char) : List Char := l.map loC

/-- Greedy run of decimal digits (maximal munch of `\d*`). -/
def takeDigitsL : List Char → List Char × List Char
  | c :: cs =>
    if isDigitC c then
      let (ds, r) := takeDigitsL cs
      (c :: ds, r)
    else ([], c :: cs)
  | [] => ([], [])

/-- Greedy run of JS whitespace (maximal munch of `\s*`). -/
def takeWsL : List Char → List Char × List Char
  | c :: cs =>
    if isWsJS c then
      let (ws, r) := takeWsL cs
      (c :: ws, r)
    else ([], c :: cs)
  | [] => ([], [])

/-- Numeric value of a nonempty digit run. -/
def digitsVal (ds : List Char) : Nat :=
  ds.foldl (fun acc c => acc * 10 + (c.toNat - '0'.toNat)) 0

/-- JS `parseInt(s)` restricted to base 10: skip leading whitespace, optional
sign, then a maximal digit run; `none` models `NaN`. -/
def parseIntJS (l : List Char) : Option Int :=
  let l1 := l.dropWhile isWsJS
  let (neg, l2) : Bool × List Char :=
    match l1 with
    | '-' :: r => (true, r)
    | '+' :: r => (false, r)
    | _ => (false, l1)
  let (ds, _) := takeDigitsL l2
  if ds.isEmpty then none
  else some (if neg then -(digitsVal ds : Int) else (digitsVal ds : Int))

/-- Is the head of the list, if any, a non-digit?  The condition under which a
maximal digit run stops exactly at a list boundary. -/
def nonDigitHead : List Char → Bool
  | [] => true
  | c :: _ => !isDigitC c

/-- String-level wrappers. -/
def strUp (s : String) : String := ⟨upL s.data⟩

/-- Lower-case a string (ASCII). -/
def strLo (s : String) : String := ⟨loL s.data⟩

/-- Trim a string (JS `trim`). -/
def strTrim (s : String) : String := ⟨trimL s.data⟩

/-- JS `hay.includes(pat)` on strings. -/
def strHasSub (hay pat : String) : Bool := hasSub hay.data pat.data

/-- JS string length. -/
def strLen (s : String) : Nat := s.data.length

/-! ### JavaScript values

`JValue` models the values that `JSON.parse` can produce (plus, via
`Option JValue`, the `undefined` of a missing property).  JavaScript
numbers are modelled as `Rat`; a possibly-`NaN` numeric result is
`Option Rat` with `none` for `NaN`. -/

inductive JValue where
  | jnull
  | jbool (b : Bool)
  | jnum (q : Rat)
  | jstr (s : String)
  | jarr (xs : List JValue)
  | jobj (fs : List (String × JValue))

/-- Property access `o[k]`: `none` models `undefined`.  On a duplicate key the
last binding wins, matching what `JSON.parse` leaves in the object. -/
def fieldOf (v : JValue) (k : String) : Option JValue :=
  match v with
  | .jobj fs => (fs.filter (fun p => p.1 == k)).getLast? |>.map (fun p => p.2)
  | _ => none

/-- JS `Number()` coercion of a string (`StringToNumber`): whitespace-only is 0
and optional-sign decimal literals are parsed; other forms (hex, exponent,
`Infinity`) are outside this embedding and yield `none` (`NaN`). -/
def strToNumber (l : List Char) : Option Rat :=
  let t := trimL l
  match t with
  | [] => some 0
  | _ =>
    let (neg, r) : Bool × List Char :=
      match t with
      | '-' :: r => (true, r)
      | '+' :: r => (false, r)
      | _ => (false, t)
    let (ds, r2) := takeDigitsL r
    let (value, rest) : Option Rat × List Char :=
      match r2 with
      | '.' :: r3 =>
        let (fs, r4) := takeDigitsL r3
        if ds.isEmpty && fs.isEmpty then (none, r4)
        else (some ((digitsVal ds : Rat) + (digitsVal fs : Rat) / ((10 : Rat) ^ fs.length)), r4)
      | _ => (if ds.isEmpty then none else some (digitsVal ds : Rat), r2)
    match value, rest with
    | some q, [] => some (if neg then -q else q)
    | _, _ => none

/-- Decimal rendering of an integer. -/
def intToStr (n : Int) : String := toString n

/-- JS number-to-string for the numbers this pipeline handles: exact for
integral values; non-integral values are rendered with up to 17 truncated
fractional digits (an approximation of float printing, unexercised here). -/
def ratToStr (q : Rat) : String :=
  if q.den == 1 then intToStr q.num
  else
    let sgn := if q.num < 0 then "-" else ""
    let a := q.num.natAbs
    let d := q.den
    let ip := a / d
    let fracDigits : Nat → Nat → List Char → List Char :=
      fun fuel => Nat.rec (fun _ acc => acc.reverse)
        (fun _ ih rem acc =>
          if rem == 0 then acc.reverse
          else ih (rem * 10 % d) (Char.ofNat ('0'.toNat + rem * 10 / d) :: acc)) fuel
    sgn ++ intToStr ip ++ "." ++ ⟨fracDigits 17 (a % d) []⟩

mutual

/-- JS `String(v)` for a defined, non-null value (arrays join their elements
with commas, as `Array.prototype.toString` does). -/
def jsToString : JValue → String
  | .jnull => "null"
  | .jbool b => if b then "true" else "false"
  | .jnum q => ratToStr q
  | .jstr s => s
  | .jarr xs => ⟨jsToStringArr xs⟩
  | .jobj _ => "[object Object]"

/-- Comma-joined coercions of array elements. -/
def jsToStringArr : List JValue → List Char
  | [] => []
  | [x] => (jsToString x).data
  | x :: y :: rest => (jsToString x).data ++ ',' :: jsToStringArr (y :: rest)

end

/-- JS `Number()` coercion of a value; `none` is `NaN` and also the argument
for a missing (`undefined`) value.  An array coerces through its string
form (so the empty array is 0 and a singleton number coerces to its
element); a plain object coerces through `[object Object]`, which is `NaN`. -/
def toNumberJS : Option JValue → Option Rat
  | none => none
  | some .jnull => some 0
  | some (.jbool b) => some (if b then 1 else 0)
  | some (.jnum q) => some q
  | some (.jstr s) => strToNumber s.data
  | some (.jarr xs) => strToNumber (jsToStringArr xs)
  | some (.jobj _) => none


/-! ### JSON.parse -/

/-- One escaped character of a JSON string. -/
def jsonUnescape : Char → Option Char
  | '"' => some '"'
  | '\\' => some '\\'
  | '/' => some '/'
  | 'b' => some (Char.ofNat 8)
  | 'f' => some (Char.ofNat 12)
  | 'n' => some '\n'
  | 'r' => some '\r'
  | 't' => some '\t'
  | _ => none

/-- Hexadecimal digit value, written over the code point. -/
def hexValC (c : Char) : Option Nat :=
  let n := c.toNat
  if 48 ≤ n && n ≤ 57 then some (n - 48)
  else if 97 ≤ n && n ≤ 102 then some (n - 87)
  else if 65 ≤ n && n ≤ 70 then some (n - 55)
  else none

/-- Body of a JSON string after the opening quote; rejects bare control
characters and bad escapes, as `JSON.parse` does. -/
def jpStringAux (acc : List Char) : List Char → Option (String × List Char)
  | '"' :: rest => some (⟨acc.reverse⟩, rest)
  | '\\' :: 'u' :: a :: b :: c :: d :: rest =>
    match hexValC a, hexValC b, hexValC c, hexValC d with
    | some va, some vb, some vc, some vd =>
      jpStringAux (Char.ofNat (((va * 16 + vb) * 16 + vc) * 16 + vd) :: acc) rest
    | _, _, _, _ => none
  | '\\' :: e :: rest =>
    match jsonUnescape e with
    | some ch => jpStringAux (ch :: acc) rest
    | none => none
  | c :: rest => if c.toNat < 32 then none else jpStringAux (c :: acc) rest
  | [] => none

/-- JSON number literal: `-?(0|[1-9][0-9]*)(\.[0-9]+)?([eE][-+]?[0-9]+)?`. -/
def jpNumber (l : List Char) : Option (Rat × List Char) :=
  let (neg, l1) : Bool × List Char :=
    match l with
    | '-' :: r => (true, r)
    | _ => (false, l)
  let (ds, l2) := takeDigitsL l1
  match ds with
  | [] => none
  | d0 :: drest =>
    if d0 == '0' && !drest.isEmpty then none
    else
      let (fr, l3) : Option (List Char) × List Char :=
        match l2 with
        | '.' :: r =>
          let (fs, r2) := takeDigitsL r
          if fs.isEmpty then (none, l2) else (some fs, r2)
        | _ => (some [], l2)
      match fr with
      | none => none
      | some fs =>
        let (ex, l4) : Option Int × List Char :=
          match l3 with
          | 'e' :: r | 'E' :: r =>
            let (esgn, r1) : Bool × List Char :=
              match r with
              | '-' :: rr => (true, rr)
              | '+' :: rr => (false, rr)
              | _ => (false, r)
            let (es, r2) := takeDigitsL r1
            if es.isEmpty then (none, l3)
            else (some (if esgn then -(digitsVal es : Int) else (digitsVal es : Int)), r2)
          | _ => (some 0, l3)
        match ex with
        | none => none
        | some e =>
          let base : Rat := (digitsVal ds : Rat) + (digitsVal fs : Rat) / ((10 : Rat) ^ fs.length)
          let scaled : Rat := if e ≥ 0 then base * (10 : Rat) ^ e.toNat else base / ((10 : Rat) ^ (-e).toNat)
          some ((if neg then -scaled else scaled), l4)

mutual

/-- JSON value parser (fuel-indexed for totality). -/
def jpValue : Nat → List Char → Option (JValue × List Char)
  | 0, _ => none
  | fuel + 1, l =>
    let l := l.dropWhile isWsJS
    match l with
    | '"' :: r => (jpStringAux [] r).map (fun p => (JValue.jstr p.1, p.2))
    | 't' :: r => (litHereCI ['r', 'u', 'e'] r).map (fun rest => (JValue.jbool true, rest))
    | 'f' :: r => (litHereCI ['a', 'l', 's', 'e'] r).map (fun rest => (JValue.jbool false, rest))
    | 'n' :: r => (litHereCI ['u', 'l', 'l'] r).map (fun rest => (JValue.jnull, rest))
    | '[' :: r =>
      let r1 := r.dropWhile isWsJS
      match r1 with
      | ']' :: r2 => some (JValue.jarr [], r2)
      | _ => (jpElems fuel r).map (fun p => (JValue.jarr p.1, p.2))
    | c :: r =>
      if c == lbraceChar then
        let r1 := r.dropWhile isWsJS
        match r1 with
        | c2 :: r2 =>
          if c2 == rbraceChar then some (JValue.jobj [], r2)
          else (jpMembers fuel r).map (fun p => (JValue.jobj p.1, p.2))
        | [] => none
      else
        (jpNumber (c :: r)).map (fun p => (JValue.jnum p.1, p.2))
    | [] => none

/-- Comma-separated JSON array elements, ended by a closing bracket. -/
def jpElems : Nat → List Char → Option (List JValue × List Char)
  | 0, _ => none
  | fuel + 1, l =>
    match jpValue fuel l with
    | none => none
    | some (v, r) =>
      let r1 := r.dropWhile isWsJS
      match r1 with
      | ',' :: r2 =>
        (jpElems fuel r2).map (fun p => (v :: p.1, p.2))
      | ']' :: r2 => some ([v], r2)
      | _ => none

/-- Comma-separated JSON object members, ended by a closing brace. -/
def jpMembers : Nat → List Char → Option (List (String × JValue) × List Char)
  | 0, _ => none
  | fuel + 1, l =>
    let l1 := l.dropWhile isWsJS
    match l1 with
    | '"' :: r =>
      match jpStringAux [] r with
      | none => none
      | some (k, r1) =>
        let r2 := r1.dropWhile isWsJS
        match r2 with
        | ':' :: r3 =>
          match jpValue fuel r3 with
          | none => none
          | some (v, r4) =>
            let r5 := r4.dropWhile isWsJS
            match r5 with
            | ',' :: r6 => (jpMembers fuel r6).map (fun p => ((k, v) :: p.1, p.2))
            | c :: r6 =>
              if c == rbraceChar then some ([(k, v)], r6) else none
            | [] => none
        | _ => none
    | _ => none

end

/-- `JSON.parse`: a full-input parse to a `JValue`, `none` when the exception
path of the source would be taken. -/
def jsonParseJS (s : String) : Option JValue :=
  match jpValue (s.data.length + 1) s.data with
  | some (v, rest) => if (rest.dropWhile isWsJS).isEmpty then some v else none
  | none => none

/-! ### Regex-replace machinery for the OCR fixups

Each `replace` rule of `fixOCRErrors` is compiled to a matcher that, at a
given position (with the preceding original character for `\b`), either
fails or returns the replacement text together with the consumed original
characters.  `ruleScan` then performs the global left-to-right
non-overlapping replacement that a `g`-flagged `String.replace` does. -/

/-- A word boundary `\b` holds before a word character iff the previous
character is absent or a non-word character. -/
def boundaryOK (prev : Option Char) : Bool :=
  match prev with
  | none => true
  | some c => !(isWordC c)

/-- Global regex replacement, fuel-indexed so it is structural (every step
consumes at least one character, so a fuel of the input length suffices):
scan left to right, emit replacements for matches and continue after the
consumed text, tracking the previous original character for boundary tests. -/
def ruleScanGo (m : Option Char → List Char → Option (List Char × List Char)) :
    Nat → Option Char → List Char → List Char
  | 0, _, _ => []
  | _ + 1, _, [] => []
  | fuel + 1, prev, c :: cs =>
    match m prev (c :: cs) with
    | some (rep, consumed) =>
      rep ++ ruleScanGo m fuel consumed.getLast? (cs.drop (consumed.length - 1))
    | none => c :: ruleScanGo m fuel (some c) cs

/-- Global regex replacement over a whole list. -/
def ruleScan (m : Option Char → List Char → Option (List Char × List Char))
    (prev : Option Char) (l : List Char) : List Char :=
  ruleScanGo m l.length prev l

/-- Package a matched region: replacement plus the consumed slice of `l`
given the remaining suffix `rest`. -/
def mkMatch (l rest rep : List Char) : Option (List Char × List Char) :=
  some (rep, l.take (l.length - rest.length))

/-- Rule `\b1,(\d{2})` → `1$1`. -/
def ocrRule1 (prev : Option Char) (l : List Char) : Option (List Char × List Char) :=
  if boundaryOK prev then
    match l with
    | '1' :: ',' :: d1 :: d2 :: _ =>
      if isDigitC d1 && isDigitC d2 then some (['1', d1, d2], ['1', ',', d1, d2]) else none
    | _ => none
  else none

/-- Rule for a case-insensitive literal replacement (no boundaries). -/
def ocrLit (pat rep : List Char) (_prev : Option Char) (l : List Char) :
    Option (List Char × List Char) :=
  match litHereCI pat l with
  | some _ => some (rep, l.take pat.length)
  | none => none

/-- Rule for a case-insensitive literal with `\b` on both sides. -/
def ocrLitBdy (pat rep : List Char) (prev : Option Char) (l : List Char) :
    Option (List Char × List Char) :=
  if boundaryOK prev then
    match litHereCI pat l with
    | some rest =>
      match rest.head? with
      | some c => if isWordC c then none else some (rep, l.take pat.length)
      | none => some (rep, l.take pat.length)
    | none => none
  else none

/-- Rule for a case-insensitive literal with `\b` only on the left. -/
def ocrLitLeftBdy (pat rep : List Char) (prev : Option Char) (l : List Char) :
    Option (List Char × List Char) :=
  if boundaryOK prev then
    match litHereCI pat l with
    | some _ => some (rep, l.take pat.length)
    | none => none
  else none

/-- Rule `FORACORTO\.(\d)` → `FORACORT 0.$1MG`. -/
def ocrRule5 (_prev : Option Char) (l : List Char) : Option (List Char × List Char) :=
  match litHereCI "FORACORTO.".data l with
  | some rest =>
    match rest with
    | d :: _ =>
      if isDigitC d then
        some ("FORACORT 0.".data ++ [d] ++ "MG".data, l.take 11)
      else none
    | [] => none
  | none => none

/-- Rule `\b(PR|RR)\s*[:\-]\s*0(\d)` → `(PR|RR): $1` for a given two-letter label. -/
def ocrRuleVital (label : List Char) (prev : Option Char) (l : List Char) :
    Option (List Char × List Char) :=
  if boundaryOK prev then
    match litHereCI label l with
    | some r1 =>
      let (_, r2) := takeWsL r1
      match r2 with
      | c :: r3 =>
        if c == ':' || c == '-' then
          let (_, r4) := takeWsL r3
          match r4 with
          | '0' :: d :: r5 =>
            if isDigitC d then mkMatch l r5 (upL label ++ (':' :: ' ' :: [d])) else none
          | _ => none
        else none
      | [] => none
    | none => none
  else none

/-- The `fixOCRErrors` substitution chain on character lists, in source order,
followed by the final `trim`. -/
def fixOCRCore (l : List Char) : List Char :=
  let s1 := ruleScan ocrRule1 none l
  let s2 := ruleScan (ocrLit "METFORMTN".data "METFORMIN".data) none s1
  let s3 := ruleScan (ocrLitBdy "ENALApRIL".data "ENALAPRIL".data) none s2
  let s4 := ruleScan (ocrLitBdy "DIJOLIN".data "DUOLIN".data) none s3
  let s5 := ruleScan ocrRule5 none s4
  let s6 := ruleScan (ocrLit "CHOLELITHASIS".data "CHOLELITHIASIS".data) none s5
  let s7 := ruleScan (ocrLitLeftBdy "1 LAPAROSCOPIC".data "LAPAROSCOPIC".data) none s6
  let s8 := ruleScan (ocrLitBdy "TRAMADOR".data "TRAMADOL".data) none s7
  let s9 := ruleScan (ocrRuleVital ['P', 'R']) none s8
  ruleScan (ocrRuleVital ['R', 'R']) none s9

/-- The rule chain followed by the final trim. -/
def fixOCRErrorsL (l : List Char) : List Char :=
  trimL (fixOCRCore l)

/-- `fixOCRErrors`: the empty string short-circuits, otherwise the rule chain runs. -/
def fixOCRErrors (text : String) : String :=
  if text = "" then "" else ⟨fixOCRErrorsL text.data⟩

/-! ### Placeholder / hallucination detection -/

/-- The fixed vocabulary of "no data" tokens. -/
def PLACEHOLDER_VALUES : List String :=
  ["n/a", "na", "not available", "not applicable", "unknown", "nil",
   "none", "not specified", "not mentioned", "not found", "not provided",
   "not recorded", "not documented", "pending", "awaited", "tbd",
   "to be determined", "-", "--", "---", "...", "null", "undefined"]

/-- `isPlaceholder`: empty/whitespace-only strings and vocabulary members. -/
def isPlaceholder (value : String) : Bool :=
  if value = "" then true
  else
    let v := strLo (strTrim value)
    strLen v == 0 || PLACEHOLDER_VALUES.contains v

/-- `cleanField`: blank out placeholders. -/
def cleanField (value : String) : String :=
  if isPlaceholder value then "" else value

/-! ### Cross-validation against raw text -/

/-- First match of the numeric-core pattern `(\d+\/\d+|\d+\.?\d*)` starting at
a digit: the slash alternative is preferred, then the decimal one. -/
def numCoreHere (l : List Char) : List Char :=
  let (ds, r) := takeDigitsL l
  match r with
  | '/' :: r2 =>
    let (ds2, _) := takeDigitsL r2
    if ds2.isEmpty then ds else ds ++ '/' :: ds2
  | '.' :: r2 =>
    let (fs, _) := takeDigitsL r2
    ds ++ '.' :: fs
  | _ => ds

/-- Leftmost numeric core of a value, if it has a digit at all. -/
def numericCoreL : List Char → Option (List Char)
  | [] => none
  | c :: cs => if isDigitC c then some (numCoreHere (c :: cs)) else numericCoreL cs

/-- `crossValidateValue`: trivially false on empty inputs, trivially true on
short values, else verbatim containment or numeric-core containment. -/
def crossValidateValue (value rawText : String) : Bool :=
  if value = "" || rawText = "" then false
  else
    let v := strTrim value
    if strLen v == 0 then true
    else if strLen v ≤ 2 then true
    else
      let upper := strUp rawText
      if strHasSub upper (strUp v) then true
      else
        match numericCoreL v.data with
        | some core => hasSub upper.data core
        | none => false

/-! ### Canonical route lookup -/

/-- The curated drug-fragment → route table, in source order. -/
def DRUG_ROUTE_MAP : List (String × String) :=
  [("taxim", "IV"), ("cefotaxime", "IV"),
   ("metro", "IV"), ("metronidazole", "IV"),
   ("tramadol", "IM"),
   ("rantac", "IV"), ("ranitidine", "IV"),
   ("voveron", "IM"), ("diclofenac", "IM"),
   ("hydrocort", "IV"), ("hydrocortisone", "IV"),
   ("dexamethasone", "IV"), ("ondansetron", "IV"),
   ("pantoprazole", "IV"),
   ("insulatard", "SC"), ("actrapid", "SC"),
   ("glargine", "SC"), ("mixtard", "SC"), ("insulin", "SC"),
   ("metformin", "PO"), ("amlong", "PO"), ("amlodipine", "PO"),
   ("enalapril", "PO"), ("lisinopril", "PO"), ("atenolol", "PO"),
   ("telmisartan", "PO"), ("aspirin", "PO"), ("clopidogrel", "PO"),
   ("atorvastatin", "PO"), ("rosuvastatin", "PO"),
   ("omeprazole", "PO"), ("amoxicillin", "PO"), ("azithromycin", "PO"),
   ("ciprofloxacin", "PO"), ("sucralfate", "PO"), ("lactulose", "PO"),
   ("duolin", "INH"), ("foracort", "INH"), ("budecort", "INH"),
   ("levolin", "INH"), ("salbutamol", "INH"), ("budesonide", "INH"),
   ("iv fluid", "IV"), ("iv fluids", "IV"), ("normal saline", "IV"),
   ("ringer", "IV"), ("dextrose", "IV"), ("dns", "IV")]

/-- First table route whose fragment occurs in the lower-cased drug name. -/
def routeTableHit (lower : String) : Option String :=
  (DRUG_ROUTE_MAP.find? (fun p => strHasSub lower p.1)).map (fun p => p.2)

/-- Keyword match of the upper-cased, trimmed route string, in source order. -/
def routeKeywordHit (r : String) : Option String :=
  if ["IV", "INTRAVENOUS"].any (fun x => strHasSub r x) then some "IV"
  else if ["IM", "INTRAMUSCULAR"].any (fun x => strHasSub r x) then some "IM"
  else if ["PO", "ORAL", "TAB", "CAP", "SYP"].any (fun x => strHasSub r x) then some "PO"
  else if ["SC", "S/C", "SUBCUTANEOUS"].any (fun x => strHasSub r x) then some "SC"
  else if ["INH", "NEB", "NEBULISATION"].any (fun x => strHasSub r x) then some "INH"
  else none

/-- `canonicalRoute`: table first, then keywords, then `llmRoute || 'PO'`. -/
def canonicalRoute (drugName llmRoute : String) : String :=
  match routeTableHit (strTrim (strLo drugName)) with
  | some route => route
  | none =>
    match routeKeywordHit (strTrim (strUp llmRoute)) with
    | some route => route
    | none => if llmRoute = "" then "PO" else llmRoute

/-! ### Diagnosis normalizer -/

/-- One diagnosis entry of the canonical record. -/
structure DiagnosisR where
  name : String
  icd : String
  snomed : String
  confidence : Rat
deriving DecidableEq

/-- One row of the curated diagnosis table (`matchKey` is the `match` field). -/
structure DiagNormEntry where
  matchKey : String
  name : String
  icd : String
  snomed : String
deriving DecidableEq

/-- The curated diagnosis table, in source order. -/
def DIAGNOSIS_NORM : List DiagNormEntry :=
  [⟨"cholelithiasis", "Cholelithiasis", "K80.20", "266474003"⟩,
   ⟨"diabetes mellitus", "Type 2 Diabetes Mellitus", "E11.9", "44054006"⟩,
   ⟨"type 2 diabetes", "Type 2 Diabetes Mellitus", "E11.9", "44054006"⟩,
   ⟨"t2dm", "Type 2 Diabetes Mellitus", "E11.9", "44054006"⟩,
   ⟨"systemic hypertension", "Systemic Hypertension", "I10", "38341003"⟩,
   ⟨"hypertension", "Hypertension", "I10", "38341003"⟩,
   ⟨"acute kidney injury", "Acute Kidney Injury", "N17.9", "14669001"⟩,
   ⟨"alcoholic hepatitis", "Alcoholic Hepatitis", "K70.1", "235870009"⟩,
   ⟨"cholecystitis", "Cholecystitis", "K81.9", "76581006"⟩,
   ⟨"pancreatitis", "Acute Pancreatitis", "K85.9", "197456007"⟩,
   ⟨"appendicitis", "Acute Appendicitis", "K37", "74400008"⟩,
   ⟨"pneumonia", "Pneumonia", "J18.9", "233604007"⟩,
   ⟨"coronary artery", "Coronary Artery Disease", "I25.1", "53741008"⟩,
   ⟨"heart failure", "Congestive Heart Failure", "I50.9", "84114007"⟩,
   ⟨"chronic kidney", "Chronic Kidney Disease", "N18.9", "709044004"⟩,
   ⟨"copd", "COPD", "J44.9", "13645005"⟩,
   ⟨"asthma", "Bronchial Asthma", "J45.9", "195967001"⟩,
   ⟨"sepsis", "Sepsis", "A41.9", "91302008"⟩,
   ⟨"anaemia", "Anaemia", "D64.9", "271737000"⟩,
   ⟨"anemia", "Anaemia", "D64.9", "271737000"⟩,
   ⟨"uti", "Urinary Tract Infection", "N39.0", "68566005"⟩,
   ⟨"hypothyroid", "Hypothyroidism", "E03.9", "40930008"⟩]

/-- `normalizeDiagnosis`: first table hit on the lower-cased trimmed name wins;
no hit returns the input unchanged. -/
def normalizeDiagnosis (raw : DiagnosisR) : DiagnosisR :=
  let lower := strTrim (strLo raw.name)
  match DIAGNOSIS_NORM.find? (fun e => strHasSub lower e.matchKey) with
  | some e => ⟨e.name, e.icd, e.snomed, raw.confidence⟩
  | none => raw

/-! ### Hand-compiled matchers for the vitals regexes

Each vitals regex of `parseVitalsFromText` is compiled to a scanner with
JS `String.match` semantics: leftmost match position, alternatives in
source order, greedy quantifiers with the (finite) backtracking the
pattern actually needs.  A matcher returns `match[group]` and
`match[group+1] || ''`. -/

/-- Leftmost-match scan: try the position matcher at every index, keeping the
previous original character for anchors. -/
def scanM (f : Option Char → List Char → Option α) : Option Char → List Char → Option α
  | prev, [] => f prev []
  | prev, c :: cs =>
    match f prev (c :: cs) with
    | some r => some r
    | none => scanM f (some c) cs

/-- Try continuations on a candidate list, in order. -/
def firstSome (cands : List (List Char)) (k : List Char → Option α) : Option α :=
  match cands with
  | [] => none
  | x :: xs =>
    match k x with
    | some r => some r
    | none => firstSome xs k

/-- The anchor `(?:^|\s|:)` (with the `m` flag): candidate rests in
preference order — zero-width start-of-line, one whitespace, one colon. -/
def anchorStarts (prev : Option Char) (l : List Char) : List (List Char) :=
  (if (match prev with
       | none => true
       | some c => c == '\n' || c == '\r') then [l] else []) ++
  (match l with
   | c :: cs => (if isWsJS c then [cs] else []) ++ (if c == ':' then [cs] else [])
   | [] => [])

/-- Greedy `\d{1,3}`: up to three characters of the maximal digit run. -/
def digitsMax3 (l : List Char) : Option (List Char × List Char) :=
  let (ds, r) := takeDigitsL l
  if ds.isEmpty then none
  else if ds.length ≤ 3 then some (ds, r)
  else some (ds.take 3, ds.drop 3 ++ r)

/-- Greedy `\d{2,3}`. -/
def digits23 (l : List Char) : Option (List Char × List Char) :=
  match digitsMax3 l with
  | some (ds, r) => if ds.length ≥ 2 then some (ds, r) else none
  | none => none

/-- The consumed slice of `l` that ends where `rest` begins. -/
def sliceTo (l rest : List Char) : List Char := l.take (l.length - rest.length)

/-- First case-insensitive literal alternative that matches; returns the
matched input slice and the rest. -/
def firstAltCI (alts : List (List Char)) (l : List Char) : Option (List Char × List Char) :=
  match alts with
  | [] => none
  | a :: rest =>
    match litHereCI a l with
    | some r => some (l.take a.length, r)
    | none => firstAltCI rest l

/-- Optional separator `[:\-]?`: candidate rests with the separator consumed
first (greedy), then without. -/
def sepCands (l : List Char) : List (List Char) :=
  (match l with
   | c :: cs => if c == ':' || c == '-' then [cs] else []
   | [] => []) ++ [l]

/-- Shared tail `\s*(\d{2,3})\s*(unit)?` for patterns whose unit is a plain
literal alternative list. -/
def numUnitTail (unitAlts : List (List Char)) (l : List Char) : Option (String × String) :=
  let (_, r1) := takeWsL l
  match digits23 r1 with
  | some (ds, r2) =>
    let (_, r3) := takeWsL r2
    match firstAltCI unitAlts r3 with
    | some (u, _) => some (⟨ds⟩, ⟨u⟩)
    | none => some (⟨ds⟩, "")
  | none => none

/-- PR regex `(?:^|\s|:)(?:PR|PULSE(?:\s*RATE)?)\s*[:\-]\s*(\d{2,3})\s*(BPM|\/MIN|BEATS\/MIN)?`. -/
def prHere (prev : Option Char) (l : List Char) : Option (String × String) :=
  firstSome (anchorStarts prev l) (fun r0 =>
    let labelCands :=
      (match litHereCI ['P', 'R'] r0 with
       | some r => [r]
       | none => []) ++
      (match litHereCI "PULSE".data r0 with
       | some r =>
         (match (let (_, r1) := takeWsL r; litHereCI "RATE".data r1) with
          | some r2 => [r2]
          | none => []) ++ [r]
       | none => [])
    firstSome labelCands (fun r1 =>
      let (_, r2) := takeWsL r1
      match r2 with
      | c :: r3 =>
        if c == ':' || c == '-' then
          numUnitTail ["BPM".data, "/MIN".data, "BEATS/MIN".data] r3
        else none
      | [] => none))

/-- BP unit `(MM\s*HG|MMHG)?`. -/
def bpUnit (l : List Char) : List Char :=
  match litHereCI "MM".data l with
  | some r1 =>
    let (_, r2) := takeWsL r1
    match litHereCI "HG".data r2 with
    | some r3 => sliceTo l r3
    | none => []
  | none => []

/-- Candidate first-number readings of the BP regex, greedy three digits
before two (the backtracking order of `\d{2,3}` when the slash must follow). -/
def bpNumVariants (r4 : List Char) : List (List Char × List Char) :=
  match r4 with
  | a :: b :: c :: rest =>
    (if isDigitC a && isDigitC b && isDigitC c then [([a, b, c], rest)] else []) ++
    (if isDigitC a && isDigitC b then [([a, b], c :: rest)] else [])
  | a :: b :: rest =>
    if isDigitC a && isDigitC b then [([a, b], rest)] else []
  | _ => []

/-- Attempt of the BP tail `\s*\/\s*(\d{2,3})\s*(MM\s*HG|MMHG)?` after one
first-number reading. -/
def bpTryVariant (v : List Char × List Char) : Option (String × String) :=
  let (ds1, ra) := v
  let (ws1, rb) := takeWsL ra
  match rb with
  | '/' :: rc =>
    let (ws2, rd) := takeWsL rc
    match digits23 rd with
    | some (ds2, re) =>
      let capture := ds1 ++ ws1 ++ '/' :: (ws2 ++ ds2)
      let (_, rf) := takeWsL re
      some (⟨capture⟩, ⟨bpUnit rf⟩)
    | none => none
  | _ => none

/-- BP regex `(?:^|\s|:)BP\s*[:\-]?\s*(\d{2,3}\s*\/\s*\d{2,3})\s*(MM\s*HG|MMHG)?`.
The first `\d{2,3}` backtracks from three digits to two when the slash
does not follow. -/
def bpHere (prev : Option Char) (l : List Char) : Option (String × String) :=
  firstSome (anchorStarts prev l) (fun r0 =>
    match litHereCI ['B', 'P'] r0 with
    | none => none
    | some r1 =>
      let (_, r2) := takeWsL r1
      firstSome (sepCands r2) (fun r3 =>
        let (_, r4) := takeWsL r3
        match bpNumVariants r4 with
        | [] => none
        | v :: vs =>
          match bpTryVariant v with
          | some r => some r
          | none =>
            match vs with
            | [] => none
            | v2 :: _ => bpTryVariant v2))

/-- TEMP regex `TEMP(?:ERATURE)?\s*[:\-]?\s*(AFEBRILE|[\d.]+\s*°?\s*[FCf]?)` (no anchor). -/
def tempHere (_prev : Option Char) (l : List Char) : Option (String × String) :=
  match litHereCI "TEMP".data l with
  | none => none
  | some r0 =>
    let labelCands :=
      (match litHereCI "ERATURE".data r0 with
       | some r => [r]
       | none => []) ++ [r0]
    firstSome labelCands (fun r1 =>
      let (_, r2) := takeWsL r1
      firstSome (sepCands r2) (fun r3 =>
        let (_, r4) := takeWsL r3
        match litHereCI "AFEBRILE".data r4 with
        | some _ => some (⟨r4.take 8⟩, "")
        | none =>
          let dd := r4.takeWhile (fun c => isDigitC c || c == '.')
          if dd.isEmpty then none
          else
            let r5 := r4.drop dd.length
            let (ws1, r6) := takeWsL r5
            let (deg, r7) : List Char × List Char :=
              match r6 with
              | '°' :: rr => (['°'], rr)
              | _ => ([], r6)
            let (ws2, r8) := takeWsL r7
            let fc : List Char :=
              match r8 with
              | c :: _ => if c == 'F' || c == 'C' || c == 'f' || c == 'c' then [c] else []
              | [] => []
            some (⟨dd ++ ws1 ++ deg ++ ws2 ++ fc⟩, "")))

/-- RR unit `(CYCLES?\/\s*MIN|\/MIN|BREATHS\/?MIN)?`. -/
def rrUnit (l : List Char) : List Char :=
  let alt1 :=
    match litHereCI "CYCLE".data l with
    | some r1 =>
      let cands :=
        (match litHereCI ['S'] r1 with
         | some r2 => [r2]
         | none => []) ++ [r1]
      firstSome cands (fun r2 =>
        match r2 with
        | '/' :: r3 =>
          let (_, r4) := takeWsL r3
          match litHereCI "MIN".data r4 with
          | some r5 => some (sliceTo l r5)
          | none => none
        | _ => none)
    | none => none
  match alt1 with
  | some m => m
  | none =>
    match litHereCI "/MIN".data l with
    | some _ => l.take 4
    | none =>
      match litHereCI "BREATHS".data l with
      | some r1 =>
        let cands :=
          (match r1 with
           | '/' :: rr => [rr]
           | _ => []) ++ [r1]
        match firstSome cands (fun r2 =>
          match litHereCI "MIN".data r2 with
          | some r3 => some (sliceTo l r3)
          | none => none) with
        | some m => m
        | none => []
      | none => []

/-- RR regex `(?:^|\s|:)RR\s*[:\-]?\s*(\d{1,3})\s*(CYCLES?\/\s*MIN|\/MIN|BREATHS\/?MIN)?`. -/
def rrHere (prev : Option Char) (l : List Char) : Option (String × String) :=
  firstSome (anchorStarts prev l) (fun r0 =>
    match litHereCI ['R', 'R'] r0 with
    | none => none
    | some r1 =>
      let (_, r2) := takeWsL r1
      firstSome (sepCands r2) (fun r3 =>
        let (_, r4) := takeWsL r3
        match digitsMax3 r4 with
        | some (ds, r5) =>
          let (_, r6) := takeWsL r5
          some (⟨ds⟩, ⟨rrUnit r6⟩)
        | none => none))

/-- SpO2 unit `(%\s*(?:AT\s*RA|ON\s*RA)?)?`. -/
def spo2Unit (l : List Char) : List Char :=
  match l with
  | '%' :: r1 =>
    let (_, r2) := takeWsL r1
    let tailHit :=
      match litHereCI "AT".data r2 with
      | some ra =>
        let (_, rb) := takeWsL ra
        match litHereCI "RA".data rb with
        | some rc => some rc
        | none => none
      | none =>
        match litHereCI "ON".data r2 with
        | some ra =>
          let (_, rb) := takeWsL ra
          match litHereCI "RA".data rb with
          | some rc => some rc
          | none => none
        | none => none
    match tailHit with
    | some rc => sliceTo l rc
    | none => ['%']
  | _ => []

/-- The shared tail `\s*[:\-]?\s*(\d{2,3})\s*(%\s*(?:AT\s*RA|ON\s*RA)?)?` of the
SpO2 regex. -/
def spo2Tail (r : List Char) : Option (String × String) :=
  let (_, r1) := takeWsL r
  firstSome (sepCands r1) (fun r2 =>
    let (_, r3) := takeWsL r2
    match digits23 r3 with
    | some (ds, r4) =>
      let (_, r5) := takeWsL r4
      some (⟨ds⟩, ⟨spo2Unit r5⟩)
    | none => none)

/-- SpO2 position matcher: the anchored `SPO2` alternative first, then the
unanchored `SP\s*[O0]?\s*2` alternative, each followed by the shared tail. -/
def spo2Here (prev : Option Char) (l : List Char) : Option (String × String) :=
  let alt1 :=
    firstSome (anchorStarts prev l) (fun r0 =>
      match litHereCI "SPO2".data r0 with
      | some r1 => spo2Tail r1
      | none => none)
  match alt1 with
  | some m => some m
  | none =>
    match litHereCI ['S', 'P'] l with
    | none => none
    | some r1 =>
      let (_, r2) := takeWsL r1
      let oCands :=
        (match r2 with
         | c :: cs => if c == 'O' || c == 'o' || c == '0' then [cs] else []
         | [] => []) ++ [r2]
      firstSome oCands (fun r3 =>
        let (_, r4) := takeWsL r3
        match r4 with
        | '2' :: r5 => spo2Tail r5
        | _ => none)

/-! ### Deterministic vitals parser -/

/-- One vital of the canonical record. -/
structure VitalR where
  name : String
  value : String
  confidence : Rat
deriving DecidableEq

/-- The vitals-section marker spellings, in source order. -/
def vitalsSectionPats : List String :=
  ["VITALS:", "VITALS AT", "VITAL SIGNS:", "VITALS-", "VITALS -",
   "VITALS\n", "VITALS\r", "VITALS "]

/-- The vital-abbreviation cluster used by the backward window scan. -/
def VITAL_ABBREVS : List String :=
  ["PR:", "BP:", "TEMP:", "RR:", "SPO2:", "SP02:", "SPO 2:", "SP O2:"]

/-- The section labels that cut a vitals window short. -/
def vitalsSectionStops : List String :=
  ["MEDICATIONS", "TREATMENT", "FOLLOW-UP", "FOLLOW UP",
   "DISCHARGE INS", "ADVICE", "INVESTIGATIONS", "SIGNATURE"]

/-- Strategy 2 of `extractVitalsContext`: slide a 500-char window backward in
50-char steps, keeping the strictly best abbreviation count, stopping early
at four. -/
def strat2goStep (upper : List Char) : Nat → Nat → (Option Nat × Nat) → Option Nat × Nat
  | 0, _, best => best
  | fuel + 1, i, best =>
    let chunk := subStr upper i (i + 500)
    let cnt := (VITAL_ABBREVS.filter (fun v => hasSub chunk v.data)).length
    let best2 := if cnt > best.2 then (some i, cnt) else best
    if best2.2 ≥ 4 then best2
    else if i < 50 then best2
    else strat2goStep upper fuel (i - 50) best2

/-- Strategy-2 loop with enough fuel for every 50-char step down to zero. -/
def strat2go (upper : List Char) (i : Nat) (best : Option Nat × Nat) : Option Nat × Nat :=
  strat2goStep upper (i / 50 + 1) i best

/-- `extractVitalsContext`: last marker occurrence with a stop-bounded 600-char
window, else the densest backward 500-char window, else the empty string. -/
def extractVitalsContext (text : String) : String :=
  let upper := strUp text
  let best :=
    vitalsSectionPats.foldl
      (fun (acc : Option (Nat × String)) pat =>
        match lastIdxOf upper.data pat.data with
        | some idx =>
          match acc with
          | some (bi, _) => if idx > bi then some (idx, pat) else acc
          | none => some (idx, pat)
        | none => acc)
      none
  match best with
  | some (idx, pat) =>
    let e0 := min (idx + 600) (strLen text)
    let stop :=
      vitalsSectionStops.foldl
        (fun e s =>
          match idxOfFrom upper.data s.data (idx + strLen pat + 5) with
          | some si => if si > idx && si < e then si else e
          | none => e)
        e0
    ⟨subStr text.data idx stop⟩
  | none =>
    match strat2go upper.data (upper.data.length - 500) (none, 0) with
    | (some bi, bc) =>
      if bc ≥ 2 then ⟨subStr text.data bi (min (bi + 500) text.data.length)⟩ else ""
    | (none, _) => ""

/-- One named-label vitals pattern: key, display label, and the compiled regex. -/
structure VPattern where
  key : String
  label : String
  matcher : String → Option (String × String)

/-- The five anchored patterns, in source order. -/
def vitalPatterns : List VPattern :=
  [⟨"PR", "PR (Pulse Rate)", fun s => scanM prHere none s.data⟩,
   ⟨"BP", "BP (Blood Pressure)", fun s => scanM bpHere none s.data⟩,
   ⟨"TEMP", "Temperature", fun s => scanM tempHere none s.data⟩,
   ⟨"RR", "RR (Respiratory Rate)", fun s => scanM rrHere none s.data⟩,
   ⟨"SPO2", "SpO2", fun s => scanM spo2Here none s.data⟩]

/-- JS `split(sep)` on a character. -/
def splitOnC (sep : Char) : List Char → List (List Char)
  | [] => [[]]
  | c :: cs =>
    if c == sep then [] :: splitOnC sep cs
    else
      match splitOnC sep cs with
      | h :: t => (c :: h) :: t
      | [] => [[c]]

/-- Indexing with `undefined` out of range (parsed later as `NaN`). -/
def partAt (parts : List (List Char)) (i : Nat) : List Char :=
  (parts.drop i).headD []

/-- The per-key physiological range rejection of `parseVitalsFromText`; `true`
means the match is skipped.  A `NaN` comparison in JS is false, so a `NaN`
value is only rejected where the code tests `isNaN` explicitly (BP). -/
def rangeReject (key : String) (rawVal : String) : Bool :=
  if key == "PR" then
    match parseIntJS rawVal.data with
    | some n => n < 30 || n > 220
    | none => false
  else if key == "RR" then
    match parseIntJS rawVal.data with
    | some n => n < 5 || n > 60
    | none => false
  else if key == "SPO2" then
    match parseIntJS rawVal.data with
    | some n => n < 50 || n > 100
    | none => false
  else if key == "BP" then
    let parts := splitOnC '/' (rawVal.data.filter (fun c => !isWsJS c))
    match parseIntJS (partAt parts 0), parseIntJS (partAt parts 1) with
    | some sys, some dia => sys < 50 || sys > 300 || dia < 20 || dia > 200
    | _, _ => true
  else false

/-- The stored value `rawVal + (unit ? ' ' + unit : '')`. -/
def mkVitalVal (rawVal unit : String) : String :=
  if unit = "" then rawVal else rawVal ++ " " ++ unit

/-- The match-extract-validate loop over the pattern list, with the `seen` set. -/
def vitalsLoop : List VPattern → List String → String → List VitalR
  | [], _, _ => []
  | p :: rest, seen, clean =>
    if seen.contains p.key then vitalsLoop rest seen clean
    else
      match p.matcher clean with
      | none => vitalsLoop rest seen clean
      | some (g, u) =>
        let rawVal := strTrim g
        if rangeReject p.key rawVal then vitalsLoop rest seen clean
        else ⟨p.label, mkVitalVal rawVal (strTrim u), 95⟩ :: vitalsLoop rest (seen ++ [p.key]) clean

/-- `parseVitalsFromText`: choose the context window (or the full text when the
trimmed window has at most 10 characters), fix OCR errors, upper-case, and
run the anchored patterns with range validation. -/
def parseVitalsFromText (text : String) : List VitalR :=
  let ctx := extractVitalsContext text
  let searchText := if strLen (strTrim ctx) > 10 then ctx else text
  let clean := strUp (fixOCRErrors searchText)
  vitalsLoop vitalPatterns [] clean

/-! ### Deterministic date parser -/

/-- The date capture `(\d{1,2}[/\-]\d{1,2}[/\-]\d{2,4})`. -/
def dateCapture (l : List Char) : Option (List Char) :=
  let sepOK : Char → Bool := fun c => c == '/' || c == '-'
  let dMax : Nat → List Char → Option (List Char × List Char) := fun k r =>
    let (ds, rest) := takeDigitsL r
    if ds.isEmpty || ds.length > k then none else some (ds, rest)
  match dMax 2 l with
  | some (d1, r1) =>
    match r1 with
    | s1 :: r2 =>
      if sepOK s1 then
        match dMax 2 r2 with
        | some (d2, r3) =>
          match r3 with
          | s2 :: r4 =>
            if sepOK s2 then
              match dMax 4 r4 with
              | some (d3, _) =>
                if d3.length ≥ 2 then some (d1 ++ s1 :: d2 ++ s2 :: d3) else none
              | none => none
            else none
          | [] => none
        | none => none
      else none
    | [] => none
  | none => none

/-- Position matcher for `label\s*[:\-]?\s*(date)`, case-insensitive. -/
def dateHere (label : List Char) (_prev : Option Char) (l : List Char) :
    Option (List Char) :=
  match litHereCI label l with
  | some r1 =>
    let (_, r2) := takeWsL r1
    firstSome (sepCands r2) (fun r3 =>
      let (_, r4) := takeWsL r3
      dateCapture r4)
  | none => none

/-- `extractDate(label)`: first match in the text, with `-` normalized to `/`. -/
def extractDate (text : String) (label : String) : String :=
  match scanM (dateHere label.data) none text.data with
  | some d => ⟨d.map (fun c => if c == '-' then '/' else c)⟩
  | none => ""

/-- JS `a || b` on strings: the first operand unless it is empty. -/
def strOrElse (a b : String) : String := if a = "" then b else a

/-- `parseDatesFromText`: DOA/DOD label families in fallback order. -/
def parseDatesFromText (text : String) : String × String :=
  (strOrElse (extractDate text "DOA")
     (strOrElse (extractDate text "DATE OF ADMISSION") (extractDate text "ADMISSION DATE")),
   strOrElse (extractDate text "DOD")
     (strOrElse (extractDate text "DATE OF DISCHARGE") (extractDate text "DISCHARGE DATE")))

/-! ### The canonical extracted record -/

/-- Patient demographic block. -/
structure PatientR where
  name : String
  age : String
  sex : String
  abha : String
  bloodGroup : String
  hospital : String
  ward : String
  admission : String
  discharge : String
  attending : String
  chiefComplaint : String
deriving DecidableEq

/-- One medication entry. -/
structure MedicationR where
  name : String
  dosage : String
  route : String
  confidence : Rat
deriving DecidableEq

/-- Lab status flag. -/
inductive LabStatus where
  | H
  | L
  | N
deriving DecidableEq

/-- One laboratory value. -/
structure LabValueR where
  test : String
  value : String
  unit : String
  ref : String
  status : LabStatus
  loinc : String
  confidence : Rat
deriving DecidableEq

/-- One procedure entry. -/
structure ProcedureR where
  name : String
  snomed : String
  day : String
  findings : String
  confidence : Rat
deriving DecidableEq

/-- One label/value pair (discharge instructions, follow-up). -/
structure KVItemR where
  label : String
  value : String
  confidence : Rat
deriving DecidableEq

/-- The canonical `ExtractedDischarge` record. -/
structure ExtractedDischarge where
  patient : PatientR
  diagnoses : List DiagnosisR
  medications : List MedicationR
  vitals : List VitalR
  labValues : List LabValueR
  procedures : List ProcedureR
  dischargeInstructions : List KVItemR
  followUp : List KVItemR
  overallConfidence : Rat
deriving DecidableEq

/-! ### Record sanitizer -/

/-- Institutional keywords that disqualify a patient-name candidate. -/
def INSTITUTION_KEYWORDS : List String :=
  ["HOSPITAL", "MEDICAL", "COLLEGE", "RESEARCH", "CENTRE", "CENTER",
   "INSTITUTE", "CLINIC", "AIIMS", "NURSING", "TRUST", "FOUNDATION",
   "VENKATESHWARAA", "DISTRICT", "GOVERNMENT", "GOVT", "MUNICIPAL",
   "DISCHARGE", "SUMMARY", "DEPARTMENT"]

/-- Single-pass splitter into maximal non-whitespace tokens; `cur` holds the
current token reversed. -/
def wordSplitGo : List Char → List Char → List (List Char)
  | cur, [] => if cur.isEmpty then [] else [cur.reverse]
  | cur, c :: cs =>
    if isWsJS c then
      (if cur.isEmpty then [] else [cur.reverse]) ++ wordSplitGo [] cs
    else wordSplitGo (c :: cur) cs

/-- Maximal non-whitespace tokens of a list (the split a trimmed string gets
from `split(/\s+/)`). -/
def wordTokens (l : List Char) : List (List Char) := wordSplitGo [] l

/-- JS `s.split(/\s+/)` on a trimmed string (the empty string yields one
empty token, as in JS). -/
def wsSplitJS (l : List Char) : List (List Char) :=
  if l.isEmpty then [[]] else wordTokens l

/-- `isValidPatientName`: rejects empties, institutional keywords, over-long
names, and over-4-word candidates whose upper-casing is already trimmed. -/
def isValidPatientName (name : String) : Bool :=
  if name = "" || strLen (strTrim name) == 0 then false
  else
    let upper := strTrim (strUp name)
    if INSTITUTION_KEYWORDS.any (fun kw => strHasSub upper kw) then false
    else if strLen (strTrim name) > 60 then false
    else
      let words := wsSplitJS (strTrim name).data
      if words.length > 4 && upper == strUp name then false
      else true

/-- The object guard `v && typeof v === 'object' ? v : {}`. -/
def objOf (v : JValue) : JValue :=
  match v with
  | .jobj _ => v
  | .jarr _ => v
  | _ => .jobj []

/-- The sanitizer's string cleaner `str`: null/undefined to empty, then
`fixOCRErrors` on the trimmed coercion, then placeholder stripping. -/
def strField (v : Option JValue) : String :=
  match v with
  | none => ""
  | some .jnull => ""
  | some w => cleanField (fixOCRErrors (strTrim (jsToString w)))

/-- The sanitizer's confidence cleaner `num`: NaN to the default 70, else
clamped into the range 0 to 100. -/
def numConf (v : Option JValue) : Rat :=
  match toNumberJS v with
  | none => 70
  | some n => min 100 (max 0 n)

/-- The sanitizer's status cleaner. -/
def statusField (v : Option JValue) : LabStatus :=
  let s := strUp (match v with
    | none => "N"
    | some .jnull => "N"
    | some w => jsToString w)
  if s == "H" || s == "HIGH" then .H
  else if s == "L" || s == "LOW" then .L
  else .N

/-- The sanitizer's array combinator `arr`: map and drop the nulls. -/
def arrMap (v : Option JValue) (f : JValue → Option α) : List α :=
  match v with
  | some (.jarr xs) => xs.filterMap f
  | _ => []

/-- Patient block sanitization (name validity check included). -/
def sanPatient (r : JValue) : PatientR :=
  let p := match fieldOf r "patient" with
    | some v => objOf v
    | none => .jobj []
  let rawName := strField (fieldOf p "name")
  { name := if isValidPatientName rawName then rawName else ""
    age := strField (fieldOf p "age")
    sex := strField (fieldOf p "sex")
    abha := strField (fieldOf p "abha")
    bloodGroup := strField (fieldOf p "bloodGroup")
    hospital := strField (fieldOf p "hospital")
    ward := strField (fieldOf p "ward")
    admission := strField (fieldOf p "admission")
    discharge := strField (fieldOf p "discharge")
    attending := strField (fieldOf p "attending")
    chiefComplaint := strField (fieldOf p "chiefComplaint") }

/-- One diagnosis element: requires a name, then normalizes. -/
def sanDiagElem (d : JValue) : Option DiagnosisR :=
  let dx := objOf d
  let name := strField (fieldOf dx "name")
  if name = "" then none
  else some (normalizeDiagnosis
    ⟨name, strField (fieldOf dx "icd"), strField (fieldOf dx "snomed"),
     numConf (fieldOf dx "confidence")⟩)

/-- One medication element: requires a name, canonicalizes the route. -/
def sanMedElem (m : JValue) : Option MedicationR :=
  let med := objOf m
  let name := strField (fieldOf med "name")
  if name = "" then none
  else some ⟨name, strField (fieldOf med "dosage"),
    canonicalRoute name (strField (fieldOf med "route")),
    numConf (fieldOf med "confidence")⟩

/-- One vital element: requires a name and a value. -/
def sanVitalElem (v : JValue) : Option VitalR :=
  let vt := objOf v
  let name := strField (fieldOf vt "name")
  let value := strField (fieldOf vt "value")
  if name = "" || value = "" then none
  else some ⟨name, value, numConf (fieldOf vt "confidence")⟩

/-- One lab element: requires test and value, drops deferral phrases. -/
def sanLabElem (l0 : JValue) : Option LabValueR :=
  let lv := objOf l0
  let test := strField (fieldOf lv "test")
  let value := strField (fieldOf lv "value")
  if test = "" || value = "" then none
  else if strHasSub (strUp value) "ENCLOSED" || strHasSub (strUp value) "ATTACHED" then none
  else some ⟨test, value, strField (fieldOf lv "unit"), strField (fieldOf lv "ref"),
    statusField (fieldOf lv "status"), strField (fieldOf lv "loinc"),
    numConf (fieldOf lv "confidence")⟩

/-- One procedure element: requires a name. -/
def sanProcElem (pr0 : JValue) : Option ProcedureR :=
  let pr := objOf pr0
  let name := strField (fieldOf pr "name")
  if name = "" then none
  else some ⟨name, strField (fieldOf pr "snomed"), strField (fieldOf pr "day"),
    strField (fieldOf pr "findings"), numConf (fieldOf pr "confidence")⟩

/-- One label/value element: requires both label and value. -/
def sanKVElem (f0 : JValue) : Option KVItemR :=
  let fu := objOf f0
  let label := strField (fieldOf fu "label")
  let value := strField (fieldOf fu "value")
  if label = "" || value = "" then none
  else some ⟨label, value, numConf (fieldOf fu "confidence")⟩

/-- `sanitizeExtracted`: normalize an arbitrary decoded value into the
canonical record. -/
def sanitizeExtracted (raw : JValue) : ExtractedDischarge :=
  let r := objOf raw
  { patient := sanPatient r
    diagnoses := arrMap (fieldOf r "diagnoses") sanDiagElem
    medications := arrMap (fieldOf r "medications") sanMedElem
    vitals := arrMap (fieldOf r "vitals") sanVitalElem
    labValues := arrMap (fieldOf r "labValues") sanLabElem
    procedures := arrMap (fieldOf r "procedures") sanProcElem
    dischargeInstructions := arrMap (fieldOf r "dischargeInstructions") sanKVElem
    followUp := arrMap (fieldOf r "followUp") sanKVElem
    overallConfidence := numConf (fieldOf r "overallConfidence") }

/-! ### Tolerant JSON parser with backward repair -/

/-- Strip markdown fences: global case-insensitive removal of three-backtick
json markers, then of bare three-backtick runs, then trim. -/
def stripFences (raw : String) : String :=
  strTrim ⟨ruleScan (ocrLit "```".data []) none
    (ruleScan (ocrLit "```json".data []) none raw.data)⟩

/-- The top-level field names used by the backward repair walk, in order. -/
def parseFields : List String :=
  ["patient", "diagnoses", "medications", "vitals", "labValues", "procedures",
   "dischargeInstructions", "followUp"]

/-- The empty-default JSON fragment for a repaired trailing field. -/
def emptyFieldJson (f : String) : String :=
  if f = "patient" then
    "\"patient\":\x7b\"name\":\"\",\"age\":\"\",\"sex\":\"\",\"abha\":\"\",\"bloodGroup\":\"\",\"hospital\":\"\",\"ward\":\"\",\"admission\":\"\",\"discharge\":\"\",\"attending\":\"\",\"chiefComplaint\":\"\"\x7d"
  else "\"" ++ f ++ "\":[]"

/-- The bracket/quote depth walk between two field positions: returns the last
index at which a closing bracket brought the depth to zero or below
(`-1` when none, as in the source). -/
def cutScan (seg : List Char) (base : Nat) : Int :=
  let step : (Int × Bool × Bool × Int) × Nat → Char → (Int × Bool × Bool × Int) × Nat :=
    fun ((depth, inStr, escape, cut), j) ch =>
      if escape then ((depth, inStr, false, cut), j + 1)
      else if ch == '\\' && inStr then ((depth, inStr, true, cut), j + 1)
      else if ch == '"' then ((depth, !inStr, escape, cut), j + 1)
      else if inStr then ((depth, inStr, escape, cut), j + 1)
      else
        let depth1 := if ch == lbraceChar || ch == '[' then depth + 1 else depth
        if ch == rbraceChar || ch == ']' then
          let depth2 := depth1 - 1
          ((depth2, inStr, escape, if depth2 ≤ 0 then (j : Int) else cut), j + 1)
        else ((depth1, inStr, escape, cut), j + 1)
  ((seg.foldl step ((0, false, false, -1), base)).1).2.2.2

/-- One iteration of the repair loop at field index `i`. -/
def repairTry (c : String) (i : Nat) : Option ExtractedDischarge :=
  let prevF := parseFields.getD (i - 1) ""
  let nextF := parseFields.getD i ""
  match lastIdxOf c.data ('"' :: prevF.data ++ ['"']),
        lastIdxOf c.data ('"' :: nextF.data ++ ['"']) with
  | some prevIdx, some nextIdx =>
    if nextIdx ≤ prevIdx then none
    else
      let cut := cutScan ((c.data.drop prevIdx).take (nextIdx - prevIdx)) prevIdx
      if cut > 0 then
        let suffix := String.intercalate "," ((parseFields.drop i).map emptyFieldJson)
        let attempt : String :=
          ⟨c.data.take (cut.toNat + 1)⟩ ++ "," ++ suffix ++ ",\"overallConfidence\":65\x7d"
        match jsonParseJS attempt with
        | some v => some (sanitizeExtracted v)
        | none => none
      else none
  | _, _ => none

/-- The descending repair loop; falls back to the sanitized empty object. -/
def repairLoop (c : String) : List Nat → ExtractedDischarge
  | [] => sanitizeExtracted (.jobj [])
  | i :: rest =>
    match repairTry c i with
    | some r => r
    | none => repairLoop c rest

/-- `parseJSON`: fence stripping, preamble cut at the first open brace
(`null` when there is none), a whole-text parse attempt, then the backward
repair loop ending at the sanitized empty object. -/
def parseJSON (raw : String) : Option ExtractedDischarge :=
  let c0 := stripFences raw
  match idxOf c0.data [lbraceChar] with
  | none => none
  | some start =>
    let c : String := ⟨c0.data.drop start⟩
    let attempt : Option ExtractedDischarge :=
      match lastIdxOf c.data [rbraceChar] with
      | some e =>
        if e > 0 then
          match jsonParseJS ⟨c.data.take (e + 1)⟩ with
          | some v => some (sanitizeExtracted v)
          | none => none
        else none
      | none => none
    match attempt with
    | some r => some r
    | none => some (repairLoop c [7, 6, 5, 4, 3, 2, 1])

/-! ### Extraction orchestration (the deterministic merge and fallback) -/

/-- The section windows produced by the external section detector. -/
structure ClinicalSections where
  raw : String
  header : String
  chiefComplaint : String
  diagnosis : String
  comorbidities : String
  procedures : String
  medications : String
  vitals : String
  investigations : String
  discharge : String
  followUp : String

/-- JS `Math.round` (half away from zero toward positive infinity). -/
def ratRound (q : Rat) : Rat := ((q + 1 / 2).floor : Rat)

/-- JS `a || b` for a string-valued fallback is `strOrElse`; for records the
orchestrator uses `?? `, modelled by `Option.getD`-style matches below. -/
def medCountTier (n : Nat) : Rat := if n > 8 then 90 else if n > 4 then 78 else 55

/-- The vitals of the merged record: the deterministic parser's output on the
joined vitals/discharge/raw windows, or the empty list when it found none. -/
def mergedVitals (sections : ClinicalSections) : List VitalR :=
  let rawVitalsText := sections.vitals ++ "\n" ++ sections.discharge ++ "\n" ++ sections.raw
  let parsedVitals := parseVitalsFromText rawVitalsText
  if parsedVitals.length > 0 then parsedVitals else []

/-- The deterministic merge step of `extractWithSections` (see `mergedVitals`
for the vitals part). -/
def mergeExtraction (sections : ClinicalSections) (pass1 pass3 : Option ExtractedDischarge)
    (medications : List MedicationR) : ExtractedDischarge :=
  let rawHeaderText := sections.header ++ "\n" ++ (⟨subStr sections.raw.data 0 1200⟩ : String)
  let parsedDates := parseDatesFromText rawHeaderText
  let fp0 := match pass1 with
    | some p => p.patient
    | none => (sanitizeExtracted (.jobj [])).patient
  let fp1 := if fp0.admission = "" && parsedDates.1 ≠ "" then
      { fp0 with admission := parsedDates.1 } else fp0
  let fp2 := if fp1.discharge = "" && parsedDates.2 ≠ "" then
      { fp1 with discharge := parsedDates.2 } else fp1
  let fullRawText := sections.raw
  let fp3 := if fp2.abha ≠ "" && !crossValidateValue fp2.abha fullRawText then
      { fp2 with abha := "" } else fp2
  let fp4 := if fp3.bloodGroup ≠ "" && !crossValidateValue fp3.bloodGroup fullRawText then
      { fp3 with bloodGroup := "" } else fp3
  let fp5 := if fp4.ward ≠ "" && !crossValidateValue fp4.ward fullRawText then
      { fp4 with ward := "" } else fp4
  { patient := fp5
    diagnoses := (match pass1 with
      | some p => p.diagnoses
      | none => []).map normalizeDiagnosis
    vitals := mergedVitals sections
    medications := medications
    labValues := match pass3 with
      | some p => p.labValues
      | none => []
    procedures := match pass3 with
      | some p => p.procedures
      | none => []
    dischargeInstructions := match pass3 with
      | some p => p.dischargeInstructions
      | none => []
    followUp := match pass3 with
      | some p => p.followUp
      | none => []
    overallConfidence :=
      ratRound (((match pass1 with
        | some p => p.overallConfidence
        | none => 70) +
        medCountTier medications.length +
        (match pass3 with
         | some p => p.overallConfidence
         | none => 70)) / 3) }

/-- The completion step of the single-pass fallback `extractWithOllama`: parse
the accumulated stream, and override the vitals with the deterministic
parser's output only when that output is non-empty; `none` is the
`onError('Malformed JSON from LLM')` path. -/
def fallbackAssemble (full text : String) : Option ExtractedDischarge :=
  match parseJSON full with
  | none => none
  | some result =>
    let dv := parseVitalsFromText text
    if dv.length > 0 then some { result with vitals := dv } else some result

/-! ### Encoding a record back to a JavaScript value (for re-sanitization) -/

/-- The patient block as the object value it is at runtime. -/
def patientToJ (p : PatientR) : JValue :=
  .jobj [("name", .jstr p.name), ("age", .jstr p.age), ("sex", .jstr p.sex),
         ("abha", .jstr p.abha), ("bloodGroup", .jstr p.bloodGroup),
         ("hospital", .jstr p.hospital), ("ward", .jstr p.ward),
         ("admission", .jstr p.admission), ("discharge", .jstr p.discharge),
         ("attending", .jstr p.attending), ("chiefComplaint", .jstr p.chiefComplaint)]

/-- Diagnosis entry as an object value. -/
def dxToJ (d : DiagnosisR) : JValue :=
  .jobj [("name", .jstr d.name), ("icd", .jstr d.icd), ("snomed", .jstr d.snomed),
         ("confidence", .jnum d.confidence)]

/-- Medication entry as an object value. -/
def medToJ (m : MedicationR) : JValue :=
  .jobj [("name", .jstr m.name), ("dosage", .jstr m.dosage), ("route", .jstr m.route),
         ("confidence", .jnum m.confidence)]

/-- Vital entry as an object value. -/
def vitalToJ (v : VitalR) : JValue :=
  .jobj [("name", .jstr v.name), ("value", .jstr v.value), ("confidence", .jnum v.confidence)]

/-- Status flag as the string it is at runtime. -/
def statusToJ : LabStatus → JValue
  | .H => .jstr "H"
  | .L => .jstr "L"
  | .N => .jstr "N"

/-- Lab entry as an object value. -/
def labToJ (l : LabValueR) : JValue :=
  .jobj [("test", .jstr l.test), ("value", .jstr l.value), ("unit", .jstr l.unit),
         ("ref", .jstr l.ref), ("status", statusToJ l.status), ("loinc", .jstr l.loinc),
         ("confidence", .jnum l.confidence)]

/-- Procedure entry as an object value. -/
def procToJ (p : ProcedureR) : JValue :=
  .jobj [("name", .jstr p.name), ("snomed", .jstr p.snomed), ("day", .jstr p.day),
         ("findings", .jstr p.findings), ("confidence", .jnum p.confidence)]

/-- Label/value entry as an object value. -/
def kvToJ (k : KVItemR) : JValue :=
  .jobj [("label", .jstr k.label), ("value", .jstr k.value), ("confidence", .jnum k.confidence)]

/-- The whole record as the object value it is at runtime: feeding this back
to `sanitizeExtracted` is running the sanitizer on its own output. -/
def recordToJValue (r : ExtractedDischarge) : JValue :=
  .jobj [("patient", patientToJ r.patient),
         ("diagnoses", .jarr (r.diagnoses.map dxToJ)),
         ("medications", .jarr (r.medications.map medToJ)),
         ("vitals", .jarr (r.vitals.map vitalToJ)),
         ("labValues", .jarr (r.labValues.map labToJ)),
         ("procedures", .jarr (r.procedures.map procToJ)),
         ("dischargeInstructions", .jarr (r.dischargeInstructions.map kvToJ)),
         ("followUp", .jarr (r.followUp.map kvToJ)),
         ("overallConfidence", .jnum r.overallConfidence)]

/-! ### Validation and scoring engine (`fhirBuilder.ts`) -/

/-- Tree/compliance status. -/
inductive NodeStatus where
  | pass
  | warning
  | fail
deriving DecidableEq

/-- Issue severity. -/
inductive IssueSeverity where
  | error
  | warning
  | info
deriving DecidableEq

/-- A child resource node (`children`/`resourceCount` are only ever set on the
root Bundle node, so child nodes are modelled flat). -/
structure ResourceNode where
  type : String
  id : String
  label : String
  status : NodeStatus
deriving DecidableEq

/-- The root Bundle node. -/
structure BundleNode where
  type : String
  id : String
  status : NodeStatus
  resourceCount : Nat
  children : List ResourceNode
deriving DecidableEq

/-- One validation issue. -/
structure ValidationIssue where
  severity : IssueSeverity
  path : String
  fhirPath : String
  message : String
  fixField : String
  fullMessage : String
deriving DecidableEq

/-- One compliance checklist item. -/
structure ComplianceItem where
  label : String
  status : NodeStatus
deriving DecidableEq

/-- The report returned by `buildFhirValidationData`. -/
structure FhirValidationData where
  resourceTree : List BundleNode
  validationIssues : List ValidationIssue
  complianceItems : List ComplianceItem
  resourceBreakdown : List (String × Nat)
  totalResources : Nat
  healthScore : Int
deriving DecidableEq

/-- Patient resource id: lower-case the name and strip everything outside
`[a-z0-9]`. -/
def patientIdOf (name : String) : String :=
  "patient-" ++ (⟨(strLo name).data.filter (fun c => ('a' ≤ c && c ≤ 'z') || isDigitC c)⟩ : String)
    ++ "-001"

/-- The recognized plain-text timing abbreviations. -/
def timingTokens : List String :=
  ["OD", "BD", "TDS", "QDS", "Q8H", "Q12H", "Q6H", "Q4H", "SOS", "STAT"]

/-- Character class `[\dO0]` of the dash-timing regex. -/
def dashClass (c : Char) : Bool := isDigitC c || c == 'O' || c == '0'

/-- Test of `[\dO0]-[\dO0]-[\dO0]`. -/
def hasDashTimingL : List Char → Bool
  | [] => false
  | a :: rest =>
    (match rest with
     | '-' :: b :: '-' :: c :: _ => dashClass a && dashClass b && dashClass c
     | _ => false) || hasDashTimingL rest

/-- Match of `\d+ML-\d+ML-\d+ML` at the current position. -/
def mlHere (l : List Char) : Bool :=
  let (d1, r1) := takeDigitsL l
  if d1.isEmpty then false
  else if litHere "ML-".data r1 then
    let (d2, r3) := takeDigitsL (r1.drop 3)
    if d2.isEmpty then false
    else if litHere "ML-".data r3 then
      let (d3, r5) := takeDigitsL (r3.drop 3)
      if d3.isEmpty then false else litHere "ML".data r5
    else false
  else false

/-- Test of `\d+ML-\d+ML-\d+ML`. -/
def hasMlTimingL : List Char → Bool
  | [] => false
  | c :: cs => mlHere (c :: cs) || hasMlTimingL cs

/-- The timing-coding check on one medication: token, dash pattern, or
volume-split pattern on the upper-cased dosage. -/
def medStdTiming (m : MedicationR) : Bool :=
  let du := strUp m.dosage
  timingTokens.any (fun t => strHasSub du t) || hasDashTimingL du.data || hasMlTimingL du.data

/-- The warning trigger: non-standard timing with a non-empty dosage on a drug
other than IV fluids. -/
def medFlagged (m : MedicationR) : Bool :=
  !medStdTiming m && strUp m.dosage ≠ "" && strLo m.name ≠ "iv fluids"

/-- First space-separated word of a medication name. -/
def firstWordBySpace (s : String) : String := ⟨(splitOnC ' ' s.data).headD []⟩

/-- Medication node id. -/
def medIdOf (i : Nat) (m : MedicationR) : String :=
  "med-" ++ strLo (firstWordBySpace m.name) ++ "-" ++ toString (i + 1)

/-- Health score: start at 100, 20 per error, 5 per warning, 1 per info,
floored at zero. -/
def healthScoreOf (e w i : Nat) : Int :=
  max 0 (100 - ((e : Int) * 20) - ((w : Int) * 5) - ((i : Int) * 1))

/-- Patient child nodes (empty when the name is missing). -/
def fhirPatientNodes (ex : ExtractedDischarge) : List ResourceNode :=
  if ex.patient.name ≠ "" then
    [⟨"Patient", patientIdOf ex.patient.name, ex.patient.name, .pass⟩]
  else []

/-- The error-severity issue pushed when the patient name is missing. -/
def fhirPatientIssues (ex : ExtractedDischarge) : List ValidationIssue :=
  if ex.patient.name ≠ "" then []
  else [⟨.error, "Patient/patient-001", "Patient.name", "Patient name is missing",
         "Demographics", "Patient resource must have a valid name."⟩]

/-- The unconditional Encounter node. -/
def fhirEncounterNode : ResourceNode := ⟨"Encounter", "enc-admit-001", "Hospital Admission", .pass⟩

/-- Organization node when a hospital is present. -/
def fhirOrgNodes (ex : ExtractedDischarge) : List ResourceNode :=
  if ex.patient.hospital ≠ "" then
    [⟨"Organization", "org-hospital-001", ex.patient.hospital, .pass⟩]
  else []

/-- Practitioner node when an attending is present. -/
def fhirPractNodes (ex : ExtractedDischarge) : List ResourceNode :=
  if ex.patient.attending ≠ "" then
    [⟨"Practitioner", "pract-attending-001", ex.patient.attending, .pass⟩]
  else []

/-- Condition nodes, one per diagnosis, warning without an ICD code. -/
def fhirCondNodes (ex : ExtractedDischarge) : List ResourceNode :=
  ex.diagnoses.enum.map (fun p =>
    ⟨"Condition", "cond-dx-" ++ toString (p.1 + 1), p.2.name,
     if p.2.icd ≠ "" then .pass else .warning⟩)

/-- Warning issues for diagnoses without ICD codes. -/
def fhirCondIssues (ex : ExtractedDischarge) : List ValidationIssue :=
  ex.diagnoses.enum.filterMap (fun p =>
    if p.2.icd ≠ "" then none
    else some ⟨.warning, "Condition/cond-dx-" ++ toString (p.1 + 1), "Condition.code",
      "Missing ICD-10 code for \x27" ++ p.2.name ++ "\x27", "Diagnoses",
      "Condition \x27" ++ p.2.name ++
        "\x27 is missing a standard ICD-10 code. It is recommended to include standard terminology."⟩)

/-- Procedure nodes, always pass. -/
def fhirProcNodes (ex : ExtractedDischarge) : List ResourceNode :=
  ex.procedures.enum.map (fun p =>
    ⟨"Procedure", "proc-" ++ toString (p.1 + 1), p.2.name, .pass⟩)

/-- MedicationRequest nodes with the timing-coding status. -/
def fhirMedNodes (ex : ExtractedDischarge) : List ResourceNode :=
  ex.medications.enum.map (fun p =>
    ⟨"MedicationRequest", medIdOf p.1 p.2, p.2.name,
     if medStdTiming p.2 then .pass else .warning⟩)

/-- Warning issues for flagged medication timings. -/
def fhirMedIssues (ex : ExtractedDischarge) : List ValidationIssue :=
  ex.medications.enum.filterMap (fun p =>
    if medFlagged p.2 then
      some ⟨.warning, "MedicationRequest/" ++ medIdOf p.1 p.2,
        "dosageInstruction.timing.code",
        "Timing code format unrecognized — plain text value \x27" ++ p.2.dosage ++ "\x27 used",
        "Medications",
        "The dosage \x27" ++ p.2.dosage ++
          "\x27 is not mapped to a standard SNOMED CT timing code or recognized Indian prescription pattern."⟩
    else none)

/-- Lab Observation nodes with the LOINC status. -/
def fhirLabNodes (ex : ExtractedDischarge) : List ResourceNode :=
  ex.labValues.enum.map (fun p =>
    ⟨"Observation", "obs-lab-" ++ toString (p.1 + 1), p.2.test,
     if p.2.loinc ≠ "" then .pass else .warning⟩)

/-- Info issues for labs without LOINC codes. -/
def fhirLabIssues (ex : ExtractedDischarge) : List ValidationIssue :=
  ex.labValues.enum.filterMap (fun p =>
    if p.2.loinc ≠ "" then none
    else some ⟨.info, "Observation/obs-lab-" ++ toString (p.1 + 1), "Observation.code",
      "Missing LOINC code for \x27" ++ p.2.test ++ "\x27", "Investigations",
      "Laboratory observation \x27" ++ p.2.test ++ "\x27 lacks a standard LOINC code."⟩)

/-- Vital Observation nodes, always pass. -/
def fhirVitalNodes (ex : ExtractedDischarge) : List ResourceNode :=
  ex.vitals.enum.map (fun p =>
    ⟨"Observation", "obs-vital-" ++ toString (p.1 + 1), p.2.name, .pass⟩)

/-- All child nodes, in push order. -/
def fhirTreeChildren (ex : ExtractedDischarge) : List ResourceNode :=
  fhirPatientNodes ex ++ [fhirEncounterNode] ++ fhirOrgNodes ex ++ fhirPractNodes ex ++
    fhirCondNodes ex ++ fhirProcNodes ex ++ fhirMedNodes ex ++ fhirLabNodes ex ++
    fhirVitalNodes ex

/-- All validation issues, in push order. -/
def fhirIssues (ex : ExtractedDischarge) : List ValidationIssue :=
  fhirPatientIssues ex ++ fhirCondIssues ex ++ fhirMedIssues ex ++ fhirLabIssues ex

/-- The compliance checklist, in push order. -/
def fhirCompliance (ex : ExtractedDischarge) : List ComplianceItem :=
  [(if ex.patient.name ≠ "" then ⟨"Patient resource present and valid", .pass⟩
    else ⟨"Patient resource present and valid", .fail⟩),
   ⟨"Encounter resource with valid period", .pass⟩,
   (if ex.patient.attending ≠ "" then ⟨"Practitioner resources with valid NMC identifiers", .pass⟩
    else ⟨"Practitioner resources", .pass⟩),
   ⟨"All Conditions have ICD-10 codes",
    if ex.diagnoses.all (fun d => d.icd ≠ "") then .pass else .warning⟩,
   ⟨"MedicationRequest resources reference valid medications", .pass⟩] ++
  (if ex.medications.any medFlagged then
    [⟨"MedicationRequest.dosageInstruction.timing — resource missing coded timing value",
      .warning⟩]
   else []) ++
  [⟨"All Observations have LOINC codes",
    if ex.labValues.all (fun l => l.loinc ≠ "") then .pass else .warning⟩,
   ⟨"Bundle.identifier present and unique", .pass⟩]

/-- The per-type resource counts, in insertion order. -/
def fhirBreakdownAll (ex : ExtractedDischarge) : List (String × Nat) :=
  [("Patient", (fhirPatientNodes ex).length), ("Encounter", 1),
   ("Condition", ex.diagnoses.length), ("Procedure", ex.procedures.length),
   ("MedicationRequest", ex.medications.length),
   ("Observation", ex.labValues.length + ex.vitals.length),
   ("Practitioner", (fhirPractNodes ex).length), ("Organization", (fhirOrgNodes ex).length)]

/-- Sum of the breakdown counts. -/
def fhirTotalResources (ex : ExtractedDischarge) : Nat :=
  (fhirBreakdownAll ex).foldl (fun a p => a + p.2) 0

/-- `buildFhirValidationData`: the pure record-to-report function. -/
def buildFhirValidationData (extracted : Option ExtractedDischarge) : FhirValidationData :=
  match extracted with
  | none => ⟨[], [], [], [], 0, 0⟩
  | some ex =>
    let issues := fhirIssues ex
    { resourceTree :=
        [⟨"Bundle", "Transaction",
          (if issues.any (fun i => i.severity == .error) then .fail else .pass),
          fhirTotalResources ex, fhirTreeChildren ex⟩]
      validationIssues := issues
      complianceItems := fhirCompliance ex
      resourceBreakdown := (fhirBreakdownAll ex).filter (fun p => p.2 > 0)
      totalResources := fhirTotalResources ex
      healthScore :=
        healthScoreOf (issues.filter (fun i => i.severity == .error)).length
          (issues.filter (fun i => i.severity == .warning)).length
          (issues.filter (fun i => i.severity == .info)).length }

/-! ### Predicates used by the claim statements -/

/-- The physiological range check a returned vital must satisfy, expressed on
the stored vital exactly as the source checks it (temperature has no range
check). -/
def vitalRangeOK (v : VitalR) : Bool :=
  if v.name == "PR (Pulse Rate)" then
    match parseIntJS v.value.data with
    | some n => 30 ≤ n && n ≤ 220
    | none => false
  else if v.name == "RR (Respiratory Rate)" then
    match parseIntJS v.value.data with
    | some n => 5 ≤ n && n ≤ 60
    | none => false
  else if v.name == "SpO2" then
    match parseIntJS v.value.data with
    | some n => 50 ≤ n && n ≤ 100
    | none => false
  else if v.name == "BP (Blood Pressure)" then
    let parts := splitOnC '/' (v.value.data.filter (fun c => !isWsJS c))
    match parseIntJS (partAt parts 0), parseIntJS (partAt parts 1) with
    | some s, some d => 50 ≤ s && s ≤ 300 && 20 ≤ d && d ≤ 200
    | _, _ => false
  else true

/-- Every confidence of the record lies in the unit-to-hundred range. -/
def confBounds (r : ExtractedDischarge) : Prop :=
  (∀ d ∈ r.diagnoses, 0 ≤ d.confidence ∧ d.confidence ≤ 100) ∧
  (∀ m ∈ r.medications, 0 ≤ m.confidence ∧ m.confidence ≤ 100) ∧
  (∀ v ∈ r.vitals, 0 ≤ v.confidence ∧ v.confidence ≤ 100) ∧
  (∀ l ∈ r.labValues, 0 ≤ l.confidence ∧ l.confidence ≤ 100) ∧
  (∀ p ∈ r.procedures, 0 ≤ p.confidence ∧ p.confidence ≤ 100) ∧
  (∀ d ∈ r.dischargeInstructions, 0 ≤ d.confidence ∧ d.confidence ≤ 100) ∧
  (∀ f ∈ r.followUp, 0 ≤ f.confidence ∧ f.confidence ≤ 100) ∧
  (0 ≤ r.overallConfidence ∧ r.overallConfidence ≤ 100)

/-- A string is clean when it is trim-stable and either empty or not a
placeholder — the invariant of every sanitizer string output. -/
def cleanStrB (s : String) : Bool :=
  (trimL s.data == s.data) && (s == "" || !isPlaceholder s)

/-- All string fields of a record, flattened. -/
def patientStrings (p : PatientR) : List String :=
  [p.name, p.age, p.sex, p.abha, p.bloodGroup, p.hospital, p.ward,
   p.admission, p.discharge, p.attending, p.chiefComplaint]

/-- All string fields of a record, flattened (arrays included). -/
def recordStrings (r : ExtractedDischarge) : List String :=
  patientStrings r.patient ++
  (r.diagnoses.map (fun d => [d.name, d.icd, d.snomed])).flatten ++
  (r.medications.map (fun m => [m.name, m.dosage, m.route])).flatten ++
  (r.vitals.map (fun v => [v.name, v.value])).flatten ++
  (r.labValues.map (fun l => [l.test, l.value, l.unit, l.ref, l.loinc])).flatten ++
  (r.procedures.map (fun p => [p.name, p.snomed, p.day, p.findings])).flatten ++
  ((r.dischargeInstructions ++ r.followUp).map (fun k => [k.label, k.value])).flatten

/-- Every string field of the record is a fixed point of the OCR fixups. -/
def strFixedB (r : ExtractedDischarge) : Bool :=
  (recordStrings r).all (fun s => fixOCRErrors s == s)

/-! ### Helper lemmas -/

/-- Second components of enumerated entries are members of the base list. -/
theorem snd_mem_of_mem_enum {α : Type} {l : List α} {p : Nat × α} (h : p ∈ l.enum) :
    p.2 ∈ l := by
  have hmap : l.enum.map Prod.snd = l := List.enum_map_snd l
  exact hmap ▸ List.mem_map_of_mem Prod.snd h

/-- A filterMap over entries that all map to `none` is empty. -/
theorem filterMap_eq_nil_of {α β : Type} {l : List α} {f : α → Option β}
    (h : ∀ x ∈ l, f x = none) : l.filterMap f = [] := by
  induction l with
  | nil => rfl
  | cons c cs ih =>
    have hc := h c (by simp)
    rw [List.filterMap_cons, hc]
    exact ih (fun x hx => h x (by simp [hx]))

/-! ### C3 -/

/-- C3: for every non-null record the health score equals
max(0, 100 − 20·errors − 5·warnings − 1·infos) over the report's own issue
list; and on the scoring function, adding one error-severity issue decreases
the score by exactly 20 (clamped at 0), one warning by exactly 5, and one
info by exactly 1. -/
theorem c3_health_score_formula :
    (∀ r : ExtractedDischarge,
      (buildFhirValidationData (some r)).healthScore =
        healthScoreOf
          (((buildFhirValidationData (some r)).validationIssues.filter
             (fun i => i.severity == .error)).length)
          (((buildFhirValidationData (some r)).validationIssues.filter
             (fun i => i.severity == .warning)).length)
          (((buildFhirValidationData (some r)).validationIssues.filter
             (fun i => i.severity == .info)).length)) ∧
    (∀ e w i : Nat,
      healthScoreOf (e + 1) w i = max 0 (healthScoreOf e w i - 20) ∧
      healthScoreOf e (w + 1) i = max 0 (healthScoreOf e w i - 5) ∧
      healthScoreOf e w (i + 1) = max 0 (healthScoreOf e w i - 1)) := by
  constructor
  · intro r
    rfl
  · intro e w i
    refine ⟨?_, ?_, ?_⟩ <;>
    · unfold healthScoreOf
      push_cast
      rw [Int.max_def, Int.max_def, Int.max_def]
      split_ifs <;> omega

/-! ### C4 -/

/-- C4 counterexample: a drug name matching no table fragment together with a
route string matching no keyword does not fall back to PO — the raw route
string comes back verbatim and is outside the controlled vocabulary. -/
theorem c4_route_default_counterexample :
    canonicalRoute "xyz" "topical" = "topical" ∧
    "topical" ∉ (["PO", "IV", "IM", "SC", "INH"] : List String) := by
  with_unfolding_all decide

/-- C4 (amended): with no table hit and no keyword hit, `canonicalRoute`
returns PO only for the empty route string and otherwise returns the route
string unchanged; consequently every result is either in the controlled
vocabulary or the verbatim input route. -/
theorem c4_route_default_amended :
    (∀ name route : String,
      routeTableHit (strTrim (strLo name)) = none →
      routeKeywordHit (strTrim (strUp route)) = none →
      canonicalRoute name route = if route = "" then "PO" else route) ∧
    (∀ name route : String,
      canonicalRoute name route ∈ (["PO", "IV", "IM", "SC", "INH"] : List String) ∨
      canonicalRoute name route = route) := by
  constructor
  · intro name route h1 h2
    unfold canonicalRoute
    rw [h1, h2]
  · intro name route
    unfold canonicalRoute
    cases htab : routeTableHit (strTrim (strLo name)) with
    | some rt =>
      left
      unfold routeTableHit at htab
      cases hfind : DRUG_ROUTE_MAP.find? (fun p => strHasSub (strTrim (strLo name)) p.1) with
      | some p =>
        rw [hfind] at htab
        have hrt : p.2 = rt := by simpa using htab
        have hv : ∀ p ∈ DRUG_ROUTE_MAP,
            p.2 ∈ (["PO", "IV", "IM", "SC", "INH"] : List String) := by decide
        exact hrt ▸ hv p (List.mem_of_find?_eq_some hfind)
      | none =>
        rw [hfind] at htab
        exact absurd htab (by simp)
    | none =>
      cases hkw : routeKeywordHit (strTrim (strUp route)) with
      | some k =>
        left
        have hk : ∀ (s k : String), routeKeywordHit s = some k →
            k ∈ (["PO", "IV", "IM", "SC", "INH"] : List String) := by
          intro s k h
          unfold routeKeywordHit at h
          split_ifs at h <;> simp_all
        exact hk _ _ hkw
      | none =>
        by_cases hr : route = "" <;> simp [hr]

/-- C4 witness: the amended theorem applied at the concrete pair. -/
theorem c4_route_default_witness :
    canonicalRoute "XYZ" "TOPICAL" = "TOPICAL" := by
  have h := c4_route_default_amended.1 "XYZ" "TOPICAL"
    (by with_unfolding_all decide) (by with_unfolding_all decide)
  simpa using h

/-! ### C1 -/

/-- C1 counterexample: a record in the claim's class (non-empty patient name,
all diagnoses ICD-coded, all labs LOINC-coded, one medication dosed exactly
"OD") produces zero validation issues (in particular zero warnings, not one)
and a health score of 100, not 95. -/
theorem c1_bare_od_counterexample :
    (buildFhirValidationData (some ⟨⟨"Ramesh Kumar", "", "", "", "", "", "", "", "", "", ""⟩,
      [⟨"Pneumonia", "J18.9", "233604007", 95⟩],
      [⟨"Amoxicillin", "OD", "PO", 80⟩], [],
      [⟨"HB", "12", "g/dL", "", .N, "718-7", 90⟩], [], [], [], 70⟩)).validationIssues = [] ∧
    (buildFhirValidationData (some ⟨⟨"Ramesh Kumar", "", "", "", "", "", "", "", "", "", ""⟩,
      [⟨"Pneumonia", "J18.9", "233604007", 95⟩],
      [⟨"Amoxicillin", "OD", "PO", 80⟩], [],
      [⟨"HB", "12", "g/dL", "", .N, "718-7", 90⟩], [], [], [], 70⟩)).healthScore = 100 := by
  with_unfolding_all decide

/-- C1 (amended): for every record with a non-empty patient name, all
diagnoses ICD-coded, all labs LOINC-coded, and exactly one medication whose
dosage text is "OD", the report has no validation issues at all and a health
score of 100: the bare abbreviation is in the recognized token set of the
timing check. -/
theorem c1_bare_od_amended (r : ExtractedDischarge) (m : MedicationR)
    (hname : r.patient.name ≠ "")
    (hmeds : r.medications = [m]) (hdos : m.dosage = "OD")
    (hdx : ∀ d ∈ r.diagnoses, d.icd ≠ "")
    (hlab : ∀ l ∈ r.labValues, l.loinc ≠ "") :
    (buildFhirValidationData (some r)).validationIssues = [] ∧
    (buildFhirValidationData (some r)).healthScore = 100 := by
  have hpat : fhirPatientIssues r = [] := by simp [fhirPatientIssues, hname]
  have hcond : fhirCondIssues r = [] := by
    unfold fhirCondIssues
    exact filterMap_eq_nil_of (fun p hp => by
      have := hdx p.2 (snd_mem_of_mem_enum hp)
      simp [this])
  have hstd : medStdTiming m = true := by
    unfold medStdTiming
    rw [hdos]
    with_unfolding_all decide
  have hmed : fhirMedIssues r = [] := by
    unfold fhirMedIssues
    rw [hmeds]
    exact filterMap_eq_nil_of (fun p hp => by
      have hp2 : p.2 = m := by
        have := snd_mem_of_mem_enum hp
        simpa using this
      simp [medFlagged, hp2, hstd])
  have hlabi : fhirLabIssues r = [] := by
    unfold fhirLabIssues
    exact filterMap_eq_nil_of (fun p hp => by
      have := hlab p.2 (snd_mem_of_mem_enum hp)
      simp [this])
  have hiss : fhirIssues r = [] := by
    unfold fhirIssues
    rw [hpat, hcond, hmed, hlabi]
    rfl
  constructor
  · show fhirIssues r = []
    exact hiss
  · show healthScoreOf ((fhirIssues r).filter (fun i => i.severity == .error)).length
      ((fhirIssues r).filter (fun i => i.severity == .warning)).length
      ((fhirIssues r).filter (fun i => i.severity == .info)).length = 100
    rw [hiss]
    decide

/-- C1 witness: the amended theorem applied at a concrete record. -/
theorem c1_bare_od_amended_witness :
    (buildFhirValidationData (some ⟨⟨"A", "", "", "", "", "", "", "", "", "", ""⟩,
      [], [⟨"Paracetamol", "OD", "PO", 90⟩], [], [], [], [], [], 70⟩)).validationIssues = [] ∧
    (buildFhirValidationData (some ⟨⟨"A", "", "", "", "", "", "", "", "", "", ""⟩,
      [], [⟨"Paracetamol", "OD", "PO", 90⟩], [], [], [], [], [], 70⟩)).healthScore = 100 :=
  c1_bare_od_amended _ ⟨"Paracetamol", "OD", "PO", 90⟩ (by decide) rfl rfl
    (by simp) (by simp)

/-! ### C10 -/

/-- Mapping then filtering with a predicate that rejects every image yields
the empty list. -/
theorem filter_map_nil {α β : Type} (f : α → β) (p : β → Bool) (l : List α)
    (h : ∀ x, p (f x) = false) : (l.map f).filter p = [] := by
  induction l with
  | nil => rfl
  | cons c cs ih => simp [List.filter_cons, h c, ih]

/-- C10: every non-null record synthesizes exactly one Encounter child node,
with the fixed id and label and a pass status; the Encounter compliance item
is always pushed with pass; the total resource count is at least one; and no
validation issue points at the Encounter (every issue's profile path is one
of the four patient/condition/medication/observation paths). -/
theorem c10_encounter_always (r : ExtractedDischarge) :
    ((buildFhirValidationData (some r)).resourceTree.map
      (fun b => b.children.filter (fun n => n.type == "Encounter"))) =
      [[⟨"Encounter", "enc-admit-001", "Hospital Admission", .pass⟩]] ∧
    (⟨"Encounter resource with valid period", .pass⟩ : ComplianceItem) ∈
      (buildFhirValidationData (some r)).complianceItems ∧
    1 ≤ (buildFhirValidationData (some r)).totalResources ∧
    ∀ issue ∈ (buildFhirValidationData (some r)).validationIssues,
      issue.fhirPath ∈ ["Patient.name", "Condition.code",
        "dosageInstruction.timing.code", "Observation.code"] := by
  refine ⟨?_, ?_, ?_, ?_⟩
  · show [((fhirTreeChildren r).filter (fun n => n.type == "Encounter"))] = _
    unfold fhirTreeChildren
    have hpat : (fhirPatientNodes r).filter (fun n => n.type == "Encounter") = [] := by
      unfold fhirPatientNodes
      split <;> simp
    have horg : (fhirOrgNodes r).filter (fun n => n.type == "Encounter") = [] := by
      unfold fhirOrgNodes
      split <;> simp
    have hpract : (fhirPractNodes r).filter (fun n => n.type == "Encounter") = [] := by
      unfold fhirPractNodes
      split <;> simp
    have hcond : (fhirCondNodes r).filter (fun n => n.type == "Encounter") = [] := by
      unfold fhirCondNodes
      exact filter_map_nil _ _ _ (fun x => by simp)
    have hproc : (fhirProcNodes r).filter (fun n => n.type == "Encounter") = [] := by
      unfold fhirProcNodes
      exact filter_map_nil _ _ _ (fun x => by simp)
    have hmed : (fhirMedNodes r).filter (fun n => n.type == "Encounter") = [] := by
      unfold fhirMedNodes
      exact filter_map_nil _ _ _ (fun x => by simp)
    have hlab : (fhirLabNodes r).filter (fun n => n.type == "Encounter") = [] := by
      unfold fhirLabNodes
      exact filter_map_nil _ _ _ (fun x => by simp)
    have hvit : (fhirVitalNodes r).filter (fun n => n.type == "Encounter") = [] := by
      unfold fhirVitalNodes
      exact filter_map_nil _ _ _ (fun x => by simp)
    simp [List.filter_append, hpat, horg, hpract, hcond, hproc, hmed, hlab, hvit,
      fhirEncounterNode]
  · show _ ∈ fhirCompliance r
    unfold fhirCompliance
    simp
  · show 1 ≤ fhirTotalResources r
    unfold fhirTotalResources fhirBreakdownAll
    simp [List.foldl]
    omega
  · intro issue hissue
    have h : issue ∈ fhirIssues r := hissue
    unfold fhirIssues at h
    simp only [List.mem_append] at h
    rcases h with ((hp | hc) | hm) | hl
    · unfold fhirPatientIssues at hp
      split at hp
      · simp at hp
      · simp at hp
        simp [hp]
    · obtain ⟨x, -, hfx⟩ := List.mem_filterMap.mp hc
      split at hfx
      · simp at hfx
      · cases hfx
        simp
    · obtain ⟨x, -, hfx⟩ := List.mem_filterMap.mp hm
      split at hfx
      · cases hfx
        simp
      · simp at hfx
    · obtain ⟨x, -, hfx⟩ := List.mem_filterMap.mp hl
      split at hfx
      · simp at hfx
      · cases hfx
        simp

/-- C10 witness: the theorem applied at a record that does carry an issue
(missing patient name), discharging the membership hypothesis concretely. -/
theorem c10_encounter_always_witness :
    1 ≤ (buildFhirValidationData (some ⟨⟨"", "", "", "", "", "", "", "", "", "", ""⟩,
      [], [], [], [], [], [], [], 70⟩)).totalResources ∧
    (⟨IssueSeverity.error, "Patient/patient-001", "Patient.name", "Patient name is missing",
      "Demographics", "Patient resource must have a valid name."⟩ : ValidationIssue).fhirPath ∈
      ["Patient.name", "Condition.code", "dosageInstruction.timing.code", "Observation.code"] :=
  ⟨(c10_encounter_always _).2.2.1,
   (c10_encounter_always ⟨⟨"", "", "", "", "", "", "", "", "", "", ""⟩,
      [], [], [], [], [], [], [], 70⟩).2.2.2 _ (by with_unfolding_all decide)⟩

/-! ### C2 -/

/-- C2 counterexample: in the single-pass fallback, a model response carrying
a vitals array combined with a source text in which the deterministic parser
finds nothing hands the model's vitals to `onComplete` — they are not
discarded and the stored vitals list is not the parser's (empty) output. -/
theorem c2_fallback_llm_vitals_counterexample :
    (fallbackAssemble "\x7b\"vitals\":[\x7b\"name\":\"P\",\"value\":\"X\",\"confidence\":5\x7d]\x7d"
      "hello").map (fun r => r.vitals) = some [⟨"P", "X", 5⟩] ∧
    parseVitalsFromText "hello" = [] ∧
    ([⟨"P", "X", (5 : Rat)⟩] : List VitalR) ≠ [] := by
  with_unfolding_all decide

/-- C2 (amended): the multi-pass merge stores exactly the deterministic
parser's output on the joined vitals/discharge/raw windows, whatever the
model passes produced; the fallback path overrides the parsed record's
vitals with the deterministic output only when that output is non-empty. -/
theorem c2_deterministic_vitals_amended :
    (∀ (sections : ClinicalSections) (pass1 pass3 : Option ExtractedDischarge)
       (meds : List MedicationR),
      (mergeExtraction sections pass1 pass3 meds).vitals =
        parseVitalsFromText
          (sections.vitals ++ "\n" ++ sections.discharge ++ "\n" ++ sections.raw)) ∧
    (∀ (full text : String) (r : ExtractedDischarge),
      parseJSON full = some r → (parseVitalsFromText text).length > 0 →
      fallbackAssemble full text = some { r with vitals := parseVitalsFromText text }) := by
  constructor
  · intro sections pass1 pass3 meds
    have h1 : (mergeExtraction sections pass1 pass3 meds).vitals = mergedVitals sections := by
      simp only [mergeExtraction]
    rw [h1]
    unfold mergedVitals
    cases h : parseVitalsFromText
        (sections.vitals ++ "\n" ++ sections.discharge ++ "\n" ++ sections.raw) <;> simp [h]
  · intro full text r hparse hlen
    unfold fallbackAssemble
    rw [hparse]
    simp only [gt_iff_lt] at hlen
    simp [Nat.not_eq_zero_of_lt hlen, hlen]

/-- C2 witness: the amended theorem applied at concrete inputs — empty
sections for the merge (whose joined window has no vitals) and a concrete
fallback pair whose deterministic output is one pulse vital. -/
theorem c2_deterministic_vitals_witness :
    (mergeExtraction ⟨"", "", "", "", "", "", "", "", "", "", ""⟩ none none []).vitals =
      parseVitalsFromText ("" ++ "\n" ++ "" ++ "\n" ++ "") ∧
    fallbackAssemble "\x7b\x7d" "VITALS: PR: 80" =
      some { (⟨⟨"", "", "", "", "", "", "", "", "", "", ""⟩,
        [], [], [], [], [], [], [], 70⟩ : ExtractedDischarge) with
        vitals := parseVitalsFromText "VITALS: PR: 80" } :=
  ⟨c2_deterministic_vitals_amended.1 _ none none [],
   c2_deterministic_vitals_amended.2 "\x7b\x7d" "VITALS: PR: 80" _
     (by with_unfolding_all decide) (by with_unfolding_all decide)⟩

/-! ### C5 -/

/-- C5 counterexample: the empty value is in the claim's trivially-accepted
class (its trim has at most 2 characters) yet `crossValidateValue` rejects
it. -/
theorem c5_empty_value_counterexample :
    crossValidateValue "" "ABC" = false ∧ strLen (strTrim "") ≤ 2 := by
  with_unfolding_all decide

/-- C5 (amended): for non-empty value and source strings, a value trimming to
at most 2 characters is accepted, and a longer value is accepted iff the
trimmed value occurs case-insensitively verbatim in the source or its first
numeric core occurs in the upper-cased source; the empty value (or an empty
source) is rejected outright. -/
theorem c5_cross_validate_amended (value rawText : String)
    (hv : value ≠ "") (hr : rawText ≠ "") :
    (strLen (strTrim value) ≤ 2 → crossValidateValue value rawText = true) ∧
    (2 < strLen (strTrim value) →
      (crossValidateValue value rawText = true ↔
        strHasSub (strUp rawText) (strUp (strTrim value)) = true ∨
        ∃ core, numericCoreL (strTrim value).data = some core ∧
          hasSub (strUp rawText).data core = true)) := by
  constructor
  · intro hle
    simp only [crossValidateValue]
    rw [if_neg (by simp [hv, hr])]
    by_cases h0 : strLen (strTrim value) == 0
    · rw [if_pos (by simpa using h0)]
    · rw [if_neg (by simpa using h0), if_pos hle]
  · intro hgt
    simp only [crossValidateValue]
    rw [if_neg (by simp [hv, hr]),
        if_neg (by simp; omega),
        if_neg (by omega)]
    by_cases hsub : strHasSub (strUp rawText) (strUp (strTrim value)) = true
    · simp [hsub]
    · rw [if_neg (by simpa using hsub)]
      cases hcore : numericCoreL (strTrim value).data with
      | none => simp [hsub, hcore]
      | some core =>
        simp [hsub, hcore, strHasSub]
        intro hcontra
        exact absurd hcontra (by simpa [strHasSub] using hsub)

/-- C5 witness: the amended theorem applied at a short concrete value. -/
theorem c5_cross_validate_witness : crossValidateValue "OK" "ZZZZ" = true :=
  (c5_cross_validate_amended "OK" "ZZZZ" (by decide) (by decide)).1
    (by with_unfolding_all decide)

/-! ### C9 -/

/-- Characters consumed by a case-insensitive literal match are
case-insensitively equal to pattern characters. -/
theorem litHereCI_chars : ∀ (pat l r : List Char), litHereCI pat l = some r →
    ∀ c ∈ l.take pat.length, ∃ p ∈ pat, eqCI p c = true
  | [], _, _, _ => by simp
  | p :: ps, [], r, h => by simp [litHereCI] at h
  | p :: ps, h0 :: hs, r, h => by
    unfold litHereCI at h
    split_ifs at h with he
    intro c hc
    simp only [List.length_cons, List.take_succ_cons, List.mem_cons] at hc
    rcases hc with hc | hc
    · exact ⟨p, by simp, hc ▸ he⟩
    · obtain ⟨pp, hpp, he2⟩ := litHereCI_chars ps hs r h c hc
      exact ⟨pp, by simp [hpp], he2⟩

/-- A case-insensitive literal match consumes exactly the pattern length. -/
theorem litHereCI_rest : ∀ (pat l r : List Char), litHereCI pat l = some r →
    r = l.drop pat.length ∧ pat.length ≤ l.length
  | [], l, r, h => by simpa [litHereCI] using h.symm
  | p :: ps, [], r, h => by simp [litHereCI] at h
  | p :: ps, h0 :: hs, r, h => by
    unfold litHereCI at h
    split_ifs at h with he
    obtain ⟨h1, h2⟩ := litHereCI_rest ps hs r h
    exact ⟨by simpa using h1, by simpa using h2⟩

/-- Presence of a character is preserved through a character-deleting global
replacement whose pattern cannot match that character. -/
theorem ruleScanGo_mem_ocrLit (pat : List Char) (a : Char)
    (hnm : ∀ p ∈ pat, eqCI p a = false) (hne : pat ≠ []) :
    ∀ (fuel : Nat) (prev : Option Char) (l : List Char), l.length ≤ fuel →
      (a ∈ ruleScanGo (ocrLit pat []) fuel prev l ↔ a ∈ l) := by
  intro fuel
  induction fuel with
  | zero =>
    intro prev l hl
    have : l = [] := List.eq_nil_of_length_eq_zero (Nat.le_zero.mp hl)
    subst this
    simp [ruleScanGo]
  | succ n ih =>
    intro prev l hl
    cases l with
    | nil => simp [ruleScanGo]
    | cons c cs =>
      cases hm : ocrLit pat [] prev (c :: cs) with
      | none =>
        have hrec := ih (some c) cs (by simp only [List.length_cons] at hl; omega)
        simp [ruleScanGo, hm, hrec]
      | some pr =>
        obtain ⟨rep, consumed⟩ := pr
        have hm2 := hm
        unfold ocrLit at hm2
        cases hcl : litHereCI pat (c :: cs) with
        | none => rw [hcl] at hm2; exact absurd hm2 (by simp)
        | some rr =>
          rw [hcl] at hm2
          have hm3 : some (([] : List Char), (c :: cs).take pat.length) =
              some (rep, consumed) := hm2
          obtain ⟨hrep, hcons⟩ : rep = [] ∧ consumed = (c :: cs).take pat.length := by
            injection hm3 with h3
            exact ⟨(congrArg Prod.fst h3).symm, (congrArg Prod.snd h3).symm⟩
          obtain ⟨hdrop, hlen⟩ := litHereCI_rest pat (c :: cs) rr hcl
          have hclen : consumed.length = pat.length := by
            rw [hcons, List.length_take]
            omega
          have hp1 : 1 ≤ pat.length := by
            cases pat with
            | nil => exact absurd rfl hne
            | cons x xs => simp
          have hrest : cs.drop (consumed.length - 1) = (c :: cs).drop pat.length := by
            rw [hclen]
            cases hp : pat with
            | nil => exact absurd hp hne
            | cons x xs => simp
          have hnotin : a ∉ consumed := by
            intro hmem
            rw [hcons] at hmem
            obtain ⟨p, hp, he⟩ := litHereCI_chars pat (c :: cs) rr hcl a hmem
            rw [hnm p hp] at he
            exact Bool.false_ne_true he
          have hrlen : ((c :: cs).drop pat.length).length ≤ n := by
            simp only [List.length_drop, List.length_cons]
            simp only [List.length_cons] at hl
            omega
          have hrec := ih consumed.getLast? ((c :: cs).drop pat.length) hrlen
          have hsplit : (a ∈ c :: cs) ↔ (a ∈ consumed ∨ a ∈ (c :: cs).drop pat.length) := by
            rw [hcons, ← List.mem_append, List.take_append_drop]
          simp only [ruleScanGo, hm, hrep, List.nil_append, hrest, hrec, hsplit]
          simp [hnotin]

/-- Membership through a non-matching dropWhile. -/
theorem mem_dropWhile_iff (p : Char → Bool) (a : Char) (hpa : p a = false) :
    ∀ l : List Char, a ∈ l.dropWhile p ↔ a ∈ l := by
  intro l
  induction l with
  | nil => simp
  | cons c cs ih =>
    by_cases hc : p c = true
    · rw [List.dropWhile_cons_of_pos hc, ih]
      have hne : a ≠ c := by
        intro h
        rw [h, hc] at hpa
        simp at hpa
      simp [hne]
    · rw [List.dropWhile_cons_of_neg hc]

/-- Membership of a non-whitespace character survives trimming. -/
theorem mem_trimL_iff (a : Char) (ha : isWsJS a = false) (l : List Char) :
    a ∈ trimL l ↔ a ∈ l := by
  unfold trimL
  simp [List.mem_reverse, mem_dropWhile_iff _ _ ha]

/-- `indexOf` of a single character finds nothing iff the character is absent. -/
theorem idxOf_single_none (l : List Char) (a : Char) :
    idxOf l [a] = none ↔ a ∉ l := by
  unfold idxOf
  suffices h : ∀ i, idxOfAux [a] l i = none ↔ a ∉ l from h 0
  induction l with
  | nil => intro i; simp [idxOfAux, litHere]
  | cons c cs ih =>
    intro i
    by_cases hac : a = c
    · subst hac
      simp [idxOfAux, litHere]
    · have hlit : litHere [a] (c :: cs) = false := by
        simp [litHere]
        exact fun h => absurd h hac
      simp [idxOfAux, hlit, ih (i + 1), hac]

/-- Open-brace presence is invariant under fence stripping. -/
theorem stripFences_brace (raw : String) :
    lbraceChar ∈ (stripFences raw).data ↔ lbraceChar ∈ raw.data := by
  have hjson : ∀ p ∈ "```json".data, eqCI p lbraceChar = false := by decide
  have hbt : ∀ p ∈ "```".data, eqCI p lbraceChar = false := by decide
  have hws : isWsJS lbraceChar = false := by decide
  unfold stripFences strTrim
  rw [mem_trimL_iff _ hws]
  unfold ruleScan
  rw [ruleScanGo_mem_ocrLit _ _ hbt (by decide) _ _ _ (le_refl _)]
  rw [ruleScanGo_mem_ocrLit _ _ hjson (by decide) _ _ _ (le_refl _)]

/-- C9 counterexample: a response with no open brace at all makes `parseJSON`
return null, and the single-pass fallback then surfaces a hard failure
(`onError`) instead of an empty-but-valid record. -/
theorem c9_no_brace_counterexample :
    parseJSON "OK COMPUTER" = none ∧ fallbackAssemble "OK COMPUTER" "TEXT" = none := by
  with_unfolding_all decide

/-- C9 (amended): `parseJSON` returns null exactly on responses containing no
open brace; any response with an open brace yields a sanitized record (the
repair loop ends at the sanitized-empty default), so only brace-free
responses become hard failures in the fallback path. -/
theorem c9_parse_none_iff_no_brace (raw : String) :
    parseJSON raw = none ↔ lbraceChar ∉ raw.data := by
  unfold parseJSON
  cases hidx : idxOf (stripFences raw).data [lbraceChar] with
  | none =>
    simp only [hidx]
    constructor
    · intro _ hmem
      exact (idxOf_single_none _ _).mp hidx ((stripFences_brace raw).mpr hmem)
    · intro _
      trivial
  | some start =>
    simp only [hidx]
    constructor
    · intro h
      exfalso
      revert h
      cases hatt : (match lastIdxOf (String.mk ((stripFences raw).data.drop start)).data
          [rbraceChar] with
        | some e =>
          if e > 0 then
            match jsonParseJS (String.mk (((stripFences raw).data.drop start).take (e + 1))) with
            | some v => some (sanitizeExtracted v)
            | none => none
          else none
        | none => none) with
      | some r => simp
      | none => simp
    · intro hnot
      exfalso
      have hmem : lbraceChar ∈ (stripFences raw).data := by
        by_contra hno
        rw [(idxOf_single_none _ _).mpr hno] at hidx
        exact Option.noConfusion hidx
      exact hnot ((stripFences_brace raw).mp hmem)

/-! ### C8 -/

/-- The clamp keeps every confidence in the range, with 70 for NaN. -/
theorem numConf_bounds (v : Option JValue) : 0 ≤ numConf v ∧ numConf v ≤ 100 := by
  unfold numConf
  cases toNumberJS v with
  | none => norm_num
  | some n =>
    exact ⟨le_min (by norm_num) (le_max_left 0 n), min_le_left _ _⟩

/-- Normalization never touches the confidence. -/
theorem normalizeDiagnosis_confidence (d : DiagnosisR) :
    (normalizeDiagnosis d).confidence = d.confidence := by
  unfold normalizeDiagnosis
  dsimp only
  split <;> rfl

/-- Every member of an `arrMap` is the image of some element. -/
theorem mem_arrMap {α : Type} {v : Option JValue} {f : JValue → Option α} {x : α}
    (h : x ∈ arrMap v f) : ∃ y, f y = some x := by
  unfold arrMap at h
  split at h
  · obtain ⟨y, -, hy⟩ := List.mem_filterMap.mp h
    exact ⟨y, hy⟩
  · simp at h

/-- C8: every confidence value output by the sanitizer lies in the range 0 to
100, and a confidence whose JavaScript Number coercion is NaN — in
particular an absent one — is replaced by the default 70. -/
theorem c8_confidence_bounds :
    (∀ j : JValue, confBounds (sanitizeExtracted j)) ∧
    (∀ v : Option JValue, toNumberJS v = none → numConf v = 70) ∧
    numConf none = 70 := by
  refine ⟨?_, ?_, rfl⟩
  · intro j
    unfold confBounds
    refine ⟨?_, ?_, ?_, ?_, ?_, ?_, ?_, ?_⟩
    · intro d hd
      obtain ⟨y, hy⟩ := mem_arrMap (show d ∈ arrMap (fieldOf (objOf j) "diagnoses") sanDiagElem from hd)
      unfold sanDiagElem at hy
      dsimp only at hy
      split at hy
      · exact absurd hy (by simp)
      · have hd2 : d = normalizeDiagnosis _ := (Option.some.injEq _ _ ▸ hy).symm
        rw [hd2, normalizeDiagnosis_confidence]
        exact numConf_bounds _
    · intro m hm
      obtain ⟨y, hy⟩ := mem_arrMap (show m ∈ arrMap (fieldOf (objOf j) "medications") sanMedElem from hm)
      unfold sanMedElem at hy
      dsimp only at hy
      split at hy
      · exact absurd hy (by simp)
      · cases hy
        exact numConf_bounds _
    · intro v hv
      obtain ⟨y, hy⟩ := mem_arrMap (show v ∈ arrMap (fieldOf (objOf j) "vitals") sanVitalElem from hv)
      unfold sanVitalElem at hy
      dsimp only at hy
      split at hy
      · exact absurd hy (by simp)
      · cases hy
        exact numConf_bounds _
    · intro l hl
      obtain ⟨y, hy⟩ := mem_arrMap (show l ∈ arrMap (fieldOf (objOf j) "labValues") sanLabElem from hl)
      unfold sanLabElem at hy
      dsimp only at hy
      split at hy
      · exact absurd hy (by simp)
      · split at hy
        · exact absurd hy (by simp)
        · cases hy
          exact numConf_bounds _
    · intro p hp
      obtain ⟨y, hy⟩ := mem_arrMap (show p ∈ arrMap (fieldOf (objOf j) "procedures") sanProcElem from hp)
      unfold sanProcElem at hy
      dsimp only at hy
      split at hy
      · exact absurd hy (by simp)
      · cases hy
        exact numConf_bounds _
    · intro d hd
      obtain ⟨y, hy⟩ := mem_arrMap (show d ∈ arrMap (fieldOf (objOf j) "dischargeInstructions") sanKVElem from hd)
      unfold sanKVElem at hy
      dsimp only at hy
      split at hy
      · exact absurd hy (by simp)
      · cases hy
        exact numConf_bounds _
    · intro f hf
      obtain ⟨y, hy⟩ := mem_arrMap (show f ∈ arrMap (fieldOf (objOf j) "followUp") sanKVElem from hf)
      unfold sanKVElem at hy
      dsimp only at hy
      split at hy
      · exact absurd hy (by simp)
      · cases hy
        exact numConf_bounds _
    · exact numConf_bounds _
  · intro v hnan
    unfold numConf
    rw [hnan]

/-- C8 witness: the NaN-default conjunct at a non-numeric string and the
bounds at a concrete decoded object. -/
theorem c8_confidence_bounds_witness :
    numConf (some (JValue.jstr "abc")) = 70 ∧
    confBounds (sanitizeExtracted (JValue.jobj [("overallConfidence", JValue.jnum 250)])) :=
  ⟨c8_confidence_bounds.2.1 _ (by with_unfolding_all decide),
   c8_confidence_bounds.1 _⟩

/-! ### Vitals parser invariants: character and run lemmas -/

/-- A decimal digit is not JavaScript whitespace. -/
theorem digit_not_ws (c : Char) (h : isDigitC c = true) : isWsJS c = false := by
  simp only [isDigitC, Bool.and_eq_true, decide_eq_true_eq] at h
  obtain ⟨h1, h2⟩ := h
  simp only [isWsJS, Bool.or_eq_false_iff, beq_eq_false_iff_ne, ne_eq]
  refine ⟨⟨⟨⟨⟨⟨?_, ?_⟩, ?_⟩, ?_⟩, ?_⟩, ?_⟩, ?_⟩ <;>
    (rintro rfl; revert h1 h2; decide)

/-- Upper-casing fixes decimal digits. -/
theorem upC_digit (c : Char) (h : isDigitC c = true) : upC c = c := by
  simp only [isDigitC, Bool.and_eq_true, decide_eq_true_eq] at h
  unfold upC
  rw [if_neg]
  simp only [Bool.and_eq_true, decide_eq_true_eq, not_and]
  intro h1 _
  exact absurd (h1.trans h.2) (by decide)

/-- Case-insensitive character equality determines the upper case. -/
theorem eqCI_upC (p c : Char) (h : eqCI p c = true) : upC c = upC p := by
  unfold eqCI at h
  exact (beq_iff_eq.mp h).symm

/-- The maximal digit run decomposes its input and consists of digits. -/
theorem takeDigitsL_decomp : ∀ l : List Char,
    l = (takeDigitsL l).1 ++ (takeDigitsL l).2 ∧ ∀ c ∈ (takeDigitsL l).1, isDigitC c = true
  | [] => by simp [takeDigitsL]
  | c :: cs => by
    have ih := takeDigitsL_decomp cs
    unfold takeDigitsL
    by_cases h : isDigitC c = true
    · rw [if_pos h]
      rcases he : takeDigitsL cs with ⟨ds, r⟩
      rw [he] at ih
      refine ⟨?_, ?_⟩
      · simpa using ih.1
      · intro x hx
        rcases List.mem_cons.mp hx with rfl | hx
        · exact h
        · exact ih.2 x hx
    · rw [if_neg h]
      simp

/-- The maximal whitespace run decomposes its input and consists of whitespace. -/
theorem takeWsL_decomp : ∀ l : List Char,
    l = (takeWsL l).1 ++ (takeWsL l).2 ∧ ∀ c ∈ (takeWsL l).1, isWsJS c = true
  | [] => by simp [takeWsL]
  | c :: cs => by
    have ih := takeWsL_decomp cs
    unfold takeWsL
    by_cases h : isWsJS c = true
    · rw [if_pos h]
      rcases he : takeWsL cs with ⟨ws, r⟩
      rw [he] at ih
      refine ⟨?_, ?_⟩
      · simpa using ih.1
      · intro x hx
        rcases List.mem_cons.mp hx with rfl | hx
        · exact h
        · exact ih.2 x hx
    · rw [if_neg h]
      simp

/-- The maximal digit run of a digit block followed by a non-digit boundary. -/
theorem takeDigitsL_append (ds tl : List Char)
    (hds : ∀ c ∈ ds, isDigitC c = true) (htl : nonDigitHead tl = true) :
    takeDigitsL (ds ++ tl) = (ds, tl) := by
  induction ds with
  | nil =>
    cases tl with
    | nil => rfl
    | cons c cs =>
      have hc : isDigitC c = false := by
        have := htl
        unfold nonDigitHead at this
        simpa using this
      simp only [List.nil_append]
      unfold takeDigitsL
      rw [if_neg (by simp [hc])]
  | cons d ds ih =>
    have hd : isDigitC d = true := hds d (by simp)
    simp only [List.cons_append]
    unfold takeDigitsL
    rw [if_pos hd, ih (fun c hc => hds c (by simp [hc]))]

/-- A list of non-digits has a non-digit head. -/
theorem nonDigitHead_of_all (l : List Char) (h : ∀ c ∈ l, isDigitC c = false) :
    nonDigitHead l = true := by
  cases l with
  | nil => rfl
  | cons c cs =>
    unfold nonDigitHead
    simp [h c (by simp)]

/-- JS `parseInt` on a nonempty digit block followed by a non-digit boundary. -/
theorem parseIntJS_digits (ds tl : List Char)
    (hne : ds ≠ []) (hds : ∀ c ∈ ds, isDigitC c = true)
    (htl : nonDigitHead tl = true) :
    parseIntJS (ds ++ tl) = some ((digitsVal ds : Int)) := by
  obtain ⟨d, ds', rfl⟩ : ∃ d ds', ds = d :: ds' := by
    cases ds with
    | nil => exact absurd rfl hne
    | cons d ds' => exact ⟨d, ds', rfl⟩
  have hd : isDigitC d = true := hds d (by simp)
  have hdw : isWsJS d = false := digit_not_ws d hd
  have hdm : d ≠ '-' := by
    intro hcon
    rw [hcon] at hd
    exact absurd hd (by decide)
  have hdp : d ≠ '+' := by
    intro hcon
    rw [hcon] at hd
    exact absurd hd (by decide)
  have hdrop : List.dropWhile isWsJS (d :: (ds' ++ tl)) = d :: (ds' ++ tl) :=
    List.dropWhile_cons_of_neg (by simp [hdw])
  have hsign : (match d :: (ds' ++ tl) with
      | '-' :: r => (true, r)
      | '+' :: r => (false, r)
      | x => (false, d :: (ds' ++ tl))) = (false, d :: (ds' ++ tl)) := by
    split
    · rename_i r heq
      injection heq with ha _
      exact absurd ha hdm
    · rename_i r heq
      injection heq with ha _
      exact absurd ha hdp
    · rfl
  have htk := takeDigitsL_append (d :: ds') tl hds htl
  rw [List.cons_append] at htk
  unfold parseIntJS
  simp only [List.cons_append, hdrop, hsign, htk]
  simp

/-- dropWhile is the identity when no element satisfies the predicate. -/
theorem dropWhile_all_false (p : Char → Bool) (l : List Char)
    (h : ∀ c ∈ l, p c = false) : l.dropWhile p = l := by
  cases l with
  | nil => rfl
  | cons c cs => exact List.dropWhile_cons_of_neg (by simp [h c (by simp)])

/-- Trimming a whitespace-free list changes nothing. -/
theorem trimL_of_no_ws (l : List Char) (h : ∀ c ∈ l, isWsJS c = false) :
    trimL l = l := by
  unfold trimL
  rw [dropWhile_all_false _ _ h,
      dropWhile_all_false _ _ (fun c hc => h c (List.mem_reverse.mp hc)),
      List.reverse_reverse]

/-- Trimming a list whose first and last characters are not whitespace. -/
theorem trimL_of_ends (l : List Char)
    (hh : ∀ c, l.head? = some c → isWsJS c = false)
    (hl : ∀ c, l.getLast? = some c → isWsJS c = false) : trimL l = l := by
  unfold trimL
  have h1 : l.dropWhile isWsJS = l := by
    cases l with
    | nil => rfl
    | cons c cs => exact List.dropWhile_cons_of_neg (by simp [hh c rfl])
  rw [h1]
  have h2 : l.reverse.dropWhile isWsJS = l.reverse := by
    cases hr : l.reverse with
    | nil => rfl
    | cons c cs =>
      refine List.dropWhile_cons_of_neg ?_
      simp only [Bool.not_eq_true]
      apply hl
      rw [← List.head?_reverse, hr]
      rfl
  rw [h2, List.reverse_reverse]

/-- Every character of a trimmed list appears in the list. -/
theorem mem_of_mem_trimL (a : Char) (l : List Char) (h : a ∈ trimL l) : a ∈ l := by
  unfold trimL at h
  rw [List.mem_reverse] at h
  have h1 : a ∈ (l.dropWhile isWsJS).reverse := (List.dropWhile_sublist _).subset h
  rw [List.mem_reverse] at h1
  exact (List.dropWhile_sublist _).subset h1

/-- Inversion of `firstSome`: success comes from a candidate. -/
theorem firstSome_some {α : Type} (a : α) :
    ∀ (cands : List (List Char)) (k : List Char → Option α),
      firstSome cands k = some a → ∃ x ∈ cands, k x = some a := by
  intro cands
  induction cands with
  | nil => intro k h; simp [firstSome] at h
  | cons x xs ih =>
    intro k h
    unfold firstSome at h
    rcases hk : k x with _ | r
    · rw [hk] at h
      obtain ⟨y, hy, hky⟩ := ih k h
      exact ⟨y, by simp [hy], hky⟩
    · rw [hk] at h
      injection h with h
      subst h
      exact ⟨x, by simp, hk⟩

/-- Inversion of the leftmost-match scan: success comes from some position. -/
theorem scanM_some {α : Type} (f : Option Char → List Char → Option α) (a : α) :
    ∀ (l : List Char) (prev : Option Char), scanM f prev l = some a →
      ∃ prev2 l2, f prev2 l2 = some a := by
  intro l
  induction l with
  | nil =>
    intro prev h
    exact ⟨prev, [], by simpa [scanM] using h⟩
  | cons c cs ih =>
    intro prev h
    unfold scanM at h
    rcases hf : f prev (c :: cs) with _ | r
    · rw [hf] at h
      exact ih (some c) h
    · rw [hf] at h
      injection h with h
      subst h
      exact ⟨prev, c :: cs, hf⟩

/-- The `\d{1,3}` capture is a nonempty digit run. -/
theorem digitsMax3_post (l ds r : List Char) (h : digitsMax3 l = some (ds, r)) :
    ds ≠ [] ∧ ∀ c ∈ ds, isDigitC c = true := by
  unfold digitsMax3 at h
  rcases he : takeDigitsL l with ⟨ds0, r0⟩
  rw [he] at h
  dsimp only at h
  have hall : ∀ c ∈ ds0, isDigitC c = true := by
    have h2 := (takeDigitsL_decomp l).2
    rw [he] at h2
    exact h2
  by_cases hemp : ds0.isEmpty = true
  · rw [if_pos hemp] at h
    cases h
  · rw [if_neg hemp] at h
    have hne0 : ds0 ≠ [] := by
      intro hcon
      rw [hcon] at hemp
      exact hemp rfl
    by_cases hlen : ds0.length ≤ 3
    · rw [if_pos hlen] at h
      injection h with h
      injection h with h1 h2
      subst h1
      exact ⟨hne0, hall⟩
    · rw [if_neg hlen] at h
      injection h with h
      injection h with h1 h2
      subst h1
      refine ⟨?_, fun c hc => hall c ((List.take_subset _ _) hc)⟩
      intro hcon
      rw [List.take_eq_nil_iff] at hcon
      rcases hcon with hc3 | hc0
      · exact absurd hc3 (by decide)
      · exact hne0 hc0

/-- The `\d{2,3}` capture is a nonempty digit run. -/
theorem digits23_post (l ds r : List Char) (h : digits23 l = some (ds, r)) :
    ds ≠ [] ∧ ∀ c ∈ ds, isDigitC c = true := by
  unfold digits23 at h
  rcases hm : digitsMax3 l with _ | ⟨ds0, r0⟩
  · rw [hm] at h
    cases h
  · rw [hm] at h
    dsimp only at h
    by_cases hlen : ds0.length ≥ 2
    · rw [if_pos hlen] at h
      injection h with h
      injection h with h1 h2
      subst h1
      exact digitsMax3_post l _ r0 hm
    · rw [if_neg hlen] at h
      cases h

/-- The shared numeric tail captures a nonempty digit run. -/
theorem numUnitTail_post (alts : List (List Char)) (l : List Char) (g u : String)
    (h : numUnitTail alts l = some (g, u)) :
    g.data ≠ [] ∧ ∀ c ∈ g.data, isDigitC c = true := by
  unfold numUnitTail at h
  rcases hw : takeWsL l with ⟨ws, r1⟩
  rw [hw] at h
  dsimp only at h
  rcases hd : digits23 r1 with _ | ⟨ds, r2⟩
  · rw [hd] at h
    cases h
  · rw [hd] at h
    dsimp only at h
    have hpost := digits23_post r1 ds r2 hd
    rcases hw2 : takeWsL r2 with ⟨ws2, r3⟩
    rw [hw2] at h
    dsimp only at h
    rcases hf : firstAltCI alts r3 with _ | ⟨uu, rr⟩
    · rw [hf] at h
      injection h with h
      injection h with h1 h2
      rw [← h1]
      exact hpost
    · rw [hf] at h
      dsimp only at h
      injection h with h
      injection h with h1 h2
      rw [← h1]
      exact hpost

/-- The PR capture is a nonempty digit run. -/
theorem prHere_post (prev : Option Char) (l : List Char) (g u : String)
    (h : prHere prev l = some (g, u)) :
    g.data ≠ [] ∧ ∀ c ∈ g.data, isDigitC c = true := by
  unfold prHere at h
  obtain ⟨r0, _, h⟩ := firstSome_some _ _ _ h
  dsimp only at h
  obtain ⟨r1, _, h⟩ := firstSome_some _ _ _ h
  rcases hw : takeWsL r1 with ⟨ws, r2⟩
  rw [hw] at h
  dsimp only at h
  cases r2 with
  | nil => simp at h
  | cons c r3 =>
    dsimp only at h
    by_cases hc : (c == ':' || c == '-') = true
    · rw [if_pos hc] at h
      exact numUnitTail_post _ _ _ _ h
    · rw [if_neg hc] at h
      simp at h

/-- The RR capture is a nonempty digit run. -/
theorem rrHere_post (prev : Option Char) (l : List Char) (g u : String)
    (h : rrHere prev l = some (g, u)) :
    g.data ≠ [] ∧ ∀ c ∈ g.data, isDigitC c = true := by
  unfold rrHere at h
  obtain ⟨r0, _, h⟩ := firstSome_some _ _ _ h
  dsimp only at h
  rcases hlit : litHereCI ['R', 'R'] r0 with _ | r1
  · rw [hlit] at h
    simp at h
  · rw [hlit] at h
    dsimp only at h
    rcases hw : takeWsL r1 with ⟨ws, r2⟩
    rw [hw] at h
    dsimp only at h
    obtain ⟨r3, _, h⟩ := firstSome_some _ _ _ h
    rcases hw2 : takeWsL r3 with ⟨ws2, r4⟩
    rw [hw2] at h
    dsimp only at h
    rcases hd : digitsMax3 r4 with _ | ⟨ds, r5⟩
    · rw [hd] at h
      simp at h
    · rw [hd] at h
      dsimp only at h
      rcases hw3 : takeWsL r5 with ⟨ws3, r6⟩
      rw [hw3] at h
      dsimp only at h
      injection h with h
      injection h with h1 h2
      rw [← h1]
      exact digitsMax3_post r4 ds r5 hd

/-- The SpO2 shared-tail capture is a nonempty digit run. -/
theorem spo2Tail_post (r : List Char) (g u : String)
    (h : spo2Tail r = some (g, u)) :
    g.data ≠ [] ∧ ∀ c ∈ g.data, isDigitC c = true := by
  unfold spo2Tail at h
  rcases hw : takeWsL r with ⟨ws, r1⟩
  rw [hw] at h
  dsimp only at h
  obtain ⟨r2, _, h⟩ := firstSome_some _ _ _ h
  rcases hw2 : takeWsL r2 with ⟨ws2, r3⟩
  rw [hw2] at h
  dsimp only at h
  rcases hd : digits23 r3 with _ | ⟨ds, r4⟩
  · rw [hd] at h
    simp at h
  · rw [hd] at h
    dsimp only at h
    rcases hw3 : takeWsL r4 with ⟨ws3, r5⟩
    rw [hw3] at h
    dsimp only at h
    injection h with h
    injection h with h1 h2
    rw [← h1]
    exact digits23_post r3 ds r4 hd

/-- The SpO2 capture is a nonempty digit run. -/
theorem spo2Here_post (prev : Option Char) (l : List Char) (g u : String)
    (h : spo2Here prev l = some (g, u)) :
    g.data ≠ [] ∧ ∀ c ∈ g.data, isDigitC c = true := by
  unfold spo2Here at h
  dsimp only at h
  rcases halt : firstSome (anchorStarts prev l) (fun r0 =>
      match litHereCI "SPO2".data r0 with
      | some r1 => spo2Tail r1
      | none => none) with _ | m
  · rw [halt] at h
    dsimp only at h
    rcases hlit : litHereCI ['S', 'P'] l with _ | r1
    · rw [hlit] at h
      simp at h
    · rw [hlit] at h
      dsimp only at h
      rcases hw : takeWsL r1 with ⟨ws, r2⟩
      rw [hw] at h
      dsimp only at h
      obtain ⟨r3, _, h⟩ := firstSome_some _ _ _ h
      rcases hw2 : takeWsL r3 with ⟨ws2, r4⟩
      rw [hw2] at h
      dsimp only at h
      split at h
      · exact spo2Tail_post _ _ _ h
      · simp at h
  · rw [halt] at h
    dsimp only at h
    injection h with h
    subst h
    obtain ⟨r0, _, h2⟩ := firstSome_some _ _ _ halt
    rcases hlit : litHereCI "SPO2".data r0 with _ | r1
    · rw [hlit] at h2
      simp at h2
    · rw [hlit] at h2
      exact spo2Tail_post _ _ _ h2

/-- A case-insensitive literal match splits the input at the pattern length. -/
theorem litHereCI_split (pat l r : List Char) (h : litHereCI pat l = some r) :
    l = l.take pat.length ++ r := by
  obtain ⟨hr, hlen⟩ := litHereCI_rest _ _ _ h
  rw [hr, List.take_append_drop]

/-- The consumed slice before a known rest. -/
theorem sliceTo_append (pre rest : List Char) : sliceTo (pre ++ rest) rest = pre := by
  unfold sliceTo
  rw [List.length_append, Nat.add_sub_cancel, List.take_left]

/-- Every character of the BP unit is whitespace or case-folds to M, H or G. -/
theorem bpUnit_post (l : List Char) :
    ∀ c ∈ bpUnit l, isWsJS c = true ∨ upC c = 'M' ∨ upC c = 'H' ∨ upC c = 'G' := by
  unfold bpUnit
  rcases h1 : litHereCI "MM".data l with _ | r1
  · simp
  · dsimp only
    rcases hw : takeWsL r1 with ⟨ws, r2⟩
    dsimp only
    rcases h2 : litHereCI "HG".data r2 with _ | r3
    · simp
    · have hl1 : l = l.take ("MM".data.length) ++ r1 := litHereCI_split _ _ _ h1
      have hws := takeWsL_decomp r1
      rw [hw] at hws
      have hr2 : r2 = r2.take ("HG".data.length) ++ r3 := litHereCI_split _ _ _ h2
      have hldec : l = (l.take ("MM".data.length) ++ ws ++ r2.take ("HG".data.length)) ++ r3 := by
        conv_lhs => rw [hl1, hws.1, hr2]
        simp [List.append_assoc]
      have hslice : sliceTo l r3 =
          l.take ("MM".data.length) ++ ws ++ r2.take ("HG".data.length) := by
        conv_lhs => rw [hldec]
        exact sliceTo_append _ _
      dsimp only
      rw [hslice]
      intro c hc
      simp only [List.append_assoc, List.mem_append] at hc
      rcases hc with hc | hc | hc
      · obtain ⟨p, hp, hpc⟩ := litHereCI_chars _ _ _ h1 c hc
        have hpM : p = 'M' := by
          have he : ("MM".data : List Char) = ['M', 'M'] := rfl
          rw [he] at hp
          simpa using hp
        right; left
        rw [eqCI_upC p c hpc, hpM]
        decide
      · exact Or.inl (hws.2 c hc)
      · obtain ⟨p, hp, hpc⟩ := litHereCI_chars _ _ _ h2 c hc
        have hpHG : p = 'H' ∨ p = 'G' := by
          have he : ("HG".data : List Char) = ['H', 'G'] := rfl
          rw [he] at hp
          simpa using hp
        rcases hpHG with rfl | rfl
        · right; right; left
          rw [eqCI_upC _ c hpc]
          decide
        · right; right; right
          rw [eqCI_upC _ c hpc]
          decide

/-- Every candidate first number of the BP match is a nonempty digit run. -/
theorem bpNumVariants_post (r4 : List Char) :
    ∀ v ∈ bpNumVariants r4, v.1 ≠ [] ∧ ∀ c ∈ v.1, isDigitC c = true := by
  unfold bpNumVariants
  intro v hv
  cases r4 with
  | nil => simp at hv
  | cons a t1 =>
    cases t1 with
    | nil => simp at hv
    | cons b t2 =>
      cases t2 with
      | nil =>
        dsimp only at hv
        split_ifs at hv with hab
        · simp only [List.mem_singleton] at hv
          subst hv
          simp only [Bool.and_eq_true] at hab
          refine ⟨by simp, ?_⟩
          intro x hx
          rcases List.mem_cons.mp hx with rfl | hx
          · exact hab.1
          · rcases List.mem_cons.mp hx with rfl | hx
            · exact hab.2
            · simp at hx
        · simp at hv
      | cons c t3 =>
        dsimp only at hv
        rw [List.mem_append] at hv
        rcases hv with hv | hv
        · split_ifs at hv with h3
          · simp only [List.mem_singleton] at hv
            subst hv
            simp only [Bool.and_eq_true] at h3
            refine ⟨by simp, ?_⟩
            intro x hx
            rcases List.mem_cons.mp hx with rfl | hx
            · exact h3.1.1
            · rcases List.mem_cons.mp hx with rfl | hx
              · exact h3.1.2
              · rcases List.mem_cons.mp hx with rfl | hx
                · exact h3.2
                · simp at hx
          · simp at hv
        · split_ifs at hv with h2
          · simp only [List.mem_singleton] at hv
            subst hv
            simp only [Bool.and_eq_true] at h2
            refine ⟨by simp, ?_⟩
            intro x hx
            rcases List.mem_cons.mp hx with rfl | hx
            · exact h2.1
            · rcases List.mem_cons.mp hx with rfl | hx
              · exact h2.2
              · simp at hx
          · simp at hv

/-- Shape of a successful BP tail attempt. -/
theorem bpTryVariant_post (ds1 ra : List Char) (g u : String)
    (h : bpTryVariant (ds1, ra) = some (g, u)) :
    ∃ ws1 ws2 ds2,
      g.data = ds1 ++ ws1 ++ '/' :: (ws2 ++ ds2) ∧
      (∀ c ∈ ws1, isWsJS c = true) ∧ (∀ c ∈ ws2, isWsJS c = true) ∧
      ds2 ≠ [] ∧ (∀ c ∈ ds2, isDigitC c = true) ∧
      (∀ c ∈ u.data, isWsJS c = true ∨ upC c = 'M' ∨ upC c = 'H' ∨ upC c = 'G') := by
  unfold bpTryVariant at h
  dsimp only at h
  rcases hw1 : takeWsL ra with ⟨ws1, rb⟩
  rw [hw1] at h
  dsimp only at h
  split at h
  · rename_i rc
    rcases hw2 : takeWsL rc with ⟨ws2, rd⟩
    rw [hw2] at h
    dsimp only at h
    rcases hd : digits23 rd with _ | ⟨ds2, re⟩
    · rw [hd] at h
      simp at h
    · rw [hd] at h
      dsimp only at h
      rcases hw3 : takeWsL re with ⟨ws3, rf⟩
      rw [hw3] at h
      dsimp only at h
      injection h with h
      injection h with h1 h2
      obtain ⟨hd2ne, hd2⟩ := digits23_post rd ds2 re hd
      have hwd2 := takeWsL_decomp rc
      rw [hw2] at hwd2
      have hwd1 := takeWsL_decomp ra
      rw [hw1] at hwd1
      refine ⟨ws1, ws2, ds2, ?_, hwd1.2, hwd2.2, hd2ne, hd2, ?_⟩
      · rw [← h1]
      · rw [← h2]
        exact bpUnit_post rf
  · simp at h

/-- Shape of a successful BP match: digits, optional spaces, a slash, optional
spaces, digits; the unit is whitespace and M/H/G letters. -/
theorem bpHere_post (prev : Option Char) (l : List Char) (g u : String)
    (h : bpHere prev l = some (g, u)) :
    ∃ ds1 ws1 ws2 ds2,
      g.data = ds1 ++ ws1 ++ '/' :: (ws2 ++ ds2) ∧
      ds1 ≠ [] ∧ (∀ c ∈ ds1, isDigitC c = true) ∧
      (∀ c ∈ ws1, isWsJS c = true) ∧ (∀ c ∈ ws2, isWsJS c = true) ∧
      ds2 ≠ [] ∧ (∀ c ∈ ds2, isDigitC c = true) ∧
      (∀ c ∈ u.data, isWsJS c = true ∨ upC c = 'M' ∨ upC c = 'H' ∨ upC c = 'G') := by
  unfold bpHere at h
  obtain ⟨r0, _, h⟩ := firstSome_some _ _ _ h
  dsimp only at h
  rcases hlit : litHereCI ['B', 'P'] r0 with _ | r1
  · rw [hlit] at h
    simp at h
  · rw [hlit] at h
    dsimp only at h
    rcases hw : takeWsL r1 with ⟨ws, r2⟩
    rw [hw] at h
    dsimp only at h
    obtain ⟨r3, _, h⟩ := firstSome_some _ _ _ h
    rcases hw2 : takeWsL r3 with ⟨wsx, r4⟩
    rw [hw2] at h
    dsimp only at h
    rcases hnv : bpNumVariants r4 with _ | ⟨v, vs⟩
    · rw [hnv] at h
      simp at h
    · rw [hnv] at h
      dsimp only at h
      have hv1 : v ∈ bpNumVariants r4 := by
        rw [hnv]
        simp
      obtain ⟨hvne, hvd⟩ := bpNumVariants_post r4 v hv1
      rcases htv : bpTryVariant v with _ | res
      · rw [htv] at h
        dsimp only at h
        rcases vs with _ | ⟨v2, vs2⟩
        · simp at h
        · have hv2 : v2 ∈ bpNumVariants r4 := by
            rw [hnv]
            simp
          obtain ⟨hv2ne, hv2d⟩ := bpNumVariants_post r4 v2 hv2
          obtain ⟨a, b⟩ := v2
          obtain ⟨ws1, wsB, ds2, hcap, hw1, hwB, hdne, hdd, hu⟩ :=
            bpTryVariant_post a b g u h
          exact ⟨a, ws1, wsB, ds2, hcap, hv2ne, hv2d, hw1, hwB, hdne, hdd, hu⟩
      · rw [htv] at h
        injection h with h
        subst h
        obtain ⟨a, b⟩ := v
        obtain ⟨ws1, wsB, ds2, hcap, hw1, hwB, hdne, hdd, hu⟩ :=
          bpTryVariant_post a b g u htv
        exact ⟨a, ws1, wsB, ds2, hcap, hvne, hvd, hw1, hwB, hdne, hdd, hu⟩

/-- Filtering keeps everything when the predicate holds everywhere. -/
theorem filter_keep_all (p : Char → Bool) : ∀ l : List Char,
    (∀ c ∈ l, p c = true) → l.filter p = l := by
  intro l h
  induction l with
  | nil => rfl
  | cons c cs ih =>
    rw [List.filter_cons_of_pos (h c (by simp)), ih (fun x hx => h x (by simp [hx]))]

/-- Filtering drops everything when the predicate fails everywhere. -/
theorem filter_drop_all (p : Char → Bool) : ∀ l : List Char,
    (∀ c ∈ l, p c = false) → l.filter p = [] := by
  intro l h
  induction l with
  | nil => rfl
  | cons c cs ih =>
    rw [List.filter_cons_of_neg (by simp [h c (by simp)]),
        ih (fun x hx => h x (by simp [hx]))]

/-- JS `split` on a separator-free list. -/
theorem splitOnC_not_mem (sep : Char) : ∀ l : List Char, sep ∉ l →
    splitOnC sep l = [l] := by
  intro l h
  induction l with
  | nil => rfl
  | cons c cs ih =>
    have hcs : c ≠ sep := fun hcon => h (hcon ▸ List.mem_cons_self c cs)
    rw [splitOnC]
    rw [if_neg (by simp [hcs]), ih (fun hx => h (List.mem_cons_of_mem _ hx))]

/-- JS `split` at the first separator. -/
theorem splitOnC_append_sep (sep : Char) : ∀ (xs ys : List Char), sep ∉ xs →
    splitOnC sep (xs ++ sep :: ys) = xs :: splitOnC sep ys := by
  intro xs
  induction xs with
  | nil =>
    intro ys h
    simp only [List.nil_append]
    rw [splitOnC]
    rw [if_pos (by simp)]
  | cons c cs ih =>
    intro ys h
    have hcs : c ≠ sep := fun hcon => h (hcon ▸ List.mem_cons_self c cs)
    simp only [List.cons_append]
    rw [splitOnC]
    rw [if_neg (by simp [hcs]), ih ys (fun hx => h (List.mem_cons_of_mem _ hx))]

/-- A character that upper-cases to M, H or G is not a digit. -/
theorem mhg_not_digit (c : Char) (h : upC c = 'M' ∨ upC c = 'H' ∨ upC c = 'G') :
    isDigitC c = false := by
  by_contra hcon
  rw [Bool.not_eq_false] at hcon
  have hup := upC_digit c hcon
  rcases h with h | h | h <;>
    (rw [hup] at h; subst h; exact absurd hcon (by decide))

/-- Trimming an all-digit string changes nothing. -/
theorem strTrim_digits (g : String) (hds : ∀ c ∈ g.data, isDigitC c = true) :
    strTrim g = g := by
  unfold strTrim
  rw [trimL_of_no_ws _ (fun c hc => digit_not_ws c (hds c hc))]

/-- `parseInt` of the stored value of an all-digit capture. -/
theorem mkVitalVal_parseInt (g u : String) (hne : g.data ≠ [])
    (hds : ∀ c ∈ g.data, isDigitC c = true) :
    parseIntJS (mkVitalVal g u).data = some ((digitsVal g.data : Int)) := by
  unfold mkVitalVal
  by_cases hu : u = ""
  · rw [if_pos hu]
    have h0 := parseIntJS_digits g.data [] hne hds rfl
    simpa using h0
  · rw [if_neg hu]
    have hdata : (g ++ " " ++ u).data = g.data ++ (' ' :: u.data) := by
      rw [String.data_append, String.data_append]
      have hsp : (" " : String).data = [' '] := rfl
      rw [hsp]
      simp
    rw [hdata]
    refine parseIntJS_digits g.data (' ' :: u.data) hne hds ?_
    unfold nonDigitHead
    dsimp only
    decide

/-- A trimmed PR match passing the range filter yields an in-range pulse. -/
theorem prRangeOK (clean g u : String)
    (hm : scanM prHere none clean.data = some (g, u))
    (hrr : rangeReject "PR" (strTrim g) = false) :
    vitalRangeOK ⟨"PR (Pulse Rate)", mkVitalVal (strTrim g) (strTrim u), 95⟩ = true := by
  obtain ⟨prev2, l2, hp⟩ := scanM_some _ _ _ _ hm
  obtain ⟨hne, hds⟩ := prHere_post _ _ _ _ hp
  have htrim : strTrim g = g := strTrim_digits g hds
  have hg : parseIntJS g.data = some ((digitsVal g.data : Int)) := by
    have h0 := parseIntJS_digits g.data [] hne hds rfl
    simpa using h0
  rw [htrim] at hrr
  unfold rangeReject at hrr
  rw [if_pos (by decide), hg] at hrr
  dsimp only at hrr
  simp only [Bool.or_eq_false_iff, decide_eq_false_iff_not, not_lt] at hrr
  have hv := mkVitalVal_parseInt g (strTrim u) hne hds
  unfold vitalRangeOK
  dsimp only
  rw [if_pos (by decide), htrim, hv]
  dsimp only
  simp only [Bool.and_eq_true, decide_eq_true_eq]
  exact ⟨hrr.1, hrr.2⟩

/-- A trimmed RR match passing the range filter yields an in-range rate. -/
theorem rrRangeOK (clean g u : String)
    (hm : scanM rrHere none clean.data = some (g, u))
    (hrr : rangeReject "RR" (strTrim g) = false) :
    vitalRangeOK ⟨"RR (Respiratory Rate)", mkVitalVal (strTrim g) (strTrim u), 95⟩ = true := by
  obtain ⟨prev2, l2, hp⟩ := scanM_some _ _ _ _ hm
  obtain ⟨hne, hds⟩ := rrHere_post _ _ _ _ hp
  have htrim : strTrim g = g := strTrim_digits g hds
  have hg : parseIntJS g.data = some ((digitsVal g.data : Int)) := by
    have h0 := parseIntJS_digits g.data [] hne hds rfl
    simpa using h0
  rw [htrim] at hrr
  unfold rangeReject at hrr
  rw [if_neg (by decide), if_pos (by decide), hg] at hrr
  dsimp only at hrr
  simp only [Bool.or_eq_false_iff, decide_eq_false_iff_not, not_lt] at hrr
  have hv := mkVitalVal_parseInt g (strTrim u) hne hds
  unfold vitalRangeOK
  dsimp only
  rw [if_neg (by decide), if_pos (by decide), htrim, hv]
  dsimp only
  simp only [Bool.and_eq_true, decide_eq_true_eq]
  exact ⟨hrr.1, hrr.2⟩

/-- A trimmed SpO2 match passing the range filter yields an in-range saturation. -/
theorem spo2RangeOK (clean g u : String)
    (hm : scanM spo2Here none clean.data = some (g, u))
    (hrr : rangeReject "SPO2" (strTrim g) = false) :
    vitalRangeOK ⟨"SpO2", mkVitalVal (strTrim g) (strTrim u), 95⟩ = true := by
  obtain ⟨prev2, l2, hp⟩ := scanM_some _ _ _ _ hm
  obtain ⟨hne, hds⟩ := spo2Here_post _ _ _ _ hp
  have htrim : strTrim g = g := strTrim_digits g hds
  have hg : parseIntJS g.data = some ((digitsVal g.data : Int)) := by
    have h0 := parseIntJS_digits g.data [] hne hds rfl
    simpa using h0
  rw [htrim] at hrr
  unfold rangeReject at hrr
  rw [if_neg (by decide), if_neg (by decide), if_pos (by decide), hg] at hrr
  dsimp only at hrr
  simp only [Bool.or_eq_false_iff, decide_eq_false_iff_not, not_lt] at hrr
  have hv := mkVitalVal_parseInt g (strTrim u) hne hds
  unfold vitalRangeOK
  dsimp only
  rw [if_neg (by decide), if_neg (by decide), if_pos (by decide), htrim, hv]
  dsimp only
  simp only [Bool.and_eq_true, decide_eq_true_eq]
  exact ⟨hrr.1, hrr.2⟩

/-- Temperature values are never range-checked. -/
theorem tempRangeOK (val : String) : vitalRangeOK ⟨"Temperature", val, 95⟩ = true := by
  unfold vitalRangeOK
  dsimp only
  rw [if_neg (by decide), if_neg (by decide), if_neg (by decide), if_neg (by decide)]

/-- A trimmed BP match passing the range filter yields in-range pressures. -/
theorem bpRangeOK (clean g u : String)
    (hm : scanM bpHere none clean.data = some (g, u))
    (hrr : rangeReject "BP" (strTrim g) = false) :
    vitalRangeOK ⟨"BP (Blood Pressure)", mkVitalVal (strTrim g) (strTrim u), 95⟩ = true := by
  obtain ⟨prev2, l2, hp⟩ := scanM_some _ _ _ _ hm
  obtain ⟨ds1, ws1, ws2, ds2, hcap, hd1ne, hd1, hw1, hw2, hd2ne, hd2, hu⟩ :=
    bpHere_post _ _ _ _ hp
  obtain ⟨d1, ds1t, rfl⟩ : ∃ d t, ds1 = d :: t := by
    cases ds1 with
    | nil => exact absurd rfl hd1ne
    | cons a t => exact ⟨a, t, rfl⟩
  obtain ⟨ds2i, d2, hds2e⟩ : ∃ i a, ds2 = i ++ [a] := by
    rcases List.eq_nil_or_concat ds2 with hnil | ⟨i, a, hia⟩
    · exact absurd hnil hd2ne
    · exact ⟨i, a, by simp [hia]⟩
  have hhead : g.data.head? = some d1 := by
    rw [hcap]
    rfl
  have hlast : g.data.getLast? = some d2 := by
    rw [hcap, hds2e]
    have hre : (d1 :: ds1t) ++ ws1 ++ '/' :: (ws2 ++ (ds2i ++ [d2])) =
        ((d1 :: ds1t) ++ ws1 ++ '/' :: (ws2 ++ ds2i)) ++ [d2] := by
      simp
    rw [hre, List.getLast?_concat]
  have hh : ∀ c, g.data.head? = some c → isWsJS c = false := by
    intro c hc
    rw [hhead] at hc
    injection hc with hc
    subst hc
    exact digit_not_ws _ (hd1 _ (by simp))
  have hl : ∀ c, g.data.getLast? = some c → isWsJS c = false := by
    intro c hc
    rw [hlast] at hc
    injection hc with hc
    subst hc
    refine digit_not_ws _ (hd2 _ ?_)
    rw [hds2e]
    simp
  have htrim : strTrim g = g := by
    unfold strTrim
    rw [trimL_of_ends g.data hh hl]
  have hFg : g.data.filter (fun c => !isWsJS c) = (d1 :: ds1t) ++ '/' :: ds2 := by
    rw [hcap, List.filter_append, List.filter_append,
        filter_keep_all _ (d1 :: ds1t) (fun c hc => by simp [digit_not_ws c (hd1 c hc)]),
        filter_drop_all _ ws1 (fun c hc => by simp [hw1 c hc]),
        List.filter_cons_of_pos (by decide), List.filter_append,
        filter_drop_all _ ws2 (fun c hc => by simp [hw2 c hc]),
        filter_keep_all _ ds2 (fun c hc => by simp [digit_not_ws c (hd2 c hc)])]
    simp
  have hut : ∀ c ∈ (strTrim u).data, isWsJS c = true ∨
      upC c = 'M' ∨ upC c = 'H' ∨ upC c = 'G' :=
    fun c hc => hu c (mem_of_mem_trimL c u.data hc)
  obtain ⟨tf, hfval, htf⟩ : ∃ tf,
      (mkVitalVal g (strTrim u)).data.filter (fun c => !isWsJS c) =
        (d1 :: ds1t) ++ '/' :: (ds2 ++ tf) ∧
      ∀ c ∈ tf, upC c = 'M' ∨ upC c = 'H' ∨ upC c = 'G' := by
    unfold mkVitalVal
    by_cases hu0 : strTrim u = ""
    · rw [if_pos hu0]
      exact ⟨[], by simp [hFg], by simp⟩
    · rw [if_neg hu0]
      have hdata : (g ++ " " ++ strTrim u).data = g.data ++ (' ' :: (strTrim u).data) := by
        rw [String.data_append, String.data_append]
        have hsp : (" " : String).data = [' '] := rfl
        rw [hsp]
        simp
      rw [hdata, List.filter_append, hFg, List.filter_cons_of_neg (by decide)]
      refine ⟨(strTrim u).data.filter (fun c => !isWsJS c), by simp, ?_⟩
      intro c hc
      obtain ⟨hcm, hcf⟩ := List.mem_filter.mp hc
      rcases hut c hcm with hws | hmhg
      · rw [hws] at hcf
        simp at hcf
      · exact hmhg
  have hn1 : '/' ∉ (d1 :: ds1t) := fun hmem => absurd (hd1 _ hmem) (by decide)
  have hn2 : '/' ∉ ds2 := fun hmem => absurd (hd2 _ hmem) (by decide)
  have hn2t : '/' ∉ ds2 ++ tf := by
    intro hmem
    rcases List.mem_append.mp hmem with hm2 | hm2
    · exact absurd (hd2 _ hm2) (by decide)
    · rcases htf _ hm2 with h | h | h <;> exact absurd h (by decide)
  have hs1 : splitOnC '/' ((d1 :: ds1t) ++ '/' :: ds2) = [d1 :: ds1t, ds2] := by
    rw [splitOnC_append_sep '/' _ _ hn1, splitOnC_not_mem '/' _ hn2]
  have hs2 : splitOnC '/' ((d1 :: ds1t) ++ '/' :: (ds2 ++ tf)) = [d1 :: ds1t, ds2 ++ tf] := by
    rw [splitOnC_append_sep '/' _ _ hn1, splitOnC_not_mem '/' _ hn2t]
  have hv1 : parseIntJS (d1 :: ds1t) = some ((digitsVal (d1 :: ds1t) : Int)) := by
    have h0 := parseIntJS_digits (d1 :: ds1t) [] hd1ne hd1 rfl
    simpa using h0
  have hv2 : parseIntJS ds2 = some ((digitsVal ds2 : Int)) := by
    have h0 := parseIntJS_digits ds2 [] hd2ne hd2 rfl
    simpa using h0
  have hv2t : parseIntJS (ds2 ++ tf) = some ((digitsVal ds2 : Int)) :=
    parseIntJS_digits ds2 tf hd2ne hd2
      (nonDigitHead_of_all tf (fun c hc => mhg_not_digit c (htf c hc)))
  rw [htrim] at hrr
  unfold rangeReject at hrr
  rw [if_neg (by decide), if_neg (by decide), if_neg (by decide),
      if_pos (by decide)] at hrr
  dsimp only at hrr
  rw [hFg, hs1] at hrr
  rw [show partAt [d1 :: ds1t, ds2] 0 = d1 :: ds1t from rfl,
      show partAt [d1 :: ds1t, ds2] 1 = ds2 from rfl, hv1, hv2] at hrr
  dsimp only at hrr
  simp only [Bool.or_eq_false_iff, decide_eq_false_iff_not, not_lt] at hrr
  unfold vitalRangeOK
  dsimp only
  rw [if_neg (by decide), if_neg (by decide), if_neg (by decide), if_pos (by decide)]
  rw [htrim, hfval, hs2]
  rw [show partAt [d1 :: ds1t, ds2 ++ tf] 0 = d1 :: ds1t from rfl,
      show partAt [d1 :: ds1t, ds2 ++ tf] 1 = ds2 ++ tf from rfl, hv1, hv2t]
  dsimp only
  simp only [Bool.and_eq_true, decide_eq_true_eq]
  obtain ⟨⟨⟨hA, hB⟩, hC⟩, hD⟩ := hrr
  exact ⟨⟨⟨hA, hB⟩, hC⟩, hD⟩

/-- The pattern loop yields at most one vital per pattern. -/
theorem vitalsLoop_length : ∀ (ps : List VPattern) (seen : List String) (clean : String),
    (vitalsLoop ps seen clean).length ≤ ps.length := by
  intro ps
  induction ps with
  | nil =>
    intro seen clean
    simp [vitalsLoop]
  | cons p rest ih =>
    intro seen clean
    unfold vitalsLoop
    by_cases h1 : seen.contains p.key
    · rw [if_pos h1]
      exact le_trans (ih seen clean) (Nat.le_succ _)
    · rw [if_neg h1]
      rcases hm : p.matcher clean with _ | ⟨g, u⟩
      · dsimp only
        exact le_trans (ih seen clean) (Nat.le_succ _)
      · dsimp only
        by_cases h2 : rangeReject p.key (strTrim g) = true
        · rw [if_pos h2]
          exact le_trans (ih seen clean) (Nat.le_succ _)
        · rw [if_neg h2]
          simp only [List.length_cons]
          exact Nat.succ_le_succ (ih _ clean)

/-- The names of the loop output form a sublist of the pattern labels. -/
theorem vitalsLoop_names : ∀ (ps : List VPattern) (seen : List String) (clean : String),
    ((vitalsLoop ps seen clean).map (fun v => v.name)).Sublist
      (ps.map (fun p => p.label)) := by
  intro ps
  induction ps with
  | nil =>
    intro seen clean
    simp [vitalsLoop]
  | cons p rest ih =>
    intro seen clean
    unfold vitalsLoop
    simp only [List.map_cons]
    by_cases h1 : seen.contains p.key
    · rw [if_pos h1]
      exact (ih seen clean).cons _
    · rw [if_neg h1]
      rcases hm : p.matcher clean with _ | ⟨g, u⟩
      · dsimp only
        exact (ih seen clean).cons _
      · dsimp only
        by_cases h2 : rangeReject p.key (strTrim g) = true
        · rw [if_pos h2]
          exact (ih seen clean).cons _
        · rw [if_neg h2]
          simp only [List.map_cons]
          exact (ih _ clean).cons₂ _

/-- Every vital emitted by the loop comes from a pattern of the list, with a
successful match that passed the range filter. -/
theorem vitalsLoop_mem (clean : String) : ∀ (ps : List VPattern) (seen : List String)
    (v : VitalR), v ∈ vitalsLoop ps seen clean →
    ∃ p ∈ ps, ∃ g u, p.matcher clean = some (g, u) ∧
      rangeReject p.key (strTrim g) = false ∧
      v = ⟨p.label, mkVitalVal (strTrim g) (strTrim u), 95⟩ := by
  intro ps
  induction ps with
  | nil =>
    intro seen v hv
    simp [vitalsLoop] at hv
  | cons p rest ih =>
    intro seen v hv
    have hlift : ∀ (seen2 : List String), v ∈ vitalsLoop rest seen2 clean →
        ∃ p2 ∈ p :: rest, ∃ g u, p2.matcher clean = some (g, u) ∧
          rangeReject p2.key (strTrim g) = false ∧
          v = ⟨p2.label, mkVitalVal (strTrim g) (strTrim u), 95⟩ := by
      intro seen2 hv2
      obtain ⟨q, hq, g2, u2, hm2, hr2, hveq⟩ := ih seen2 v hv2
      exact ⟨q, List.mem_cons_of_mem _ hq, g2, u2, hm2, hr2, hveq⟩
    unfold vitalsLoop at hv
    by_cases h1 : seen.contains p.key
    · rw [if_pos h1] at hv
      exact hlift _ hv
    · rw [if_neg h1] at hv
      rcases hm : p.matcher clean with _ | ⟨g, u⟩
      · rw [hm] at hv
        dsimp only at hv
        exact hlift _ hv
      · rw [hm] at hv
        dsimp only at hv
        by_cases h2 : rangeReject p.key (strTrim g) = true
        · rw [if_pos h2] at hv
          exact hlift _ hv
        · rw [if_neg h2] at hv
          have h2f : rangeReject p.key (strTrim g) = false := by
            simpa using h2
          rcases List.mem_cons.mp hv with rfl | hv2
          · exact ⟨p, List.mem_cons_self _ _, g, u, hm, h2f, rfl⟩
          · exact hlift _ hv2

/-- Every vital of the loop over the five source patterns has confidence 95
and passes its range check. -/
theorem vitalsLoop_rangeOK (clean : String) :
    ∀ v ∈ vitalsLoop vitalPatterns [] clean,
      v.confidence = 95 ∧ vitalRangeOK v = true := by
  intro v hv
  obtain ⟨p, hp, g, u, hm, hrr, rfl⟩ := vitalsLoop_mem clean vitalPatterns [] v hv
  refine ⟨rfl, ?_⟩
  simp only [vitalPatterns, List.mem_cons, List.not_mem_nil, or_false] at hp
  rcases hp with rfl | rfl | rfl | rfl | rfl
  · exact prRangeOK clean g u hm hrr
  · exact bpRangeOK clean g u hm hrr
  · exact tempRangeOK _
  · exact rrRangeOK clean g u hm hrr
  · exact spo2RangeOK clean g u hm hrr

/-- C6 counterexample: the text `PR: 80` yields no vitals window from
`extractVitalsContext`, yet `parseVitalsFromText` still returns a pulse vital
(the code falls back to scanning the full text), so a missing window does not
imply an empty result. -/
theorem c6_no_window_counterexample :
    extractVitalsContext "PR: 80" = "" ∧
    parseVitalsFromText "PR: 80" = [⟨"PR (Pulse Rate)", "80", 95⟩] ∧
    parseVitalsFromText "PR: 80" ≠ [] := by
  with_unfolding_all decide

/-- C6 (amended): for every input text, `parseVitalsFromText` returns at most
five vitals with pairwise distinct names, and every returned vital carries the
fixed confidence 95 and passes its physiological range check (pulse 30-220,
respiratory rate 5-60, SpO2 50-100, systolic 50-300 and diastolic 20-200). -/
theorem c6_vitals_invariants_amended (text : String) :
    (parseVitalsFromText text).length ≤ 5 ∧
    ((parseVitalsFromText text).map (fun v => v.name)).Nodup ∧
    ∀ v ∈ parseVitalsFromText text, v.confidence = 95 ∧ vitalRangeOK v = true := by
  unfold parseVitalsFromText
  dsimp only
  refine ⟨vitalsLoop_length _ _ _, ?_, ?_⟩
  · exact List.Nodup.sublist (vitalsLoop_names _ _ _)
      (by with_unfolding_all decide)
  · exact vitalsLoop_rangeOK _

/-- C6 witness: the amended invariants instantiated at the windowless text
`PR: 80`. -/
theorem c6_vitals_invariants_witness :
    (parseVitalsFromText "PR: 80").length ≤ 5 ∧
    ((parseVitalsFromText "PR: 80").map (fun v => v.name)).Nodup ∧
    ∀ v ∈ parseVitalsFromText "PR: 80", v.confidence = 95 ∧ vitalRangeOK v = true :=
  c6_vitals_invariants_amended "PR: 80"

/-! ### Sanitizer idempotence lemmas -/

/-- The head surviving a dropWhile fails the predicate. -/
theorem head_dropWhile_false (p : Char → Bool) : ∀ (l : List Char) (c : Char),
    (l.dropWhile p).head? = some c → p c = false := by
  intro l
  induction l with
  | nil =>
    intro c hc
    simp at hc
  | cons a as ih =>
    intro c hc
    by_cases ha : p a = true
    · rw [List.dropWhile_cons_of_pos ha] at hc
      exact ih c hc
    · rw [List.dropWhile_cons_of_neg (by simp [ha])] at hc
      injection hc with hc
      subst hc
      simpa using ha

/-- dropWhile removes a prefix. -/
theorem dropWhile_append_eq (p : Char → Bool) : ∀ l : List Char,
    ∃ t, t ++ l.dropWhile p = l := by
  intro l
  induction l with
  | nil => exact ⟨[], rfl⟩
  | cons c cs ih =>
    by_cases hc : p c = true
    · rw [List.dropWhile_cons_of_pos hc]
      obtain ⟨t, ht⟩ := ih
      exact ⟨c :: t, by simp [ht]⟩
    · rw [List.dropWhile_cons_of_neg (by simp [hc])]
      exact ⟨[], rfl⟩

/-- Last element of an append with nonempty right part. -/
theorem getLast_append_ne (l1 l2 : List Char) (h : l2 ≠ []) :
    (l1 ++ l2).getLast? = l2.getLast? := by
  rw [← List.head?_reverse, ← List.head?_reverse, List.reverse_append]
  cases hr : l2.reverse with
  | nil =>
    rw [List.reverse_eq_nil_iff] at hr
    exact absurd hr h
  | cons a t => rfl

/-- Last of a reversed list is its head. -/
theorem getLast_reverse_eq (y : List Char) : y.reverse.getLast? = y.head? := by
  have h2 := @List.head?_reverse Char y.reverse
  rw [List.reverse_reverse] at h2
  exact h2.symm

/-- Trimming is idempotent. -/
theorem trimL_idem (l : List Char) : trimL (trimL l) = trimL l := by
  apply trimL_of_ends
  · intro c hc
    rw [show trimL l = ((l.dropWhile isWsJS).reverse.dropWhile isWsJS).reverse from rfl,
        List.head?_reverse] at hc
    have hBne : (l.dropWhile isWsJS).reverse.dropWhile isWsJS ≠ [] := by
      intro hcon
      rw [hcon] at hc
      simp at hc
    obtain ⟨t, ht⟩ := dropWhile_append_eq isWsJS (l.dropWhile isWsJS).reverse
    have hx : (l.dropWhile isWsJS).reverse.getLast? = some c := by
      rw [← ht, getLast_append_ne _ _ hBne]
      exact hc
    rw [getLast_reverse_eq] at hx
    exact head_dropWhile_false isWsJS l c hx
  · intro c hc
    rw [show trimL l = ((l.dropWhile isWsJS).reverse.dropWhile isWsJS).reverse from rfl,
        getLast_reverse_eq] at hc
    exact head_dropWhile_false isWsJS (l.dropWhile isWsJS).reverse c hc

/-- Unfolding the string wrapper without evaluating its payload. -/
theorem strMk_data (l : List Char) : (String.mk l).data = l := rfl

/-- The OCR fixups return a trimmed string. -/
theorem fixOCRErrors_trimmed (s : String) :
    trimL (fixOCRErrors s).data = (fixOCRErrors s).data := by
  unfold fixOCRErrors
  by_cases h : s = ""
  · rw [if_pos h]
    rfl
  · rw [if_neg h]
    rw [strMk_data]
    unfold fixOCRErrorsL
    exact trimL_idem _

/-- Cleaning the fixed trim of any coerced string gives a clean string. -/
theorem cleanField_trim_clean (t : String) :
    cleanStrB (cleanField (fixOCRErrors (strTrim t))) = true := by
  unfold cleanField
  by_cases hpl : isPlaceholder (fixOCRErrors (strTrim t)) = true
  · rw [if_pos hpl]
    decide
  · rw [if_neg hpl]
    unfold cleanStrB
    rw [Bool.and_eq_true]
    refine ⟨?_, ?_⟩
    · rw [beq_iff_eq]
      exact fixOCRErrors_trimmed _
    · rw [Bool.or_eq_true]
      right
      simpa using hpl

/-- Output of the sanitizer's string cleaner is always clean. -/
theorem strField_clean (v : Option JValue) : cleanStrB (strField v) = true := by
  rcases v with _ | w
  · decide
  · cases w with
    | jnull => decide
    | jbool b => exact cleanField_trim_clean _
    | jnum q => exact cleanField_trim_clean _
    | jstr s => exact cleanField_trim_clean _
    | jarr xs => exact cleanField_trim_clean _
    | jobj fs => exact cleanField_trim_clean _

/-- The string cleaner fixes clean fixed-point strings. -/
theorem strField_roundtrip (s : String) (hclean : cleanStrB s = true)
    (hfix : fixOCRErrors s = s) : strField (some (.jstr s)) = s := by
  unfold strField
  show cleanField (fixOCRErrors (strTrim s)) = s
  unfold cleanStrB at hclean
  rw [Bool.and_eq_true, beq_iff_eq, Bool.or_eq_true, beq_iff_eq] at hclean
  obtain ⟨htr, hcf⟩ := hclean
  have htrim : strTrim s = s := by
    unfold strTrim
    rw [htr]
  rw [htrim, hfix]
  unfold cleanField
  rcases hcf with hemp | hnpl
  · rw [hemp]
    decide
  · rw [if_neg (by simpa using hnpl)]

/-- The confidence cleaner fixes in-range numbers. -/
theorem numConf_roundtrip (q : Rat) (h0 : 0 ≤ q) (h1 : q ≤ 100) :
    numConf (some (.jnum q)) = q := by
  unfold numConf
  rw [show toNumberJS (some (.jnum q)) = some q from rfl]
  dsimp only
  rw [max_eq_right h0, min_eq_right h1]

/-- The status cleaner inverts the status encoder. -/
theorem statusField_roundtrip (st : LabStatus) :
    statusField (some (statusToJ st)) = st := by
  cases st <;> rfl

/-- Unpacking the all-strings-fixed test. -/
theorem strFixedB_mem (r : ExtractedDischarge) (h : strFixedB r = true) :
    ∀ s ∈ recordStrings r, fixOCRErrors s = s := by
  intro s hs
  unfold strFixedB at h
  have h2 := List.all_eq_true.mp h s hs
  simpa using h2

/-- A filterMap over an encoder that every element round-trips is the identity. -/
theorem filterMap_map_self {α β : Type} (l : List α) (enc : α → β) (f : β → Option α)
    (h : ∀ x ∈ l, f (enc x) = some x) : (l.map enc).filterMap f = l := by
  induction l with
  | nil => rfl
  | cons c cs ih =>
    rw [List.map_cons, List.filterMap_cons, h c (by simp)]
    dsimp only
    rw [ih (fun x hx => h x (by simp [hx]))]

/-- Keyword route hits are among the five controlled values. -/
theorem routeKeywordHit_values (r rt : String) (h : routeKeywordHit r = some rt) :
    rt = "IV" ∨ rt = "IM" ∨ rt = "PO" ∨ rt = "SC" ∨ rt = "INH" := by
  unfold routeKeywordHit at h
  split_ifs at h <;> (injection h with h; subst h; simp)

/-- Table route hits are clean nonempty strings. -/
theorem routeTableHit_clean (lower rt : String) (h : routeTableHit lower = some rt) :
    cleanStrB rt = true ∧ rt ≠ "" := by
  unfold routeTableHit at h
  rcases hf : DRUG_ROUTE_MAP.find? (fun p => strHasSub lower p.1) with _ | p
  · rw [hf] at h
    cases h
  · rw [hf] at h
    rw [show Option.map (fun p : String × String => p.2) (some p) = some p.2 from rfl] at h
    injection h with h
    have hmem := List.mem_of_find?_eq_some hf
    have hall : ∀ q ∈ DRUG_ROUTE_MAP, cleanStrB q.2 = true ∧ q.2 ≠ "" := by
      with_unfolding_all decide
    rw [← h]
    exact hall p hmem

/-- Route canonicalization is stable on its own output. -/
theorem canonicalRoute_stable (name llm : String) :
    canonicalRoute name (canonicalRoute name llm) = canonicalRoute name llm := by
  unfold canonicalRoute
  rcases ht : routeTableHit (strTrim (strLo name)) with _ | rt
  · dsimp only
    rcases hk : routeKeywordHit (strTrim (strUp llm)) with _ | kw
    · dsimp only
      by_cases hllm : llm = ""
      · rw [if_pos hllm]
        with_unfolding_all decide
      · rw [if_neg hllm, hk]
        dsimp only
        rw [if_neg hllm]
    · dsimp only
      have hkv := routeKeywordHit_values _ _ hk
      rcases hkv with rfl | rfl | rfl | rfl | rfl <;> with_unfolding_all decide
  · rfl

/-- Route canonicalization outputs clean strings when fed a clean route. -/
theorem canonicalRoute_clean (name llm : String) (hllm : cleanStrB llm = true) :
    cleanStrB (canonicalRoute name llm) = true := by
  unfold canonicalRoute
  rcases ht : routeTableHit (strTrim (strLo name)) with _ | rt
  · dsimp only
    rcases hk : routeKeywordHit (strTrim (strUp llm)) with _ | kw
    · dsimp only
      by_cases h0 : llm = ""
      · rw [if_pos h0]
        decide
      · rw [if_neg h0]
        exact hllm
    · dsimp only
      have hkv := routeKeywordHit_values _ _ hk
      rcases hkv with rfl | rfl | rfl | rfl | rfl <;> decide
  · dsimp only
    exact (routeTableHit_clean _ _ ht).1

/-- Re-normalizing a curated table row reproduces the row. -/
theorem diag_renorm (e : DiagNormEntry) (hmem : e ∈ DIAGNOSIS_NORM) (q : Rat) :
    normalizeDiagnosis ⟨e.name, e.icd, e.snomed, q⟩ = ⟨e.name, e.icd, e.snomed, q⟩ := by
  simp only [DIAGNOSIS_NORM, List.mem_cons, List.not_mem_nil, or_false] at hmem
  rcases hmem with rfl | rfl | rfl | rfl | rfl | rfl | rfl | rfl | rfl | rfl | rfl |
    rfl | rfl | rfl | rfl | rfl | rfl | rfl | rfl | rfl | rfl | rfl <;> rfl

/-- Diagnosis normalization is stable on its own output. -/
theorem normalizeDiagnosis_stable (raw0 : DiagnosisR) (q : Rat) :
    normalizeDiagnosis ⟨(normalizeDiagnosis raw0).name, (normalizeDiagnosis raw0).icd,
      (normalizeDiagnosis raw0).snomed, q⟩ =
    ⟨(normalizeDiagnosis raw0).name, (normalizeDiagnosis raw0).icd,
     (normalizeDiagnosis raw0).snomed, q⟩ := by
  rcases hf : DIAGNOSIS_NORM.find?
      (fun e => strHasSub (strTrim (strLo raw0.name)) e.matchKey) with _ | e
  · have hn : normalizeDiagnosis raw0 = raw0 := by
      unfold normalizeDiagnosis
      dsimp only
      rw [hf]
    rw [hn]
    unfold normalizeDiagnosis
    dsimp only
    rw [hf]
  · have hmem := List.mem_of_find?_eq_some hf
    have hn : normalizeDiagnosis raw0 = ⟨e.name, e.icd, e.snomed, raw0.confidence⟩ := by
      unfold normalizeDiagnosis
      dsimp only
      rw [hf]
    rw [hn]
    dsimp only
    exact diag_renorm e hmem q

/-- Normalization preserves cleanliness and nonemptiness of the fields. -/
theorem normalizeDiagnosis_fields (raw0 : DiagnosisR)
    (hn : cleanStrB raw0.name = true) (hi : cleanStrB raw0.icd = true)
    (hs : cleanStrB raw0.snomed = true) (hne : raw0.name ≠ "") :
    cleanStrB (normalizeDiagnosis raw0).name = true ∧
    cleanStrB (normalizeDiagnosis raw0).icd = true ∧
    cleanStrB (normalizeDiagnosis raw0).snomed = true ∧
    (normalizeDiagnosis raw0).name ≠ "" := by
  unfold normalizeDiagnosis
  dsimp only
  rcases hf : DIAGNOSIS_NORM.find?
      (fun e => strHasSub (strTrim (strLo raw0.name)) e.matchKey) with _ | e
  · rw [hf]
    exact ⟨hn, hi, hs, hne⟩
  · have hmem := List.mem_of_find?_eq_some hf
    have hall : ∀ e2 ∈ DIAGNOSIS_NORM, cleanStrB e2.name = true ∧ cleanStrB e2.icd = true ∧
        cleanStrB e2.snomed = true ∧ e2.name ≠ "" := by
      with_unfolding_all decide
    rw [hf]
    exact hall e hmem

/-- Patient strings are record strings. -/
theorem mem_recordStrings_patient (r : ExtractedDischarge) (s : String)
    (hs : s ∈ patientStrings r.patient) : s ∈ recordStrings r := by
  unfold recordStrings
  simp only [List.mem_append]
  exact Or.inl (Or.inl (Or.inl (Or.inl (Or.inl (Or.inl hs)))))

/-- Diagnosis strings are record strings. -/
theorem mem_recordStrings_diag (r : ExtractedDischarge) (d : DiagnosisR)
    (hd : d ∈ r.diagnoses) (s : String) (hs : s ∈ [d.name, d.icd, d.snomed]) :
    s ∈ recordStrings r := by
  unfold recordStrings
  simp only [List.mem_append]
  exact Or.inl (Or.inl (Or.inl (Or.inl (Or.inl (Or.inr
    (List.mem_flatten.mpr ⟨_, List.mem_map_of_mem _ hd, hs⟩))))))

/-- Medication strings are record strings. -/
theorem mem_recordStrings_med (r : ExtractedDischarge) (m : MedicationR)
    (hm : m ∈ r.medications) (s : String) (hs : s ∈ [m.name, m.dosage, m.route]) :
    s ∈ recordStrings r := by
  unfold recordStrings
  simp only [List.mem_append]
  exact Or.inl (Or.inl (Or.inl (Or.inl (Or.inr
    (List.mem_flatten.mpr ⟨_, List.mem_map_of_mem _ hm, hs⟩)))))

/-- Vital strings are record strings. -/
theorem mem_recordStrings_vital (r : ExtractedDischarge) (v : VitalR)
    (hv : v ∈ r.vitals) (s : String) (hs : s ∈ [v.name, v.value]) :
    s ∈ recordStrings r := by
  unfold recordStrings
  simp only [List.mem_append]
  exact Or.inl (Or.inl (Or.inl (Or.inr
    (List.mem_flatten.mpr ⟨_, List.mem_map_of_mem _ hv, hs⟩))))

/-- Lab strings are record strings. -/
theorem mem_recordStrings_lab (r : ExtractedDischarge) (l : LabValueR)
    (hl : l ∈ r.labValues) (s : String)
    (hs : s ∈ [l.test, l.value, l.unit, l.ref, l.loinc]) :
    s ∈ recordStrings r := by
  unfold recordStrings
  simp only [List.mem_append]
  exact Or.inl (Or.inl (Or.inr
    (List.mem_flatten.mpr ⟨_, List.mem_map_of_mem _ hl, hs⟩)))

/-- Procedure strings are record strings. -/
theorem mem_recordStrings_proc (r : ExtractedDischarge) (p : ProcedureR)
    (hp : p ∈ r.procedures) (s : String)
    (hs : s ∈ [p.name, p.snomed, p.day, p.findings]) :
    s ∈ recordStrings r := by
  unfold recordStrings
  simp only [List.mem_append]
  exact Or.inl (Or.inr (List.mem_flatten.mpr ⟨_, List.mem_map_of_mem _ hp, hs⟩))

/-- Instruction and follow-up strings are record strings. -/
theorem mem_recordStrings_kv (r : ExtractedDischarge) (k : KVItemR)
    (hk : k ∈ r.dischargeInstructions ++ r.followUp) (s : String)
    (hs : s ∈ [k.label, k.value]) : s ∈ recordStrings r := by
  unfold recordStrings
  simp only [List.mem_append]
  exact Or.inr (List.mem_flatten.mpr ⟨_, List.mem_map_of_mem _ hk, hs⟩)

/-- Invariants of every diagnosis the sanitizer outputs. -/
theorem sanDiagElem_out (x : JValue) (d : DiagnosisR) (h : sanDiagElem x = some d) :
    cleanStrB d.name = true ∧ cleanStrB d.icd = true ∧ cleanStrB d.snomed = true ∧
    d.name ≠ "" ∧ 0 ≤ d.confidence ∧ d.confidence ≤ 100 ∧
    (∀ q : Rat, normalizeDiagnosis ⟨d.name, d.icd, d.snomed, q⟩ =
      ⟨d.name, d.icd, d.snomed, q⟩) := by
  unfold sanDiagElem at h
  dsimp only at h
  by_cases hn : strField (fieldOf (objOf x) "name") = ""
  · rw [if_pos hn] at h
    cases h
  · rw [if_neg hn] at h
    injection h with h
    subst h
    obtain ⟨hc1, hc2, hc3, hc4⟩ := normalizeDiagnosis_fields
      ⟨strField (fieldOf (objOf x) "name"), strField (fieldOf (objOf x) "icd"),
       strField (fieldOf (objOf x) "snomed"), numConf (fieldOf (objOf x) "confidence")⟩
      (strField_clean _) (strField_clean _) (strField_clean _) hn
    refine ⟨hc1, hc2, hc3, hc4, ?_, ?_, ?_⟩
    · rw [normalizeDiagnosis_confidence]
      exact (numConf_bounds _).1
    · rw [normalizeDiagnosis_confidence]
      exact (numConf_bounds _).2
    · intro q
      exact normalizeDiagnosis_stable _ q

/-- A sanitized diagnosis survives the sanitizer unchanged. -/
theorem sanDiagElem_roundtrip (d : DiagnosisR)
    (h1 : cleanStrB d.name = true) (h2 : cleanStrB d.icd = true)
    (h3 : cleanStrB d.snomed = true) (h4 : d.name ≠ "")
    (h5 : 0 ≤ d.confidence) (h6 : d.confidence ≤ 100)
    (h7 : ∀ q : Rat, normalizeDiagnosis ⟨d.name, d.icd, d.snomed, q⟩ =
      ⟨d.name, d.icd, d.snomed, q⟩)
    (hf1 : fixOCRErrors d.name = d.name) (hf2 : fixOCRErrors d.icd = d.icd)
    (hf3 : fixOCRErrors d.snomed = d.snomed) :
    sanDiagElem (dxToJ d) = some d := by
  unfold sanDiagElem
  dsimp only
  rw [show objOf (dxToJ d) = dxToJ d from rfl]
  rw [show fieldOf (dxToJ d) "name" = some (.jstr d.name) from rfl,
      show fieldOf (dxToJ d) "icd" = some (.jstr d.icd) from rfl,
      show fieldOf (dxToJ d) "snomed" = some (.jstr d.snomed) from rfl,
      show fieldOf (dxToJ d) "confidence" = some (.jnum d.confidence) from rfl]
  rw [strField_roundtrip d.name h1 hf1, strField_roundtrip d.icd h2 hf2,
      strField_roundtrip d.snomed h3 hf3]
  rw [if_neg h4]
  rw [numConf_roundtrip d.confidence h5 h6]
  rw [h7 d.confidence]

/-- Invariants of every medication the sanitizer outputs. -/
theorem sanMedElem_out (x : JValue) (m : MedicationR) (h : sanMedElem x = some m) :
    cleanStrB m.name = true ∧ cleanStrB m.dosage = true ∧ cleanStrB m.route = true ∧
    m.name ≠ "" ∧ 0 ≤ m.confidence ∧ m.confidence ≤ 100 ∧
    canonicalRoute m.name m.route = m.route := by
  unfold sanMedElem at h
  dsimp only at h
  by_cases hn : strField (fieldOf (objOf x) "name") = ""
  · rw [if_pos hn] at h
    cases h
  · rw [if_neg hn] at h
    injection h with h
    subst h
    exact ⟨strField_clean _, strField_clean _,
      canonicalRoute_clean _ _ (strField_clean _), hn,
      (numConf_bounds _).1, (numConf_bounds _).2, canonicalRoute_stable _ _⟩

/-- A sanitized medication survives the sanitizer unchanged. -/
theorem sanMedElem_roundtrip (m : MedicationR)
    (h1 : cleanStrB m.name = true) (h2 : cleanStrB m.dosage = true)
    (h3 : cleanStrB m.route = true) (h4 : m.name ≠ "")
    (h5 : 0 ≤ m.confidence) (h6 : m.confidence ≤ 100)
    (h7 : canonicalRoute m.name m.route = m.route)
    (hf1 : fixOCRErrors m.name = m.name) (hf2 : fixOCRErrors m.dosage = m.dosage)
    (hf3 : fixOCRErrors m.route = m.route) :
    sanMedElem (medToJ m) = some m := by
  unfold sanMedElem
  dsimp only
  rw [show objOf (medToJ m) = medToJ m from rfl]
  rw [show fieldOf (medToJ m) "name" = some (.jstr m.name) from rfl,
      show fieldOf (medToJ m) "dosage" = some (.jstr m.dosage) from rfl,
      show fieldOf (medToJ m) "route" = some (.jstr m.route) from rfl,
      show fieldOf (medToJ m) "confidence" = some (.jnum m.confidence) from rfl]
  rw [strField_roundtrip m.name h1 hf1, strField_roundtrip m.dosage h2 hf2,
      strField_roundtrip m.route h3 hf3]
  rw [if_neg h4]
  rw [numConf_roundtrip m.confidence h5 h6]
  rw [h7]

/-- Invariants of every vital the sanitizer outputs. -/
theorem sanVitalElem_out (x : JValue) (v : VitalR) (h : sanVitalElem x = some v) :
    cleanStrB v.name = true ∧ cleanStrB v.value = true ∧
    v.name ≠ "" ∧ v.value ≠ "" ∧ 0 ≤ v.confidence ∧ v.confidence ≤ 100 := by
  unfold sanVitalElem at h
  dsimp only at h
  by_cases hn : strField (fieldOf (objOf x) "name") = ""
  · rw [if_pos (by simp [hn])] at h
    cases h
  · by_cases hv : strField (fieldOf (objOf x) "value") = ""
    · rw [if_pos (by simp [hv])] at h
      cases h
    · rw [if_neg (by simp [hn, hv])] at h
      injection h with h
      subst h
      exact ⟨strField_clean _, strField_clean _, hn, hv,
        (numConf_bounds _).1, (numConf_bounds _).2⟩

/-- A sanitized vital survives the sanitizer unchanged. -/
theorem sanVitalElem_roundtrip (v : VitalR)
    (h1 : cleanStrB v.name = true) (h2 : cleanStrB v.value = true)
    (h3 : v.name ≠ "") (h4 : v.value ≠ "")
    (h5 : 0 ≤ v.confidence) (h6 : v.confidence ≤ 100)
    (hf1 : fixOCRErrors v.name = v.name) (hf2 : fixOCRErrors v.value = v.value) :
    sanVitalElem (vitalToJ v) = some v := by
  unfold sanVitalElem
  dsimp only
  rw [show objOf (vitalToJ v) = vitalToJ v from rfl]
  rw [show fieldOf (vitalToJ v) "name" = some (.jstr v.name) from rfl,
      show fieldOf (vitalToJ v) "value" = some (.jstr v.value) from rfl,
      show fieldOf (vitalToJ v) "confidence" = some (.jnum v.confidence) from rfl]
  rw [strField_roundtrip v.name h1 hf1, strField_roundtrip v.value h2 hf2]
  rw [if_neg (by simp [h3, h4])]
  rw [numConf_roundtrip v.confidence h5 h6]

/-- Invariants of every lab value the sanitizer outputs. -/
theorem sanLabElem_out (x : JValue) (l : LabValueR) (h : sanLabElem x = some l) :
    cleanStrB l.test = true ∧ cleanStrB l.value = true ∧ cleanStrB l.unit = true ∧
    cleanStrB l.ref = true ∧ cleanStrB l.loinc = true ∧
    l.test ≠ "" ∧ l.value ≠ "" ∧
    strHasSub (strUp l.value) "ENCLOSED" = false ∧
    strHasSub (strUp l.value) "ATTACHED" = false ∧
    0 ≤ l.confidence ∧ l.confidence ≤ 100 := by
  unfold sanLabElem at h
  dsimp only at h
  by_cases ht : strField (fieldOf (objOf x) "test") = ""
  · rw [if_pos (by simp [ht])] at h
    cases h
  · by_cases hv : strField (fieldOf (objOf x) "value") = ""
    · rw [if_pos (by simp [hv])] at h
      cases h
    · rw [if_neg (by simp [ht, hv])] at h
      by_cases he : strHasSub (strUp (strField (fieldOf (objOf x) "value"))) "ENCLOSED" = true
      · rw [if_pos (by simp [he])] at h
        cases h
      · by_cases ha : strHasSub (strUp (strField (fieldOf (objOf x) "value"))) "ATTACHED" = true
        · rw [if_pos (by simp [ha])] at h
          cases h
        · rw [if_neg (by simp [he, ha])] at h
          injection h with h
          subst h
          exact ⟨strField_clean _, strField_clean _, strField_clean _, strField_clean _,
            strField_clean _, ht, hv, by simpa using he, by simpa using ha,
            (numConf_bounds _).1, (numConf_bounds _).2⟩

/-- A sanitized lab value survives the sanitizer unchanged. -/
theorem sanLabElem_roundtrip (l : LabValueR)
    (h1 : cleanStrB l.test = true) (h2 : cleanStrB l.value = true)
    (h3 : cleanStrB l.unit = true) (h4 : cleanStrB l.ref = true)
    (h5 : cleanStrB l.loinc = true) (h6 : l.test ≠ "") (h7 : l.value ≠ "")
    (h8 : strHasSub (strUp l.value) "ENCLOSED" = false)
    (h9 : strHasSub (strUp l.value) "ATTACHED" = false)
    (h10 : 0 ≤ l.confidence) (h11 : l.confidence ≤ 100)
    (hf1 : fixOCRErrors l.test = l.test) (hf2 : fixOCRErrors l.value = l.value)
    (hf3 : fixOCRErrors l.unit = l.unit) (hf4 : fixOCRErrors l.ref = l.ref)
    (hf5 : fixOCRErrors l.loinc = l.loinc) :
    sanLabElem (labToJ l) = some l := by
  unfold sanLabElem
  dsimp only
  rw [show objOf (labToJ l) = labToJ l from rfl]
  rw [show fieldOf (labToJ l) "test" = some (.jstr l.test) from rfl,
      show fieldOf (labToJ l) "value" = some (.jstr l.value) from rfl,
      show fieldOf (labToJ l) "unit" = some (.jstr l.unit) from rfl,
      show fieldOf (labToJ l) "ref" = some (.jstr l.ref) from rfl,
      show fieldOf (labToJ l) "status" = some (statusToJ l.status) from rfl,
      show fieldOf (labToJ l) "loinc" = some (.jstr l.loinc) from rfl,
      show fieldOf (labToJ l) "confidence" = some (.jnum l.confidence) from rfl]
  rw [strField_roundtrip l.test h1 hf1, strField_roundtrip l.value h2 hf2,
      strField_roundtrip l.unit h3 hf3, strField_roundtrip l.ref h4 hf4,
      strField_roundtrip l.loinc h5 hf5]
  rw [if_neg (by simp [h6, h7])]
  rw [if_neg (by simp [h8, h9])]
  rw [statusField_roundtrip l.status]
  rw [numConf_roundtrip l.confidence h10 h11]

/-- Invariants of every procedure the sanitizer outputs. -/
theorem sanProcElem_out (x : JValue) (p : ProcedureR) (h : sanProcElem x = some p) :
    cleanStrB p.name = true ∧ cleanStrB p.snomed = true ∧ cleanStrB p.day = true ∧
    cleanStrB p.findings = true ∧ p.name ≠ "" ∧
    0 ≤ p.confidence ∧ p.confidence ≤ 100 := by
  unfold sanProcElem at h
  dsimp only at h
  by_cases hn : strField (fieldOf (objOf x) "name") = ""
  · rw [if_pos hn] at h
    cases h
  · rw [if_neg hn] at h
    injection h with h
    subst h
    exact ⟨strField_clean _, strField_clean _, strField_clean _, strField_clean _, hn,
      (numConf_bounds _).1, (numConf_bounds _).2⟩

/-- A sanitized procedure survives the sanitizer unchanged. -/
theorem sanProcElem_roundtrip (p : ProcedureR)
    (h1 : cleanStrB p.name = true) (h2 : cleanStrB p.snomed = true)
    (h3 : cleanStrB p.day = true) (h4 : cleanStrB p.findings = true)
    (h5 : p.name ≠ "") (h6 : 0 ≤ p.confidence) (h7 : p.confidence ≤ 100)
    (hf1 : fixOCRErrors p.name = p.name) (hf2 : fixOCRErrors p.snomed = p.snomed)
    (hf3 : fixOCRErrors p.day = p.day) (hf4 : fixOCRErrors p.findings = p.findings) :
    sanProcElem (procToJ p) = some p := by
  unfold sanProcElem
  dsimp only
  rw [show objOf (procToJ p) = procToJ p from rfl]
  rw [show fieldOf (procToJ p) "name" = some (.jstr p.name) from rfl,
      show fieldOf (procToJ p) "snomed" = some (.jstr p.snomed) from rfl,
      show fieldOf (procToJ p) "day" = some (.jstr p.day) from rfl,
      show fieldOf (procToJ p) "findings" = some (.jstr p.findings) from rfl,
      show fieldOf (procToJ p) "confidence" = some (.jnum p.confidence) from rfl]
  rw [strField_roundtrip p.name h1 hf1, strField_roundtrip p.snomed h2 hf2,
      strField_roundtrip p.day h3 hf3, strField_roundtrip p.findings h4 hf4]
  rw [if_neg h5]
  rw [numConf_roundtrip p.confidence h6 h7]

/-- Invariants of every label/value item the sanitizer outputs. -/
theorem sanKVElem_out (x : JValue) (k : KVItemR) (h : sanKVElem x = some k) :
    cleanStrB k.label = true ∧ cleanStrB k.value = true ∧
    k.label ≠ "" ∧ k.value ≠ "" ∧ 0 ≤ k.confidence ∧ k.confidence ≤ 100 := by
  unfold sanKVElem at h
  dsimp only at h
  by_cases hl : strField (fieldOf (objOf x) "label") = ""
  · rw [if_pos (by simp [hl])] at h
    cases h
  · by_cases hv : strField (fieldOf (objOf x) "value") = ""
    · rw [if_pos (by simp [hv])] at h
      cases h
    · rw [if_neg (by simp [hl, hv])] at h
      injection h with h
      subst h
      exact ⟨strField_clean _, strField_clean _, hl, hv,
        (numConf_bounds _).1, (numConf_bounds _).2⟩

/-- A sanitized label/value item survives the sanitizer unchanged. -/
theorem sanKVElem_roundtrip (k : KVItemR)
    (h1 : cleanStrB k.label = true) (h2 : cleanStrB k.value = true)
    (h3 : k.label ≠ "") (h4 : k.value ≠ "")
    (h5 : 0 ≤ k.confidence) (h6 : k.confidence ≤ 100)
    (hf1 : fixOCRErrors k.label = k.label) (hf2 : fixOCRErrors k.value = k.value) :
    sanKVElem (kvToJ k) = some k := by
  unfold sanKVElem
  dsimp only
  rw [show objOf (kvToJ k) = kvToJ k from rfl]
  rw [show fieldOf (kvToJ k) "label" = some (.jstr k.label) from rfl,
      show fieldOf (kvToJ k) "value" = some (.jstr k.value) from rfl,
      show fieldOf (kvToJ k) "confidence" = some (.jnum k.confidence) from rfl]
  rw [strField_roundtrip k.label h1 hf1, strField_roundtrip k.value h2 hf2]
  rw [if_neg (by simp [h3, h4])]
  rw [numConf_roundtrip k.confidence h5 h6]

/-- Invariants of the sanitized patient block. -/
theorem sanPatient_out (r : JValue) :
    (∀ s ∈ patientStrings (sanPatient r), cleanStrB s = true) ∧
    ((sanPatient r).name = "" ∨ isValidPatientName (sanPatient r).name = true) := by
  unfold sanPatient
  dsimp only
  constructor
  · intro s hs
    unfold patientStrings at hs
    dsimp only at hs
    simp only [List.mem_cons, List.not_mem_nil, or_false] at hs
    rcases hs with rfl | rfl | rfl | rfl | rfl | rfl | rfl | rfl | rfl | rfl | rfl
    · split
      · exact strField_clean _
      · decide
    · exact strField_clean _
    · exact strField_clean _
    · exact strField_clean _
    · exact strField_clean _
    · exact strField_clean _
    · exact strField_clean _
    · exact strField_clean _
    · exact strField_clean _
    · exact strField_clean _
    · exact strField_clean _
  · dsimp only
    split
    · rename_i hv
      right
      exact hv
    · left
      rfl

/-- A sanitized patient block survives the sanitizer unchanged. -/
theorem sanPatient_roundtrip (rv : JValue) (p : PatientR)
    (hf : fieldOf rv "patient" = some (patientToJ p))
    (hclean : ∀ s ∈ patientStrings p, cleanStrB s = true)
    (hfix : ∀ s ∈ patientStrings p, fixOCRErrors s = s)
    (hname : p.name = "" ∨ isValidPatientName p.name = true) :
    sanPatient rv = p := by
  unfold sanPatient
  dsimp only
  rw [hf]
  dsimp only
  rw [show objOf (patientToJ p) = patientToJ p from rfl]
  rw [show fieldOf (patientToJ p) "name" = some (.jstr p.name) from rfl,
      show fieldOf (patientToJ p) "age" = some (.jstr p.age) from rfl,
      show fieldOf (patientToJ p) "sex" = some (.jstr p.sex) from rfl,
      show fieldOf (patientToJ p) "abha" = some (.jstr p.abha) from rfl,
      show fieldOf (patientToJ p) "bloodGroup" = some (.jstr p.bloodGroup) from rfl,
      show fieldOf (patientToJ p) "hospital" = some (.jstr p.hospital) from rfl,
      show fieldOf (patientToJ p) "ward" = some (.jstr p.ward) from rfl,
      show fieldOf (patientToJ p) "admission" = some (.jstr p.admission) from rfl,
      show fieldOf (patientToJ p) "discharge" = some (.jstr p.discharge) from rfl,
      show fieldOf (patientToJ p) "attending" = some (.jstr p.attending) from rfl,
      show fieldOf (patientToJ p) "chiefComplaint" = some (.jstr p.chiefComplaint) from rfl]
  rw [strField_roundtrip p.name (hclean _ (by simp [patientStrings]))
        (hfix _ (by simp [patientStrings])),
      strField_roundtrip p.age (hclean _ (by simp [patientStrings]))
        (hfix _ (by simp [patientStrings])),
      strField_roundtrip p.sex (hclean _ (by simp [patientStrings]))
        (hfix _ (by simp [patientStrings])),
      strField_roundtrip p.abha (hclean _ (by simp [patientStrings]))
        (hfix _ (by simp [patientStrings])),
      strField_roundtrip p.bloodGroup (hclean _ (by simp [patientStrings]))
        (hfix _ (by simp [patientStrings])),
      strField_roundtrip p.hospital (hclean _ (by simp [patientStrings]))
        (hfix _ (by simp [patientStrings])),
      strField_roundtrip p.ward (hclean _ (by simp [patientStrings]))
        (hfix _ (by simp [patientStrings])),
      strField_roundtrip p.admission (hclean _ (by simp [patientStrings]))
        (hfix _ (by simp [patientStrings])),
      strField_roundtrip p.discharge (hclean _ (by simp [patientStrings]))
        (hfix _ (by simp [patientStrings])),
      strField_roundtrip p.attending (hclean _ (by simp [patientStrings]))
        (hfix _ (by simp [patientStrings])),
      strField_roundtrip p.chiefComplaint (hclean _ (by simp [patientStrings]))
        (hfix _ (by simp [patientStrings]))]
  have hnval : (if isValidPatientName p.name = true then p.name else "") = p.name := by
    rcases hname with h0 | hv
    · rw [h0]
      split <;> rfl
    · rw [if_pos hv]
  rw [hnval]

/-- Re-sanitizing a record whose strings are OCR-fixed points changes nothing. -/
theorem sanitize_roundtrip (j : JValue)
    (hfix : strFixedB (sanitizeExtracted j) = true) :
    sanitizeExtracted (recordToJValue (sanitizeExtracted j)) = sanitizeExtracted j := by
  have hfixAll := strFixedB_mem _ hfix
  have hpo := sanPatient_out (objOf j)
  have hpat : sanPatient (recordToJValue (sanitizeExtracted j)) =
      (sanitizeExtracted j).patient := by
    refine sanPatient_roundtrip _ _ rfl ?_ ?_ ?_
    · exact hpo.1
    · intro s hs
      exact hfixAll s (mem_recordStrings_patient _ s hs)
    · exact hpo.2
  have hdx : arrMap (fieldOf (recordToJValue (sanitizeExtracted j)) "diagnoses") sanDiagElem
      = (sanitizeExtracted j).diagnoses := by
    rw [show fieldOf (recordToJValue (sanitizeExtracted j)) "diagnoses" =
        some (JValue.jarr ((sanitizeExtracted j).diagnoses.map dxToJ)) from rfl]
    rw [show arrMap (some (JValue.jarr ((sanitizeExtracted j).diagnoses.map dxToJ)))
        sanDiagElem = ((sanitizeExtracted j).diagnoses.map dxToJ).filterMap sanDiagElem
        from rfl]
    refine filterMap_map_self _ _ _ ?_
    intro d hd
    obtain ⟨y, hy⟩ := mem_arrMap
      (show d ∈ arrMap (fieldOf (objOf j) "diagnoses") sanDiagElem from hd)
    obtain ⟨hc1, hc2, hc3, hc4, hc5, hc6, hc7⟩ := sanDiagElem_out y d hy
    exact sanDiagElem_roundtrip d hc1 hc2 hc3 hc4 hc5 hc6 hc7
      (hfixAll _ (mem_recordStrings_diag _ d hd _ (by simp)))
      (hfixAll _ (mem_recordStrings_diag _ d hd _ (by simp)))
      (hfixAll _ (mem_recordStrings_diag _ d hd _ (by simp)))
  have hmed : arrMap (fieldOf (recordToJValue (sanitizeExtracted j)) "medications") sanMedElem
      = (sanitizeExtracted j).medications := by
    rw [show fieldOf (recordToJValue (sanitizeExtracted j)) "medications" =
        some (JValue.jarr ((sanitizeExtracted j).medications.map medToJ)) from rfl]
    rw [show arrMap (some (JValue.jarr ((sanitizeExtracted j).medications.map medToJ)))
        sanMedElem = ((sanitizeExtracted j).medications.map medToJ).filterMap sanMedElem
        from rfl]
    refine filterMap_map_self _ _ _ ?_
    intro m hm
    obtain ⟨y, hy⟩ := mem_arrMap
      (show m ∈ arrMap (fieldOf (objOf j) "medications") sanMedElem from hm)
    obtain ⟨hc1, hc2, hc3, hc4, hc5, hc6, hc7⟩ := sanMedElem_out y m hy
    exact sanMedElem_roundtrip m hc1 hc2 hc3 hc4 hc5 hc6 hc7
      (hfixAll _ (mem_recordStrings_med _ m hm _ (by simp)))
      (hfixAll _ (mem_recordStrings_med _ m hm _ (by simp)))
      (hfixAll _ (mem_recordStrings_med _ m hm _ (by simp)))
  have hvit : arrMap (fieldOf (recordToJValue (sanitizeExtracted j)) "vitals") sanVitalElem
      = (sanitizeExtracted j).vitals := by
    rw [show fieldOf (recordToJValue (sanitizeExtracted j)) "vitals" =
        some (JValue.jarr ((sanitizeExtracted j).vitals.map vitalToJ)) from rfl]
    rw [show arrMap (some (JValue.jarr ((sanitizeExtracted j).vitals.map vitalToJ)))
        sanVitalElem = ((sanitizeExtracted j).vitals.map vitalToJ).filterMap sanVitalElem
        from rfl]
    refine filterMap_map_self _ _ _ ?_
    intro v hv
    obtain ⟨y, hy⟩ := mem_arrMap
      (show v ∈ arrMap (fieldOf (objOf j) "vitals") sanVitalElem from hv)
    obtain ⟨hc1, hc2, hc3, hc4, hc5, hc6⟩ := sanVitalElem_out y v hy
    exact sanVitalElem_roundtrip v hc1 hc2 hc3 hc4 hc5 hc6
      (hfixAll _ (mem_recordStrings_vital _ v hv _ (by simp)))
      (hfixAll _ (mem_recordStrings_vital _ v hv _ (by simp)))
  have hlab : arrMap (fieldOf (recordToJValue (sanitizeExtracted j)) "labValues") sanLabElem
      = (sanitizeExtracted j).labValues := by
    rw [show fieldOf (recordToJValue (sanitizeExtracted j)) "labValues" =
        some (JValue.jarr ((sanitizeExtracted j).labValues.map labToJ)) from rfl]
    rw [show arrMap (some (JValue.jarr ((sanitizeExtracted j).labValues.map labToJ)))
        sanLabElem = ((sanitizeExtracted j).labValues.map labToJ).filterMap sanLabElem
        from rfl]
    refine filterMap_map_self _ _ _ ?_
    intro l hl
    obtain ⟨y, hy⟩ := mem_arrMap
      (show l ∈ arrMap (fieldOf (objOf j) "labValues") sanLabElem from hl)
    obtain ⟨hc1, hc2, hc3, hc4, hc5, hc6, hc7, hc8, hc9, hc10, hc11⟩ := sanLabElem_out y l hy
    exact sanLabElem_roundtrip l hc1 hc2 hc3 hc4 hc5 hc6 hc7 hc8 hc9 hc10 hc11
      (hfixAll _ (mem_recordStrings_lab _ l hl _ (by simp)))
      (hfixAll _ (mem_recordStrings_lab _ l hl _ (by simp)))
      (hfixAll _ (mem_recordStrings_lab _ l hl _ (by simp)))
      (hfixAll _ (mem_recordStrings_lab _ l hl _ (by simp)))
      (hfixAll _ (mem_recordStrings_lab _ l hl _ (by simp)))
  have hproc : arrMap (fieldOf (recordToJValue (sanitizeExtracted j)) "procedures") sanProcElem
      = (sanitizeExtracted j).procedures := by
    rw [show fieldOf (recordToJValue (sanitizeExtracted j)) "procedures" =
        some (JValue.jarr ((sanitizeExtracted j).procedures.map procToJ)) from rfl]
    rw [show arrMap (some (JValue.jarr ((sanitizeExtracted j).procedures.map procToJ)))
        sanProcElem = ((sanitizeExtracted j).procedures.map procToJ).filterMap sanProcElem
        from rfl]
    refine filterMap_map_self _ _ _ ?_
    intro p hp
    obtain ⟨y, hy⟩ := mem_arrMap
      (show p ∈ arrMap (fieldOf (objOf j) "procedures") sanProcElem from hp)
    obtain ⟨hc1, hc2, hc3, hc4, hc5, hc6, hc7⟩ := sanProcElem_out y p hy
    exact sanProcElem_roundtrip p hc1 hc2 hc3 hc4 hc5 hc6 hc7
      (hfixAll _ (mem_recordStrings_proc _ p hp _ (by simp)))
      (hfixAll _ (mem_recordStrings_proc _ p hp _ (by simp)))
      (hfixAll _ (mem_recordStrings_proc _ p hp _ (by simp)))
      (hfixAll _ (mem_recordStrings_proc _ p hp _ (by simp)))
  have hdi : arrMap (fieldOf (recordToJValue (sanitizeExtracted j)) "dischargeInstructions")
      sanKVElem = (sanitizeExtracted j).dischargeInstructions := by
    rw [show fieldOf (recordToJValue (sanitizeExtracted j)) "dischargeInstructions" =
        some (JValue.jarr ((sanitizeExtracted j).dischargeInstructions.map kvToJ)) from rfl]
    rw [show arrMap (some (JValue.jarr
        ((sanitizeExtracted j).dischargeInstructions.map kvToJ))) sanKVElem =
        ((sanitizeExtracted j).dischargeInstructions.map kvToJ).filterMap sanKVElem from rfl]
    refine filterMap_map_self _ _ _ ?_
    intro k hk
    obtain ⟨y, hy⟩ := mem_arrMap
      (show k ∈ arrMap (fieldOf (objOf j) "dischargeInstructions") sanKVElem from hk)
    obtain ⟨hc1, hc2, hc3, hc4, hc5, hc6⟩ := sanKVElem_out y k hy
    exact sanKVElem_roundtrip k hc1 hc2 hc3 hc4 hc5 hc6
      (hfixAll _ (mem_recordStrings_kv _ k (List.mem_append_left _ hk) _ (by simp)))
      (hfixAll _ (mem_recordStrings_kv _ k (List.mem_append_left _ hk) _ (by simp)))
  have hfu : arrMap (fieldOf (recordToJValue (sanitizeExtracted j)) "followUp") sanKVElem
      = (sanitizeExtracted j).followUp := by
    rw [show fieldOf (recordToJValue (sanitizeExtracted j)) "followUp" =
        some (JValue.jarr ((sanitizeExtracted j).followUp.map kvToJ)) from rfl]
    rw [show arrMap (some (JValue.jarr ((sanitizeExtracted j).followUp.map kvToJ)))
        sanKVElem = ((sanitizeExtracted j).followUp.map kvToJ).filterMap sanKVElem from rfl]
    refine filterMap_map_self _ _ _ ?_
    intro k hk
    obtain ⟨y, hy⟩ := mem_arrMap
      (show k ∈ arrMap (fieldOf (objOf j) "followUp") sanKVElem from hk)
    obtain ⟨hc1, hc2, hc3, hc4, hc5, hc6⟩ := sanKVElem_out y k hy
    exact sanKVElem_roundtrip k hc1 hc2 hc3 hc4 hc5 hc6
      (hfixAll _ (mem_recordStrings_kv _ k (List.mem_append_right _ hk) _ (by simp)))
      (hfixAll _ (mem_recordStrings_kv _ k (List.mem_append_right _ hk) _ (by simp)))
  have hconf : numConf (fieldOf (recordToJValue (sanitizeExtracted j)) "overallConfidence")
      = (sanitizeExtracted j).overallConfidence := by
    rw [show fieldOf (recordToJValue (sanitizeExtracted j)) "overallConfidence" =
        some (JValue.jnum (sanitizeExtracted j).overallConfidence) from rfl]
    refine numConf_roundtrip _ ?_ ?_
    · exact (numConf_bounds (fieldOf (objOf j) "overallConfidence")).1
    · exact (numConf_bounds (fieldOf (objOf j) "overallConfidence")).2
  have hunf : sanitizeExtracted (recordToJValue (sanitizeExtracted j)) =
      { patient := sanPatient (recordToJValue (sanitizeExtracted j))
        diagnoses := arrMap (fieldOf (recordToJValue (sanitizeExtracted j)) "diagnoses")
          sanDiagElem
        medications := arrMap (fieldOf (recordToJValue (sanitizeExtracted j)) "medications")
          sanMedElem
        vitals := arrMap (fieldOf (recordToJValue (sanitizeExtracted j)) "vitals")
          sanVitalElem
        labValues := arrMap (fieldOf (recordToJValue (sanitizeExtracted j)) "labValues")
          sanLabElem
        procedures := arrMap (fieldOf (recordToJValue (sanitizeExtracted j)) "procedures")
          sanProcElem
        dischargeInstructions := arrMap (fieldOf (recordToJValue (sanitizeExtracted j))
          "dischargeInstructions") sanKVElem
        followUp := arrMap (fieldOf (recordToJValue (sanitizeExtracted j)) "followUp")
          sanKVElem
        overallConfidence := numConf (fieldOf (recordToJValue (sanitizeExtracted j))
          "overallConfidence") } := rfl
  rw [hunf, hpat, hdx, hmed, hvit, hlab, hproc, hdi, hfu, hconf]

/-- C7 counterexample: the OCR fixup rule `\b1,(\d{2})` is not idempotent, so
neither is the sanitizer: an age of `1,1,23` sanitizes to `1,123`, and
sanitizing the sanitized record again turns it into `1123`, a different
record. -/
theorem c7_sanitize_not_idempotent_counterexample :
    (sanitizeExtracted (JValue.jobj [("patient",
      JValue.jobj [("age", JValue.jstr "1,1,23")])])).patient.age = "1,123" ∧
    (sanitizeExtracted (recordToJValue (sanitizeExtracted (JValue.jobj [("patient",
      JValue.jobj [("age", JValue.jstr "1,1,23")])]))) ).patient.age = "1123" ∧
    sanitizeExtracted (recordToJValue (sanitizeExtracted (JValue.jobj [("patient",
      JValue.jobj [("age", JValue.jstr "1,1,23")])]))) ≠
      sanitizeExtracted (JValue.jobj [("patient",
        JValue.jobj [("age", JValue.jstr "1,1,23")])]) := by
  with_unfolding_all decide

/-- C7 (amended): the sanitizer is idempotent on every input whose sanitized
output has all string fields fixed points of the OCR fixups — re-running
placeholder stripping, confidence clamping, route canonicalization, diagnosis
normalization and the entity filters on already-clean values changes
nothing. -/
theorem c7_sanitize_idem_amended (j : JValue)
    (hfix : strFixedB (sanitizeExtracted j) = true) :
    sanitizeExtracted (recordToJValue (sanitizeExtracted j)) = sanitizeExtracted j :=
  sanitize_roundtrip j hfix

/-- C7 witness: a record with a plain patient name sanitizes to an OCR-fixed
record, and re-sanitizing it changes nothing. -/
theorem c7_sanitize_idem_witness :
    strFixedB (sanitizeExtracted (JValue.jobj [("patient",
      JValue.jobj [("name", JValue.jstr "John Doe")])])) = true ∧
    sanitizeExtracted (recordToJValue (sanitizeExtracted (JValue.jobj [("patient",
      JValue.jobj [("name", JValue.jstr "John Doe")])]))) =
      sanitizeExtracted (JValue.jobj [("patient",
        JValue.jobj [("name", JValue.jstr "John Doe")])]) :=
  ⟨by with_unfolding_all decide,
   c7_sanitize_idem_amended (JValue.jobj [("patient",
     JValue.jobj [("name", JValue.jstr "John Doe")])])
     (by with_unfolding_all decide)⟩
